import Mathlib

/-!
# facil.io memory allocator (`fio_mem.c`)

A shallow embedding of `src/lib/facil/core/types/fiobj/fio_mem.c` for the
64 bit Linux build (`SIZE_MAX == 0xFFFFFFFFFFFFFFFF`, `mremap` available,
`FIO_FORCE_MALLOC` off).

* Addresses and sizes are natural numbers; `size_t` / `uintptr_t` arithmetic
  that can wrap is reduced modulo `WORD = 2 ^ 64`.
* Memory is one flat byte array `Mem`; block headers, large-allocation
  headers, list links and client data all live in it.
* The kernel is a deterministic function of an explicit list of placement
  decisions (`State.oracle`), one per `mmap` / `mremap` call.
* Functions that can spin (`arena_lock` and its callers) take a `fuel`
  argument that bounds the number of sweeps and return `none` when it is
  used up.
-/

namespace FioMem

/-! ## Build configuration -/

/-- The build-time constants of `fio_mem.h`, a header that is not part of the
sources at hand: they are parameters of the development. -/
structure Config where
  /-- The base two logarithm of `FIO_MEMORY_BLOCK_SIZE`. -/
  FIO_MEMORY_BLOCK_SIZE_LOG : Nat
  /-- Requests of at least this many bytes are served by `big_alloc`. -/
  FIO_MEMORY_BLOCK_ALLOC_LIMIT : Nat
  /-- The number of pooled blocks allowed per core. -/
  FIO_MEM_MAX_BLOCKS_PER_CORE : Nat

/-- The number of values of a `size_t` / `uintptr_t`. -/
def WORD : Nat := 2 ^ 64

/-- Modelled from the spec: `FIO_MEMORY_BLOCK_SIZE` of the missing `fio_mem.h`,
the block size `B`, a power of two. -/
def Config.FIO_MEMORY_BLOCK_SIZE (c : Config) : Nat :=
  2 ^ c.FIO_MEMORY_BLOCK_SIZE_LOG

/-- Modelled from the spec: `FIO_MEMORY_BLOCK_MASK` of the missing `fio_mem.h`,
the mask `B - 1` of the low `log2(B)` bits. -/
def Config.FIO_MEMORY_BLOCK_MASK (c : Config) : Nat :=
  c.FIO_MEMORY_BLOCK_SIZE - 1

/-- Modelled from the spec: `FIO_MEMORY_BLOCK_SLICES` of the missing
`fio_mem.h`, the number of 16 byte slice units in a block. -/
def Config.FIO_MEMORY_BLOCK_SLICES (c : Config) : Nat :=
  c.FIO_MEMORY_BLOCK_SIZE >>> 4

/-- The value of `sizeof(block_s)`: four `uint16_t` fields. -/
def sizeof_block_s : Nat := 8

/-- The value of `sizeof(arena_s)`: a pointer and a padded lock byte. -/
def sizeof_arena_s : Nat := 16

/-! ## Flat memory -/

/-- Byte addressed memory. -/
abbrev Mem := Nat → Nat

/-- Reads a little endian `uint16_t`. -/
def load16 (m : Mem) (a : Nat) : Nat :=
  m a % 256 + 256 * (m (a + 1) % 256)

/-- Writes a little endian `uint16_t` (the value is truncated to 16 bits). -/
def store16 (m : Mem) (a v : Nat) : Mem := fun x =>
  if x = a then v % 256 else if x = a + 1 then v / 256 % 256 else m x

/-- Reads a little endian 64 bit word. -/
def load64 (m : Mem) (a : Nat) : Nat :=
  m a % 256 + 256 * (m (a + 1) % 256 + 256 * (m (a + 2) % 256 + 256 * (m (a + 3) % 256 +
    256 * (m (a + 4) % 256 + 256 * (m (a + 5) % 256 + 256 * (m (a + 6) % 256 +
    256 * (m (a + 7) % 256)))))))

/-- Writes a little endian 64 bit word (the value is truncated to 64 bits). -/
def store64 (m : Mem) (a v : Nat) : Mem := fun x =>
  if a ≤ x ∧ x < a + 8 then v / 256 ^ (x - a) % 256 else m x

/-- The libc `memset`. -/
def memset (m : Mem) (a v len : Nat) : Mem := fun x =>
  if a ≤ x ∧ x < a + len then v % 256 else m x

/-! ## Allocator state -/

/-- One entry of the per-core arena array: `arena_s`. -/
structure arena_s where
  /-- The active block, `0` for `NULL`. -/
  block : Nat
  /-- The spin lock: `true` when held. -/
  lock : Bool
deriving DecidableEq, Repr

/-- The process state the allocator runs in: memory, the kernel's page table,
the static `memory` record, the `arenas` array and the calling thread's
`arena_last_used`. -/
structure State where
  /-- The bytes of the address space. -/
  mem : Mem
  /-- The pages (address divided by 4096) that are currently mapped. -/
  mapped : Nat → Bool
  /-- The kernel's answers to the coming `mmap` / `mremap` calls: `none` is
  `MAP_FAILED`, `some r` proposes the address `r`. -/
  oracle : List (Option Nat)
  /-- The static `next_alloc` hint of `sys_alloc`. -/
  next_alloc : Nat
  /-- The field `memory.count`. -/
  count : Int
  /-- The field `memory.cores`. -/
  cores : Nat
  /-- The blocks on the list `memory.available`, most recently pushed first. -/
  available : List Nat
  /-- The address of the list head `memory.available` itself. -/
  available_addr : Nat
  /-- The pointer `arenas`, `0` for `NULL`. -/
  arenas_ptr : Nat
  /-- The contents of the `arenas` array. -/
  arenas : List arena_s
  /-- The thread local `arena_last_used`, as an index into `arenas`. -/
  arena_last_used : Option Nat

/-! ## The kernel -/

/-- Rounds a length up to whole pages, as the kernel does. -/
def pageCeil (len : Nat) : Nat := (4095 + len) / 4096 * 4096

/-- No page of `[addr, addr + len)` is mapped. -/
def rangeFree (mapped : Nat → Bool) (addr len : Nat) : Bool :=
  (List.range (pageCeil len / 4096)).all fun i => !mapped (addr / 4096 + i)

/-- Every page of `[addr, addr + len)` is mapped. -/
def rangeMapped (mapped : Nat → Bool) (addr len : Nat) : Bool :=
  (List.range (pageCeil len / 4096)).all fun i => mapped (addr / 4096 + i)

/-- Marks the pages of `[addr, addr + len)` as mapped or unmapped. -/
def setRange (mapped : Nat → Bool) (addr len : Nat) (v : Bool) : Nat → Bool := fun pg =>
  if addr / 4096 ≤ pg ∧ pg < addr / 4096 + pageCeil len / 4096 then v else mapped pg

/-- Modelled from the spec: the kernel's anonymous private `mmap`, an external
primitive. The hint address is advisory and plays no role. The call fails when
the oracle says so or proposes a placement the kernel could not choose (not
page aligned, empty, outside the user half of the address space, or over a
mapped page); otherwise the pages are mapped and zero filled. -/
def mmap (len : Nat) (s : State) : Option Nat × State :=
  match s.oracle with
  | [] => (none, s)
  | none :: rest => (none, { s with oracle := rest })
  | some r :: rest =>
    if r ≠ 0 ∧ r % 4096 = 0 ∧ len ≠ 0 ∧ r + pageCeil len ≤ 2 ^ 63 ∧
        rangeFree s.mapped r len = true then
      (some r, { s with
        oracle := rest
        mapped := setRange s.mapped r len true
        mem := memset s.mem r 0 (pageCeil len) })
    else (none, { s with oracle := rest })

/-- Modelled from the spec: the kernel's `munmap`, an external primitive. A
misaligned address or an empty length is rejected (`EINVAL`) and changes
nothing. -/
def munmap (addr len : Nat) (s : State) : State :=
  if addr % 4096 = 0 ∧ len ≠ 0 then { s with mapped := setRange s.mapped addr len false }
  else s

/-- Copies `len` bytes from `src` to `dest` and zero fills the rest of the
`total` bytes at `dest`: the contents of a moved and grown mapping. -/
def moveBytes (m : Mem) (dest src len total : Nat) : Mem := fun x =>
  if dest ≤ x ∧ x < dest + len then m (src + (x - dest))
  else if dest ≤ x ∧ x < dest + total then 0
  else m x

/-- Modelled from the spec: the kernel's `mremap` with `MREMAP_MAYMOVE`, an
external primitive, used to grow a mapping. The oracle either fails the call or
lets it succeed. A successful call grows the mapping in place when the pages
that follow it are free; only when they are not does the mapping move, with its
contents, to the page aligned address the oracle proposes, which must have room
for the new length. -/
def mremap (old_address old_size new_size : Nat) (s : State) : Option Nat × State :=
  match s.oracle with
  | [] => (none, s)
  | none :: rest => (none, { s with oracle := rest })
  | some r :: rest =>
    if old_address % 4096 = 0 ∧ old_size ≠ 0 ∧ pageCeil old_size < pageCeil new_size ∧
        rangeMapped s.mapped old_address old_size = true then
      if old_address + pageCeil new_size ≤ 2 ^ 63 ∧
          rangeFree s.mapped (old_address + pageCeil old_size)
            (pageCeil new_size - pageCeil old_size) = true then
        (some old_address, { s with
          oracle := rest
          mapped := setRange s.mapped old_address new_size true
          mem := memset s.mem (old_address + pageCeil old_size) 0
            (pageCeil new_size - pageCeil old_size) })
      else if r ≠ 0 ∧ r % 4096 = 0 ∧ r + pageCeil new_size ≤ 2 ^ 63 ∧
          rangeFree s.mapped r new_size = true then
        (some r, { s with
          oracle := rest
          mapped := setRange (setRange s.mapped old_address old_size false) r new_size true
          mem := moveBytes s.mem r old_address (pageCeil old_size) (pageCeil new_size) })
      else (none, { s with oracle := rest })
    else (none, { s with oracle := rest })

/-! ## System memory wrappers -/

/-- The function `sys_alloc` (the branch without `MAP_ALIGNED`): maps `len`
bytes and, when the kernel's choice is not block aligned, maps
`len + FIO_MEMORY_BLOCK_SIZE` bytes instead and trims both ends. Returns
`0` for `NULL`. -/
def sys_alloc (c : Config) (len is_indi : Nat) (s : State) : Nat × State :=
  let r1 := mmap len s
  match r1.1 with
  | none => (0, r1.2)
  | some result =>
    if result &&& c.FIO_MEMORY_BLOCK_MASK ≠ 0 then
      let r2 := mmap ((len + c.FIO_MEMORY_BLOCK_SIZE) % WORD) (munmap result len r1.2)
      match r2.1 with
      | none => (0, r2.2)
      | some result =>
        let offset := c.FIO_MEMORY_BLOCK_SIZE - (result &&& c.FIO_MEMORY_BLOCK_MASK)
        let s4 := if offset ≠ 0 then munmap result offset r2.2 else r2.2
        let result := if offset ≠ 0 then result + offset else result
        let s5 := munmap (result + len) (c.FIO_MEMORY_BLOCK_SIZE - offset) s4
        (result, { s5 with
          next_alloc := (result + c.FIO_MEMORY_BLOCK_SIZE + 2 ^ 30 * is_indi) % WORD })
    else
      (result, { r1.2 with
        next_alloc := (result + c.FIO_MEMORY_BLOCK_SIZE + 2 ^ 30 * is_indi) % WORD })

/-- The function `sys_free`. -/
def sys_free (mem len : Nat) (s : State) : State := munmap mem len s

/-- The function `sys_realloc` (the `mremap` branch). -/
def sys_realloc (mem prev_len new_len : Nat) (s : State) : Nat × State :=
  if new_len > prev_len then
    match (mremap mem prev_len new_len s).1 with
    | none => (0, (mremap mem prev_len new_len s).2)
    | some result => (result, (mremap mem prev_len new_len s).2)
  else if (4096 + new_len) % WORD < prev_len then
    (mem, munmap (mem + new_len) (prev_len - new_len) s)
  else (mem, s)

/-- The function `sys_round_size`; `~4095` is the word with the low twelve
bits clear. -/
def sys_round_size (size : Nat) : Nat :=
  ((size &&& (WORD - 1 - 4095)) + 4096 * (if size &&& 4095 ≠ 0 then 1 else 0)) % WORD

/-! ## The recycled block list -/

/-- Modelled from the spec: `fio_ls_embd_push` of the missing `fio_llist.h`.
The pool is an intrusive doubly linked list: the two link pointers (`prev` at
offset 0, `next` at offset 8) overwrite the first bytes of the pushed block,
and the `next` pointer of the block that was on top is redirected to it. -/
def fio_ls_embd_push (node : Nat) (s : State) : State :=
  match s.available with
  | [] =>
    { s with
      available := [node]
      mem := store64 (store64 s.mem node s.available_addr) (node + 8) s.available_addr }
  | top :: rest =>
    { s with
      available := node :: top :: rest
      mem := store64 (store64 (store64 s.mem node top) (node + 8) s.available_addr)
        (top + 8) node }

/-- Modelled from the spec: `fio_ls_embd_pop` of the missing `fio_llist.h`:
unlinks and returns the block on top of the list, or `0` (`NULL`) when the list
is empty. The `next` pointer of the block below is redirected to the list
head. -/
def fio_ls_embd_pop (s : State) : Nat × State :=
  match s.available with
  | [] => (0, s)
  | [node] => (node, { s with available := [] })
  | node :: below :: rest =>
    (node, { s with
      available := below :: rest
      mem := store64 s.mem (below + 8) s.available_addr })

/-! ## Per-CPU arena management -/

/-- The lock of arena `i`; an index outside the array counts as held. -/
def arenaLocked (arenas : List arena_s) (i : Nat) : Bool :=
  match arenas.get? i with
  | some a => a.lock
  | none => true

/-- The block of arena `i`. -/
def arenaBlock (arenas : List arena_s) (i : Nat) : Nat :=
  match arenas.get? i with
  | some a => a.block
  | none => 0

/-- One pass of the `for` loop of `arena_lock`: the first index `i` with
`preffered ≤ i < cores`, `i ≠ preffered` and a free lock. -/
def arena_lock_sweep (arenas : List arena_s) (cores preffered : Nat) : Option Nat :=
  (List.range' preffered (cores - preffered)).find?
    fun i => decide (i ≠ preffered) && !arenaLocked arenas i

/-- The `do ... while (1)` loop of `arena_lock`, for at most `fuel` sweeps. -/
def arena_lock_loop : Nat → List arena_s → Nat → Nat → Option Nat
  | 0, _, _, _ => none
  | fuel + 1, arenas, cores, preffered =>
    match arena_lock_sweep arenas cores preffered with
    | some i => some i
    | none => arena_lock_loop fuel arenas cores 0

/-- Sets the lock of arena `i`. -/
def setLock (arenas : List arena_s) (i : Nat) (v : Bool) : List arena_s :=
  arenas.modify (fun a => { a with lock := v }) i

/-- Sets the block of arena `i`. -/
def setBlock (arenas : List arena_s) (i : Nat) (blk : Nat) : List arena_s :=
  arenas.modify (fun a => { a with block := blk }) i

/-- The function `arena_lock`: returns the index of the arena it locked, or
`none` when `fuel` sweeps found no free arena. -/
def arena_lock (fuel : Nat) (preffered : Option Nat) (s : State) : Option (Nat × State) :=
  let preffered := preffered.getD 0
  if arenaLocked s.arenas preffered = false then
    some (preffered, { s with arenas := setLock s.arenas preffered true })
  else
    match arena_lock_loop fuel s.arenas s.cores preffered with
    | some i => some (i, { s with arenas := setLock s.arenas i true })
    | none => none

/-- The function `arena_enter`. -/
def arena_enter (fuel : Nat) (s : State) : Option State :=
  match arena_lock fuel s.arena_last_used s with
  | some r => some { r.2 with arena_last_used := some r.1 }
  | none => none

/-- The function `arena_exit`. -/
def arena_exit (s : State) : State :=
  { s with arenas := setLock s.arenas (s.arena_last_used.getD 0) false }

/-! ## Block management -/

/-- The field `blk->ref`. -/
def block_ref (m : Mem) (blk : Nat) : Nat := load16 m blk

/-- The field `blk->pos`. -/
def block_pos (m : Mem) (blk : Nat) : Nat := load16 m (blk + 2)

/-- The field `blk->max`. -/
def block_max (m : Mem) (blk : Nat) : Nat := load16 m (blk + 4)

/-- The function `block_init`: writes the whole header, padding included. -/
def block_init (c : Config) (blk : Nat) (s : State) : State :=
  { s with
    mem := store16 (store16 (store16 (store16 s.mem blk 1)
      (blk + 2) (2 + (sizeof_block_s >>> 4)))
      (blk + 4) ((c.FIO_MEMORY_BLOCK_SLICES - 1) - (sizeof_block_s >>> 4)))
      (blk + 6) 0 }

/-- The cap `(intptr_t)(FIO_MEM_MAX_BLOCKS_PER_CORE * memory.cores)`. -/
def pool_cap (c : Config) (s : State) : Int :=
  let v := (c.FIO_MEM_MAX_BLOCKS_PER_CORE * s.cores) % WORD
  if v < 2 ^ 63 then (v : Int) else (v : Int) - (WORD : Int)

/-- The function `block_free`: drops one reference and, at zero, recycles the
block or hands it back to the kernel. -/
def block_free (c : Config) (blk : Nat) (s : State) : State :=
  let ref := (65535 + block_ref s.mem blk) % 65536
  let s1 := { s with mem := store16 s.mem blk ref }
  if ref ≠ 0 then s1
  else if s1.count + 1 > pool_cap c s1 then
    sys_free blk c.FIO_MEMORY_BLOCK_SIZE s1
  else
    fio_ls_embd_push blk
      { s1 with count := s1.count + 1, mem := memset s1.mem blk 0 c.FIO_MEMORY_BLOCK_SIZE }

/-- The function `block_new`: a recycled block when there is one, else a fresh
mapping. Returns `0` for `NULL`. -/
def block_new (c : Config) (s : State) : Nat × State :=
  let r := fio_ls_embd_pop s
  if r.1 ≠ 0 then
    (r.1, block_init c r.1
      { r.2 with count := r.2.count - 1, mem := store64 (store64 r.2.mem r.1 0) (r.1 + 8) 0 })
  else
    let r2 := sys_alloc c c.FIO_MEMORY_BLOCK_SIZE 0 r.2
    if r2.1 = 0 then (0, r2.2) else (r2.1, block_init c r2.1 r2.2)

/-- The arena the calling thread holds: `arena_last_used`. -/
def cur_arena (s : State) : Nat := s.arena_last_used.getD 0

/-- The first half of `block_slice`: the block to cut from. An empty arena
gets a new block; a block without room for `units` is released and replaced.
The choice is stored in the arena. -/
def block_slice_rotate (c : Config) (units : Nat) (s : State) : Nat × State :=
  let blk := arenaBlock s.arenas (cur_arena s)
  if blk = 0 then
    let r := block_new c s
    (r.1, { r.2 with arenas := setBlock r.2.arenas (cur_arena s) r.1 })
  else if block_pos s.mem blk + units > block_max s.mem blk then
    let r := block_new c (block_free c blk s)
    (r.1, { r.2 with arenas := setBlock r.2.arenas (cur_arena s) r.1 })
  else (blk, s)

/-- The header updates of `block_slice`: `spn_add(&blk->ref, 1)` and
`blk->pos += units`, both on 16 bit fields. -/
def cut_mem (m : Mem) (units blk : Nat) : Mem :=
  store16 (store16 m blk ((block_ref m blk + 1) % 65536)) (blk + 2)
    ((block_pos (store16 m blk ((block_ref m blk + 1) % 65536)) blk + units) % 65536)

/-- The second half of `block_slice`: cuts `units` units at `blk->pos`, takes a
reference, and releases the arena's hold on a block that is now full. -/
def block_slice_cut (c : Config) (units blk : Nat) (s : State) : Nat × State :=
  let mem := blk + (block_pos s.mem blk <<< 4)
  let m2 := cut_mem s.mem units blk
  if block_pos m2 blk ≥ block_max m2 blk then
    let s3 := block_free c blk { s with mem := m2 }
    (mem, { s3 with arenas := setBlock s3.arenas (cur_arena s) 0 })
  else (mem, { s with mem := m2 })

/-- The function `block_slice`; `units` is a `uint16_t`. -/
def block_slice (c : Config) (units : Nat) (s : State) : Nat × State :=
  let r := block_slice_rotate c units s
  if r.1 = 0 then (0, r.2) else block_slice_cut c units r.1 r.2

/-- The function `block_slice_free`; `~FIO_MEMORY_BLOCK_MASK` is the word with
the low bits clear. -/
def block_slice_free (c : Config) (mem : Nat) (s : State) : State :=
  block_free c (mem &&& (WORD - 1 - c.FIO_MEMORY_BLOCK_MASK)) s

/-! ## Non-block allocations (direct from the system) -/

/-- The function `big_alloc`. The result of `sys_alloc` is used unchecked: the
length is stored through it and it is offset by 16. -/
def big_alloc (c : Config) (size : Nat) (s : State) : Nat × State :=
  let size := sys_round_size ((size + 16) % WORD)
  let r := sys_alloc c size 1 s
  ((r.1 + 16) % WORD, { r.2 with mem := store64 r.2.mem r.1 size })

/-- The function `big_free`. -/
def big_free (ptr : Nat) (s : State) : State :=
  let mem := (WORD - 16 + ptr) % WORD
  sys_free mem (load64 s.mem mem) s

/-- The function `big_realloc`. -/
def big_realloc (ptr new_size : Nat) (s : State) : Nat × State :=
  let mem := (WORD - 16 + ptr) % WORD
  let new_size := sys_round_size ((new_size + 16) % WORD)
  let r := sys_realloc mem (load64 s.mem mem) new_size s
  if r.1 = 0 then (0, r.2)
  else ((r.1 + 16) % WORD, { r.2 with mem := store64 r.2.mem r.1 new_size })

/-! ## Memory copying by 16 byte units -/

/-- Copies the `size_t` word `dest[i] = src[i]`. -/
def copy_word (m : Mem) (dest src i : Nat) : Mem :=
  store64 m (dest + 8 * i) (load64 m (src + 8 * i))

/-- Copies the words `0 .. n - 1` in increasing order. -/
def copy_words (m : Mem) (dest src n : Nat) : Mem :=
  (List.range n).foldl (fun m i => copy_word m dest src i) m

/-- The `while (units)` loop of `fio_memcpy` in the 64 bit `size_t` variant
(`q = 2`), for at most `fuel` passes. The `default` case copies
`dest[0 .. 15]` without moving the pointers and lowers `units` by `16 / q`;
the case `k` for `1 ≤ k ≤ 15` falls through `k` assignments
`*(dest++) = *(src++)` and sets `units` to zero. -/
def fio_memcpy_loop : Nat → Mem → Nat → Nat → Nat → Mem
  | 0, m, _, _, _ => m
  | fuel + 1, m, dest, src, units =>
    if units = 0 then m
    else if 16 ≤ units then fio_memcpy_loop fuel (copy_words m dest src 16) dest src (units - 16 / 2)
    else copy_words m dest src units

/-- The function `fio_memcpy` (64 bit `size_t` variant). Every pass of the loop
lowers `units`, so `units` passes are enough. -/
def fio_memcpy (m : Mem) (dest src units : Nat) : Mem :=
  fio_memcpy_loop units m dest src units

/-! ## Library initialization and teardown -/

/-- The pre-seeding loop of `fio_mem_init`, for `n` more rounds. -/
def pre_pool_loop (c : Config) : Nat → State → State
  | 0, s => s
  | n + 1, s =>
    let r := sys_alloc c c.FIO_MEMORY_BLOCK_SIZE 0 s
    pre_pool_loop c n (if r.1 ≠ 0 then fio_ls_embd_push r.1 r.2 else r.2)

/-- The first half of `fio_mem_init`: sets `memory.cores` and `memory.count`
and allocates the arena array with `big_alloc`. The fresh mapping behind
`arenas` is zero, so every arena starts without a block and unlocked. -/
def fio_mem_init_arenas (c : Config) (cpu_count : Nat) (s : State) : State :=
  let r := big_alloc c ((sizeof_arena_s * cpu_count) % WORD)
    { s with cores := cpu_count, count := 0 - (cpu_count : Int) }
  { r.2 with
    arenas_ptr := r.1
    arenas := List.replicate cpu_count { block := 0, lock := false } }

/-- The function `fio_mem_init`; `cpu_count` is the answer of `sysconf`. The
result is `none` when the function calls `exit`. -/
def fio_mem_init (c : Config) (cpu_count : Nat) (s : State) : Option State :=
  if s.arenas_ptr ≠ 0 then some s
  else if (fio_mem_init_arenas c cpu_count s).arenas_ptr = 0 then none
  else
    some (pre_pool_loop c (if cpu_count > 32 then 32 else cpu_count)
      (fio_mem_init_arenas c cpu_count s))

/-- The body of the arena loop of `fio_mem_destroy`. -/
def destroy_arena (c : Config) (s : State) (i : Nat) : State :=
  let s1 := if arenaBlock s.arenas i ≠ 0 then block_free c (arenaBlock s.arenas i) s else s
  { s1 with arenas := setBlock s1.arenas i 0 }

/-- The loop of `fio_mem_destroy` that empties the list, for at most `n`
rounds. -/
def destroy_drain (c : Config) : Nat → State → State
  | 0, s => s
  | n + 1, s =>
    let r := fio_ls_embd_pop s
    if r.1 = 0 then r.2 else destroy_drain c n (sys_free r.1 c.FIO_MEMORY_BLOCK_SIZE r.2)

/-- The function `fio_mem_destroy`. The list is finite, so its length bounds
the rounds of the draining loop. -/
def fio_mem_destroy (c : Config) (s : State) : State :=
  if s.arenas_ptr = 0 then s
  else
    let s1 := (List.range s.cores).foldl (destroy_arena c) s
    let s2 := destroy_drain c (s1.available.length + 1) s1
    let s3 := big_free s2.arenas_ptr s2
    { s3 with arenas_ptr := 0 }

/-! ## Memory allocation / deallocation API -/

/-- The ceiling of `size / 16`, written `(size >> 4) + (!!(size & 15))` in
`fio_malloc` and `fio_realloc2`. -/
def slice_units (size : Nat) : Nat :=
  (size >>> 4) + (if size &&& 15 ≠ 0 then 1 else 0)

/-- The function `fio_malloc`. Returns `none` when `arena_enter` does not
return within `fuel` sweeps; the pointer `0` is `NULL`. -/
def fio_malloc (c : Config) (fuel size : Nat) (s : State) : Option (Nat × State) :=
  if size = 0 then some (0, s)
  else if size ≥ c.FIO_MEMORY_BLOCK_ALLOC_LIMIT then some (big_alloc c size s)
  else
    match arena_enter fuel s with
    | none => none
    | some s1 =>
      let r := block_slice c (slice_units size % 65536) s1
      some (r.1, arena_exit r.2)

/-- The function `fio_calloc`. -/
def fio_calloc (c : Config) (fuel size count : Nat) (s : State) : Option (Nat × State) :=
  fio_malloc c fuel ((size * count) % WORD) s

/-- The function `fio_free`. -/
def fio_free (c : Config) (ptr : Nat) (s : State) : State :=
  if ptr = 0 then s
  else if ptr &&& c.FIO_MEMORY_BLOCK_MASK = 16 then big_free ptr s
  else block_slice_free c ptr s

/-- Rounds a byte count up to whole 16 byte units, as `fio_realloc2` does
twice. -/
def ceil16 (size : Nat) : Nat :=
  (slice_units size <<< 4) % WORD

/-- The unit count `fio_realloc2` passes to `fio_memcpy`: the smaller of the two
rounded sizes, shifted right by 4. -/
def realloc_units (original_size new_size : Nat) : Nat :=
  (if ceil16 original_size > ceil16 new_size then ceil16 new_size
    else ceil16 original_size) >>> 4

/-- The function `fio_realloc2`. -/
def fio_realloc2 (c : Config) (fuel ptr original_size new_size : Nat) (s : State) :
    Option (Nat × State) :=
  if ptr = 0 then fio_malloc c fuel new_size s
  else if ptr &&& c.FIO_MEMORY_BLOCK_MASK = 16 then some (big_realloc ptr new_size s)
  else
    match fio_malloc c fuel new_size s with
    | none => none
    | some r =>
      if r.1 = 0 then some (0, r.2)
      else
        some (r.1, block_slice_free c ptr
          { r.2 with mem := fio_memcpy r.2.mem r.1 ptr (realloc_units original_size new_size) })

/-- The function `fio_realloc`. -/
def fio_realloc (c : Config) (fuel ptr new_size : Nat) (s : State) : Option (Nat × State) :=
  fio_realloc2 c fuel ptr
    (c.FIO_MEMORY_BLOCK_SIZE - (ptr &&& c.FIO_MEMORY_BLOCK_MASK)) new_size s

/-! ## Processes and clients -/

/-- The state of a process before `fio_mem_init` ran: nothing is mapped, the
static data holds its initializers (`memory.cores = 1`, an empty list,
`arenas == NULL`) and the kernel will answer with `oracle`. -/
def boot (oracle : List (Option Nat)) : State :=
  { mem := fun _ => 0
    mapped := fun _ => false
    oracle := oracle
    next_alloc := 0
    count := 0
    cores := 1
    available := []
    available_addr := 4096
    arenas_ptr := 0
    arenas := []
    arena_last_used := none }

/-- A client stores the byte `v` at address `a`. -/
def client_write (a v : Nat) (s : State) : State :=
  { s with mem := fun x => if x = a then v % 256 else s.mem x }

/-- The default build: 64 KiB blocks, half a block as the limit of the block
allocations and 32 pooled blocks per core. -/
def defaultConfig : Config :=
  { FIO_MEMORY_BLOCK_SIZE_LOG := 16
    FIO_MEMORY_BLOCK_ALLOC_LIMIT := 32768
    FIO_MEM_MAX_BLOCKS_PER_CORE := 32 }

/-! ## Configurations the development covers -/

/-- The block size is between 64 bytes and 1 MiB, so that a block holds a header
and at least one slice and the slice count fits the 16 bit header fields. -/
def Config.ok (c : Config) : Prop :=
  6 ≤ c.FIO_MEMORY_BLOCK_SIZE_LOG ∧ c.FIO_MEMORY_BLOCK_SIZE_LOG ≤ 20

/-- A request below the limit fits a fresh block: its units end at or before
`max`. -/
def Config.limit_fits (c : Config) : Prop :=
  c.FIO_MEMORY_BLOCK_ALLOC_LIMIT + 47 ≤ c.FIO_MEMORY_BLOCK_SIZE

/-- A usable block address: not `NULL`, block aligned and inside the user half
of the address space. -/
def AddrOK (c : Config) (blk : Nat) : Prop :=
  blk ≠ 0 ∧ blk % c.FIO_MEMORY_BLOCK_SIZE = 0 ∧ blk + c.FIO_MEMORY_BLOCK_SIZE ≤ 2 ^ 63

/-- The header of an arena's active block: the block still has room
(`pos < max`), `pos` is past the header and `max` is inside the block. -/
def HeaderOK (c : Config) (m : Mem) (blk : Nat) : Prop :=
  AddrOK c blk ∧ 2 ≤ block_pos m blk ∧ block_pos m blk < block_max m blk ∧
    block_max m blk < c.FIO_MEMORY_BLOCK_SLICES

/-- What a small allocation relies on when it is entered: the arena of the
calling thread is unlocked, its active block (when it has one) has a sound
header, and the recycled blocks are usable block addresses. -/
def Ready (c : Config) (s : State) : Prop :=
  arenaLocked s.arenas (cur_arena s) = false ∧
  (arenaBlock s.arenas (cur_arena s) ≠ 0 → HeaderOK c s.mem (arenaBlock s.arenas (cur_arena s))) ∧
  (∀ b ∈ s.available, AddrOK c b)

/-- The static data of the allocator agrees in two states. -/
def SameStatic (s s' : State) : Prop :=
  s'.count = s.count ∧ s'.cores = s.cores ∧ s'.available = s.available ∧
  s'.available_addr = s.available_addr ∧ s'.arenas_ptr = s.arenas_ptr ∧
  s'.arenas = s.arenas ∧ s'.arena_last_used = s.arena_last_used

/-- The state right after `arena_enter` returned on an unlocked preferred
arena. -/
def entered (s : State) : State :=
  { s with
    arenas := setLock s.arenas (cur_arena s) true
    arena_last_used := some (cur_arena s) }

/-- The kernel's choices for the sample process. -/
def sampleOracle : List (Option Nat) :=
  [some 0x10000000, some 0x20000000, some 0x30000000, some 0x40000000, some 0x50000000]

/-- A process that ran `fio_mem_init` on one core; the kernel placed the arena
array at `0x10000000` and the pre-seeded block at `0x20000000` and will place
the next mappings at `0x30000000`, `0x40000000` and `0x50000000`. -/
def sampleState : State :=
  (fio_mem_init defaultConfig 1 (boot sampleOracle)).getD (boot [])

/-- The page `pg` belongs to the pages of `[addr, addr + len)`. -/
def inPages (addr len pg : Nat) : Prop :=
  addr / 4096 ≤ pg ∧ pg < addr / 4096 + pageCeil len / 4096

/-- The block size is a multiple of the page size, as `sys_alloc` requires of
its `len` ("requires page aligned `len`"). -/
def Config.paged (c : Config) : Prop := 12 ≤ c.FIO_MEMORY_BLOCK_SIZE_LOG

/-! ## Histories -/

/-- One call of the public API. -/
inductive Call where
  | malloc (size : Nat)
  | calloc (size count : Nat)
  | free (ptr : Nat)
  | realloc (ptr new_size : Nat)
  | realloc2 (ptr original_size new_size : Nat)

/-- The state after one call; `none` when the call does not return. -/
def call (c : Config) (fuel : Nat) : Call → State → Option State
  | .malloc size, s => (fio_malloc c fuel size s).map Prod.snd
  | .calloc size count, s => (fio_calloc c fuel size count s).map Prod.snd
  | .free ptr, s => some (fio_free c ptr s)
  | .realloc ptr new_size, s => (fio_realloc c fuel ptr new_size s).map Prod.snd
  | .realloc2 ptr original_size new_size, s =>
    (fio_realloc2 c fuel ptr original_size new_size s).map Prod.snd

/-- The state after a sequential history of calls. -/
def run (c : Config) (fuel : Nat) : List Call → State → Option State
  | [], s => some s
  | x :: xs, s =>
    match call c fuel x s with
    | none => none
    | some s1 => run c fuel xs s1

/-- The pool counter is at most the cap the code compares it with, or still at
most its initial bias. -/
def CapInv (c : Config) (s : State) : Prop :=
  s.count ≤ pool_cap c s ∨ s.count ≤ -(s.cores : Int)

/-- A short history for the sample process. -/
def sampleHistory : List Call :=
  [.malloc 1, .free 0x20000020, .malloc 40000, .realloc 0x30000010 100000, .calloc 8 8]

/-- The state of the sample process after `sampleHistory`. -/
def sampleFinal : State :=
  (run defaultConfig 1 sampleHistory sampleState).getD sampleState

/-! ## Reference counts of a small-path history -/

/-- The block an address lies in: the address with the low bits cleared. -/
def blockOf (c : Config) (p : Nat) : Nat := p - p % c.FIO_MEMORY_BLOCK_SIZE

/-- The number of slices of block `b` that were handed out and not yet freed. -/
def sliceCount (c : Config) (live : List Nat) (b : Nat) : Nat :=
  live.countP fun p => blockOf c p == b

/-- One when `b` is the active block of an arena, zero otherwise. -/
def activeCount (arenas : List arena_s) (b : Nat) : Nat :=
  if arenas.any (fun a => a.block == b) then 1 else 0

/-- The references the block `b` should hold. -/
def holders (c : Config) (s : State) (live : List Nat) (b : Nat) : Nat :=
  sliceCount c live b + activeCount s.arenas b

/-- Every page of the block `b` is mapped. -/
def BlockMapped (c : Config) (s : State) (b : Nat) : Prop :=
  ∀ pg, inPages b c.FIO_MEMORY_BLOCK_SIZE pg → s.mapped pg = true

/-- No page of the block `b` is mapped. -/
def BlockFree (c : Config) (s : State) (b : Nat) : Prop :=
  ∀ pg, inPages b c.FIO_MEMORY_BLOCK_SIZE pg → s.mapped pg = false

/-- The allocator's view of a small-path history: the recycled blocks are
distinct, mapped, unreferenced blocks; every outstanding pointer lies at least
32 bytes into a mapped block; the active block `A` of the first arena is
mapped with `max < slices`; and every referenced block holds exactly its
references and has `pos` past the slices cut from it. -/
structure Core (c : Config) (s : State) (live : List Nat) (A : Nat) : Prop where
  pool : ∀ b ∈ s.available, AddrOK c b ∧ BlockMapped c s b ∧ b ≠ A ∧ sliceCount c live b = 0
  nodup : s.available.Nodup
  live_ok : ∀ p ∈ live, AddrOK c (blockOf c p) ∧ 32 ≤ p % c.FIO_MEMORY_BLOCK_SIZE ∧
    BlockMapped c s (blockOf c p)
  active : A ≠ 0 → AddrOK c A ∧ BlockMapped c s A ∧
    block_max s.mem A < c.FIO_MEMORY_BLOCK_SLICES
  refs : ∀ b, AddrOK c b → 0 < sliceCount c live b + (if b = A then 1 else 0) →
    block_ref s.mem b = sliceCount c live b + (if b = A then 1 else 0) ∧
      sliceCount c live b + 2 ≤ block_pos s.mem b

/-- Memory changes only inside the block `b` and in the `next` link words of
the recycled blocks. -/
def MemOnly (c : Config) (s s' : State) (b : Nat) : Prop :=
  ∀ x, (x < b ∨ b + c.FIO_MEMORY_BLOCK_SIZE ≤ x) →
    (∀ t ∈ s.available, x < t + 8 ∨ t + 16 ≤ x) → s'.mem x = s.mem x

/-- The arena array of a single threaded process: the first arena holds the
block `A` and has its lock in state `l`; the other arenas were never used. -/
def Shape (s : State) (A : Nat) (l : Bool) : Prop :=
  ∃ k, s.arenas = { block := A, lock := l } :: List.replicate k { block := 0, lock := false }

/-- The invariant of a single threaded small-path history: the first arena is
the calling thread's arena and is unlocked between calls, and the view is
sound for its active block. -/
def SmallInv (c : Config) (s : State) (live : List Nat) : Prop :=
  ∃ A, Shape s A false ∧ cur_arena s = 0 ∧ Core c s live A

/-- One call of a small-path history, on the state and the list of the
outstanding slices: `fio_malloc` of a size on the small path, `fio_free(NULL)`,
or `fio_free` of an outstanding slice. Any other call is not part of such a
history (`none`), as is a `fio_malloc` that does not return. -/
def small_step (c : Config) (fuel : Nat) (k : Call) (x : State × List Nat) :
    Option (State × List Nat) :=
  match k with
  | .malloc n =>
    if 0 < n ∧ n < c.FIO_MEMORY_BLOCK_ALLOC_LIMIT then
      match fio_malloc c fuel n x.1 with
      | none => none
      | some r => some (r.2, if r.1 = 0 then x.2 else r.1 :: x.2)
    else none
  | .free p =>
    if p = 0 then some (fio_free c p x.1, x.2)
    else if p ∈ x.2 then some (fio_free c p x.1, x.2.erase p)
    else none
  | _ => none

/-- A sequential small-path history without double free. -/
def small_run (c : Config) (fuel : Nat) : List Call → State × List Nat →
    Option (State × List Nat)
  | [], x => some x
  | k :: ks, x =>
    match small_step c fuel k x with
    | none => none
    | some y => small_run c fuel ks y

/-! ## Scenarios -/

/-- A 16 byte allocation gets the byte `'a'` at offset 8 and is resized to 16
bytes with `fio_realloc2`: the old pointer, the new pointer, the byte at offset
8 before the call and the byte at offset 8 of the result. -/
def realloc_scenario : Option (Nat × Nat × Nat × Nat) :=
  match fio_malloc defaultConfig 1 16 sampleState with
  | none => none
  | some r =>
    match fio_realloc2 defaultConfig 1 r.1 16 16 (client_write (r.1 + 8) 97 r.2) with
    | none => none
    | some r2 =>
      some (r.1, r2.1, (client_write (r.1 + 8) 97 r.2).mem (r.1 + 8), r2.2.mem (r2.1 + 8))

/-- A request of `FIO_MEMORY_BLOCK_ALLOC_LIMIT` bytes in a process whose kernel
refuses the mapping: the pointer `fio_malloc` returns and the word that was
stored at address 0. -/
def oom_scenario : Option (Nat × Nat) :=
  match fio_malloc defaultConfig 1 32768 (boot [none]) with
  | none => none
  | some r => some (r.1, load64 r.2.mem 0)

/-- A large allocation of 32768 bytes (nine pages with its header) is resized
to 28672 bytes (eight pages) and freed: the two pointers, the length in the
header after the resize, whether all nine pages are still mapped after the
resize, whether the first eight pages are unmapped after `fio_free`, and whether
the ninth page is still mapped after `fio_free`. -/
def shrink_scenario : Option (Nat × Nat × Nat × Bool × Bool × Bool) :=
  match fio_malloc defaultConfig 1 32768 sampleState with
  | none => none
  | some r =>
    match fio_realloc defaultConfig 1 r.1 28672 r.2 with
    | none => none
    | some r2 =>
      some (r.1, r2.1, load64 r2.2.mem 0x30000000,
        rangeMapped r2.2.mapped 0x30000000 36864,
        rangeFree (fio_free defaultConfig r2.1 r2.2).mapped 0x30000000 32768,
        (fio_free defaultConfig r2.1 r2.2).mapped ((0x30000000 + 32768) / 4096))

/-- The history of `shrink_scenario` followed by `fio_mem_destroy`: whether the
ninth page of the large mapping is still mapped at the end, the recycled list,
the pointer `arenas`, and whether the arena array and the pre-seeded block are
unmapped. -/
def teardown_scenario : Option (Bool × List Nat × Nat × Bool × Bool) :=
  match fio_malloc defaultConfig 1 32768 sampleState with
  | none => none
  | some r =>
    match fio_realloc defaultConfig 1 r.1 28672 r.2 with
    | none => none
    | some r2 =>
      let s := fio_mem_destroy defaultConfig (fio_free defaultConfig r2.1 r2.2)
      some (s.mapped ((0x30000000 + 32768) / 4096), s.available, s.arenas_ptr,
        rangeFree s.mapped 0x10000000 4096, rangeFree s.mapped 0x20000000 65536)

/-- A history in which a grown large allocation has to move. The kernel places
the arena array at `0x10000000`, the pre-seeded block at `0x20000000`, a large
allocation `l` of 17 pages at `0x30000000`, a large allocation `m` at
`0x40000000` and a large allocation `n` at `0x40010000`. Growing `m` to 131072
bytes cannot happen in place (`n` is in the way), so the kernel moves it to the
free pages at `0x30011000`, right behind `l`. The client then stores 1 at
offset 65520 of `l` (which is live), frees the moved allocation, stores `'a'`
at offset 65552 of `l` and calls `fio_calloc(16, 1)`. The result lists the
pointers of `l`, `m`, the moved `m`, the pointer `fio_calloc` returns, the first
byte of its result, and the recycled list after the `fio_free`. -/
def calloc_scenario : Option (Nat × Nat × Nat × Nat × Nat × List Nat) :=
  match fio_mem_init defaultConfig 1
      (boot [some 0x10000000, some 0x20000000, some 0x30000000, some 0x40000000,
        some 0x40010000, some 0x30011000]) with
  | none => none
  | some s0 =>
    match fio_malloc defaultConfig 1 69616 s0 with
    | none => none
    | some l =>
      match fio_malloc defaultConfig 1 32768 l.2 with
      | none => none
      | some m =>
        match fio_malloc defaultConfig 1 32768 m.2 with
        | none => none
        | some n =>
          match fio_realloc defaultConfig 1 m.1 131072 n.2 with
          | none => none
          | some m' =>
            let s1 := client_write (l.1 + 65520) 1 m'.2
            let s2 := fio_free defaultConfig m'.1 s1
            let s3 := client_write (l.1 + 65552) 97 s2
            match fio_calloc defaultConfig 1 16 1 s3 with
            | none => none
            | some z => some (l.1, m.1, m'.1, z.1, z.2.mem z.1, s2.available)

/-- A history that uses up a block with one outstanding slice. -/
def smallHistory : List Call := [.malloc 32720, .free 0x20000020, .malloc 32767]

/-- The sample process after `smallHistory`. -/
def smallFinal : State × List Nat :=
  (small_run defaultConfig 1 smallHistory (sampleState, [])).getD (sampleState, [])

/-- The sample process runs `smallHistory` and frees the slice it still holds:
the two pointers, the `ref` of the block after the second allocation, the
`ref` field and the first link word of the block after the last `fio_free`, and
the recycled list at the end. -/
def ref_scenario : Option (Nat × Nat × Nat × Nat × Nat × List Nat) :=
  match fio_malloc defaultConfig 1 32720 sampleState with
  | none => none
  | some a =>
    match fio_malloc defaultConfig 1 32767 (fio_free defaultConfig a.1 a.2) with
    | none => none
    | some b =>
      some (a.1, b.1, block_ref b.2.mem 0x20000000,
        block_ref (fio_free defaultConfig b.1 b.2).mem 0x20000000,
        load64 (fio_free defaultConfig b.1 b.2).mem 0x20000000,
        (fio_free defaultConfig b.1 b.2).available)

/-- Two arenas of which only the first is free: the state of a process with
two cores in which another thread holds the second arena. -/
def stuckState : State :=
  { boot [] with
    cores := 2
    arenas_ptr := 0x10000010
    arenas := [{ block := 0, lock := false }, { block := 0, lock := true }] }

/-- In the sample process `fio_calloc(2^63 + 8, 2)`, whose product wraps to 16,
is followed by `fio_malloc(1)`: the two pointers. -/
def calloc_wrap_scenario : Option (Nat × Nat) :=
  match fio_calloc defaultConfig 1 (2 ^ 63 + 8) 2 sampleState with
  | none => none
  | some r =>
    match fio_malloc defaultConfig 1 1 r.2 with
    | none => none
    | some r2 => some (r.1, r2.1)

/-- The function `fio_malloc` called `k` times in a row for `n` bytes: the
pointers in the order of the calls and the state at the end; `none` when a call
does not return. -/
def malloc_seq (c : Config) (fuel n : Nat) : Nat → State → Option (List Nat × State)
  | 0, s => some ([], s)
  | k + 1, s =>
    match fio_malloc c fuel n s with
    | none => none
    | some r =>
      match malloc_seq c fuel n k r.2 with
      | none => none
      | some q => some (r.1 :: q.1, q.2)

/-- The first slice of the sample process. -/
def firstSlice : Nat × State :=
  (fio_malloc defaultConfig 1 1 sampleState).getD (0, sampleState)

/-- A process on one core whose kernel granted the arena array and refuses
every later mapping: the recycled list is empty. -/
def oomState : State :=
  (fio_mem_init defaultConfig 1 (boot [some 0x10000000])).getD (boot [])

/-- The result of `fio_malloc(1)` in `oomState`. -/
def oomSmall : Nat × State :=
  (fio_malloc defaultConfig 1 1 oomState).getD (0, oomState)

/-- A process on one core whose kernel grants the arena array and one block.
`fio_malloc(32736)` leaves 2047 units in the block and `fio_malloc(32767)`
needs 2048: the two pointers, the arena's block before and after the second
call, and the `ref` of the block `0x20000000` before and after it. -/
def rotate_fail_scenario : Option (Nat × Nat × Nat × Nat × Nat × Nat) :=
  match fio_mem_init defaultConfig 1 (boot [some 0x10000000, some 0x20000000]) with
  | none => none
  | some s0 =>
    match fio_malloc defaultConfig 1 32736 s0 with
    | none => none
    | some a =>
      match fio_malloc defaultConfig 1 32767 a.2 with
      | none => none
      | some b =>
        some (a.1, b.1, arenaBlock a.2.arenas 0, arenaBlock b.2.arenas 0,
          block_ref a.2.mem 0x20000000, block_ref b.2.mem 0x20000000)

/-- Whether `block_slice`, called for `units` units in the state `s`, takes a
new block: the arena's slot is empty or its block has no room, the two branches
in which `block_new` runs and `block_init` starts a lifetime of the block. -/
def takes_new_block (units : Nat) (s : State) : Bool :=
  decide (arenaBlock s.arenas (cur_arena s) = 0) ||
    decide (block_pos s.mem (arenaBlock s.arenas (cur_arena s)) + units >
      block_max s.mem (arenaBlock s.arenas (cur_arena s)))

/-- The record of the slices, as pairs of address and length in bytes, that
were cut from each block in its current lifetime, after `fio_malloc(n)` returned
the pointer `p` in the state `s`: when the call took a new block, the slices of
earlier lifetimes of that block are dropped. -/
def record_cut (c : Config) (n p : Nat) (s : State) (cuts : List (Nat × Nat)) :
    List (Nat × Nat) :=
  (p, 16 * slice_units n) ::
    (if takes_new_block (slice_units n % 65536) s then
      cuts.filter fun e => blockOf c e.1 != blockOf c p
    else cuts)

/-- One call of a small-path history, as `small_step`, together with the record
of the slices cut in the current lifetime of each block. -/
def slice_step (c : Config) (fuel : Nat) (k : Call) (x : (State × List Nat) × List (Nat × Nat)) :
    Option ((State × List Nat) × List (Nat × Nat)) :=
  match small_step c fuel k x.1 with
  | none => none
  | some y =>
    match k with
    | .malloc n =>
      match fio_malloc c fuel n x.1.1 with
      | none => none
      | some r => some (y, if r.1 = 0 then x.2 else record_cut c n r.1 x.1.1 x.2)
    | _ => some (y, x.2)

/-- A sequential small-path history with the record of the slices. -/
def slice_run (c : Config) (fuel : Nat) :
    List Call → (State × List Nat) × List (Nat × Nat) →
      Option ((State × List Nat) × List (Nat × Nat))
  | [], x => some x
  | k :: ks, x =>
    match slice_step c fuel k x with
    | none => none
    | some y => slice_run c fuel ks y

/-- Two recorded slices of one block do not overlap. -/
def Apart (c : Config) (e1 e2 : Nat × Nat) : Prop :=
  blockOf c e1.1 = blockOf c e2.1 → e1.1 + e1.2 ≤ e2.1 ∨ e2.1 + e2.2 ≤ e1.1

/-- The invariant of the record: every recorded slice lies in its block past
the first 32 bytes, the recorded slices of a block are pairwise apart, the
slices of the arena's block `A` end at or before its `pos`, and every
outstanding slice is recorded. -/
structure CutsInv (c : Config) (s : State) (live : List Nat) (A : Nat)
    (cuts : List (Nat × Nat)) : Prop where
  inside : ∀ e ∈ cuts, 32 ≤ e.1 % c.FIO_MEMORY_BLOCK_SIZE ∧
    e.1 % c.FIO_MEMORY_BLOCK_SIZE + e.2 ≤ c.FIO_MEMORY_BLOCK_SIZE ∧ 0 < e.2
  apart : cuts.Pairwise (Apart c)
  below : A ≠ 0 → ∀ e ∈ cuts, blockOf c e.1 = A → e.1 + e.2 ≤ A + 16 * block_pos s.mem A
  recorded : ∀ p ∈ live, ∃ len, (p, len) ∈ cuts

/-- The state, the outstanding slices and the record after two allocations and
one release in the sample process. -/
def sliceFinal : (State × List Nat) × List (Nat × Nat) :=
  (slice_run defaultConfig 1 [.malloc 100, .malloc 40, .free 0x20000020]
    ((sampleState, []), [])).getD ((sampleState, []), [])

/-- The invariant of a small-path history with its record of slices. -/
def SliceInv (c : Config) (x : (State × List Nat) × List (Nat × Nat)) : Prop :=
  ∃ A, Shape x.1.1 A false ∧ cur_arena x.1.1 = 0 ∧ Core c x.1.1 x.1.2 A ∧
    CutsInv c x.1.1 x.1.2 A x.2

/-- A memory with a source buffer of 256 non-zero bytes at `0x1000` and zero
bytes everywhere else, the destination buffer at `0x2000` included. -/
def copyMem : Mem := fun x =>
  if 0x1000 ≤ x ∧ x < 0x1100 then 1 + (x - 0x1000) % 251 else 0

/-- The function `fio_memcpy` with the destination `0x2000` and the source
`0x1000` in `copyMem`: the first 16 bytes of the destination after a copy of one
unit, the first 16 bytes of the source, and the bytes at offset 128 of the
destination and of the source after a copy of 16 units. -/
def memcpy_scenario : List Nat × List Nat × Nat × Nat :=
  ((List.range 16).map fun i => fio_memcpy copyMem 0x2000 0x1000 1 (0x2000 + i),
    (List.range 16).map fun i => copyMem (0x1000 + i),
    fio_memcpy copyMem 0x2000 0x1000 16 (0x2000 + 128),
    copyMem (0x1000 + 128))

/-! # Properties -/

/-! ## Bit masks -/

theorem land_low (p k : Nat) : p &&& (2 ^ k - 1) = p % 2 ^ k :=
  Nat.and_pow_two_sub_one_eq_mod p k

theorem land_high (p k : Nat) (hk : k ≤ 64) (hp : p < 2 ^ 64) :
    p &&& (2 ^ 64 - 1 - (2 ^ k - 1)) = p - p % 2 ^ k := by
  have e1 : 2 ^ 64 - 1 - (2 ^ k - 1) = (2 ^ (64 - k) - 1) <<< k := by
    rw [Nat.shiftLeft_eq, Nat.sub_mul, ← Nat.pow_add, Nat.sub_add_cancel hk]
    have : 1 ≤ 2 ^ k := Nat.one_le_two_pow
    omega
  have e2 : p - p % 2 ^ k = (p >>> k) <<< k := by
    rw [Nat.shiftLeft_eq, Nat.shiftRight_eq_div_pow]
    have := Nat.div_add_mod p (2 ^ k)
    rw [Nat.mul_comm] at this
    omega
  rw [e1, e2]
  apply Nat.eq_of_testBit_eq
  intro i
  simp only [Nat.testBit_land, Nat.testBit_shiftLeft, Nat.testBit_shiftRight,
    Nat.testBit_two_pow_sub_one]
  by_cases hi : k ≤ i
  · by_cases h64 : i < 64
    · have : i - k < 64 - k := by omega
      have e : k + (i - k) = i := by omega
      simp [hi, this, e]
    · have hf : p.testBit i = false := by
        apply Nat.testBit_eq_false_of_lt
        exact lt_of_lt_of_le hp (Nat.pow_le_pow_right (by norm_num) (by omega))
      have e : k + (i - k) = i := by omega
      simp [hi, hf, e]
  · simp [hi]

theorem and_mask (c : Config) (p : Nat) :
    p &&& c.FIO_MEMORY_BLOCK_MASK = p % c.FIO_MEMORY_BLOCK_SIZE := by
  unfold Config.FIO_MEMORY_BLOCK_MASK Config.FIO_MEMORY_BLOCK_SIZE
  exact land_low p _

theorem and_not_mask (c : Config) (hc : c.ok) (p : Nat) (hp : p < WORD) :
    p &&& (WORD - 1 - c.FIO_MEMORY_BLOCK_MASK) = p - p % c.FIO_MEMORY_BLOCK_SIZE := by
  unfold Config.FIO_MEMORY_BLOCK_MASK Config.FIO_MEMORY_BLOCK_SIZE
  have h := hc.2
  exact land_high p _ (by omega) hp

theorem and_15 (p : Nat) : p &&& 15 = p % 16 := land_low p 4

/-- The block size is sixteen times the slice count, which is between 4 and
65536. -/
theorem Config.ok.size_eq {c : Config} (hc : c.ok) :
    c.FIO_MEMORY_BLOCK_SIZE = 16 * c.FIO_MEMORY_BLOCK_SLICES ∧
      4 ≤ c.FIO_MEMORY_BLOCK_SLICES ∧ c.FIO_MEMORY_BLOCK_SLICES ≤ 65536 := by
  obtain ⟨h1, h2⟩ := hc
  unfold Config.FIO_MEMORY_BLOCK_SLICES Config.FIO_MEMORY_BLOCK_SIZE
  rw [Nat.shiftRight_eq_div_pow]
  obtain ⟨k, hk⟩ : ∃ k, c.FIO_MEMORY_BLOCK_SIZE_LOG = k + 4 := ⟨c.FIO_MEMORY_BLOCK_SIZE_LOG - 4, by omega⟩
  rw [hk, Nat.pow_add]
  have e : 2 ^ k * 2 ^ 4 / 2 ^ 4 = 2 ^ k := Nat.mul_div_cancel _ (by norm_num)
  rw [e]
  have l1 : 2 ^ 2 ≤ 2 ^ k := Nat.pow_le_pow_right (by norm_num) (by omega)
  have l2 : 2 ^ k ≤ 2 ^ 16 := Nat.pow_le_pow_right (by norm_num) (by omega)
  norm_num at l1 l2 ⊢
  omega

/-! ## Reading and writing memory -/

theorem store16_apply_ne (m : Mem) (a v x : Nat) (h1 : x ≠ a) (h2 : x ≠ a + 1) :
    store16 m a v x = m x := by
  simp [store16, h1, h2]

theorem store64_apply_ne (m : Mem) (a v x : Nat) (h : x < a ∨ a + 8 ≤ x) :
    store64 m a v x = m x := by
  unfold store64
  rw [if_neg]
  omega

theorem memset_apply_ne (m : Mem) (a v len x : Nat) (h : x < a ∨ a + len ≤ x) :
    memset m a v len x = m x := by
  unfold memset
  rw [if_neg]
  omega

theorem memset_apply_in (m : Mem) (a v len x : Nat) (h1 : a ≤ x) (h2 : x < a + len) :
    memset m a v len x = v % 256 := by
  unfold memset
  rw [if_pos ⟨h1, h2⟩]

theorem load16_congr (m m' : Mem) (a : Nat) (h0 : m' a = m a) (h1 : m' (a + 1) = m (a + 1)) :
    load16 m' a = load16 m a := by
  simp [load16, h0, h1]

theorem load16_lt (m : Mem) (a : Nat) : load16 m a < 65536 := by
  unfold load16
  omega

theorem load16_store16 (m : Mem) (a v : Nat) : load16 (store16 m a v) a = v % 65536 := by
  simp [load16, store16]
  omega

theorem load16_store16_ne (m : Mem) (a v a' : Nat) (h : a' + 1 < a ∨ a + 1 < a') :
    load16 (store16 m a v) a' = load16 m a' := by
  apply load16_congr <;> apply store16_apply_ne <;> omega

theorem load16_store64_ne (m : Mem) (a v a' : Nat) (h : a' + 1 < a ∨ a + 8 ≤ a') :
    load16 (store64 m a v) a' = load16 m a' := by
  apply load16_congr <;> apply store64_apply_ne <;> omega

theorem load16_memset_ne (m : Mem) (a v len a' : Nat) (h : a' + 1 < a ∨ a + len ≤ a') :
    load16 (memset m a v len) a' = load16 m a' := by
  apply load16_congr <;> apply memset_apply_ne <;> omega

/-! ## The kernel and the system wrappers -/

theorem SameStatic.rfl' (s : State) : SameStatic s s := ⟨rfl, rfl, rfl, rfl, rfl, rfl, rfl⟩

theorem SameStatic.trans' {s s' s'' : State} (h1 : SameStatic s s') (h2 : SameStatic s' s'') :
    SameStatic s s'' := by
  obtain ⟨a1, a2, a3, a4, a5, a6, a7⟩ := h1
  obtain ⟨b1, b2, b3, b4, b5, b6, b7⟩ := h2
  exact ⟨b1.trans a1, b2.trans a2, b3.trans a3, b4.trans a4, b5.trans a5, b6.trans a6,
    b7.trans a7⟩

theorem le_pageCeil (len : Nat) : len ≤ pageCeil len := by
  unfold pageCeil
  omega

theorem pageCeil_mod (len : Nat) : pageCeil len % 4096 = 0 := by
  unfold pageCeil
  omega

theorem pageCeil_of_mod (len : Nat) (h : len % 4096 = 0) : pageCeil len = len := by
  unfold pageCeil
  omega

theorem mmap_static (len : Nat) (s : State) : SameStatic s (mmap len s).2 := by
  unfold mmap
  split
  · exact SameStatic.rfl' s
  · exact ⟨rfl, rfl, rfl, rfl, rfl, rfl, rfl⟩
  · split <;> exact ⟨rfl, rfl, rfl, rfl, rfl, rfl, rfl⟩

/-- A successful `mmap`: the address is a page aligned, non-null address in the
user half, the pages were free, are mapped now and read as zero. -/
theorem mmap_some {len : Nat} {s : State} {r : Nat} (h : (mmap len s).1 = some r) :
    r ≠ 0 ∧ r % 4096 = 0 ∧ len ≠ 0 ∧ r + pageCeil len ≤ 2 ^ 63 ∧
      rangeFree s.mapped r len = true ∧
      (mmap len s).2.mapped = setRange s.mapped r len true ∧
      (mmap len s).2.mem = memset s.mem r 0 (pageCeil len) := by
  unfold mmap at h ⊢
  split at h
  · simp at h
  · simp at h
  · rename_i r' rest e
    split at h
    · rename_i hc
      simp only [Option.some.injEq] at h
      subst h
      rw [if_pos hc]
      exact ⟨hc.1, hc.2.1, hc.2.2.1, hc.2.2.2.1, hc.2.2.2.2, rfl, rfl⟩
    · simp at h

/-- A failed `mmap` changes neither the page table nor memory. -/
theorem mmap_none {len : Nat} {s : State} (h : (mmap len s).1 = none) :
    (mmap len s).2.mapped = s.mapped ∧ (mmap len s).2.mem = s.mem := by
  unfold mmap at h ⊢
  split
  · exact ⟨rfl, rfl⟩
  · exact ⟨rfl, rfl⟩
  · rename_i r' rest e
    rw [e] at h
    dsimp only at h
    split
    · rename_i hc
      rw [if_pos hc] at h
      simp at h
    · exact ⟨rfl, rfl⟩

theorem munmap_static (addr len : Nat) (s : State) : SameStatic s (munmap addr len s) := by
  unfold munmap
  split
  · exact ⟨rfl, rfl, rfl, rfl, rfl, rfl, rfl⟩
  · exact SameStatic.rfl' s

theorem munmap_mem (addr len : Nat) (s : State) : (munmap addr len s).mem = s.mem := by
  unfold munmap
  split <;> rfl

theorem block_size_pos (c : Config) : 0 < c.FIO_MEMORY_BLOCK_SIZE := by
  unfold Config.FIO_MEMORY_BLOCK_SIZE
  exact Nat.pos_pow_of_pos _ (by norm_num)

/-- The four ways through `sys_alloc`: the first `mmap` fails; it succeeds at a
block aligned address; it succeeds elsewhere and the second `mmap` fails; or
the second `mmap` succeeds and its ends are trimmed. -/
theorem sys_alloc_cases (c : Config) (len is_indi : Nat) (s : State) :
    ((mmap len s).1 = none ∧ sys_alloc c len is_indi s = (0, (mmap len s).2)) ∨
    (∃ r1, (mmap len s).1 = some r1 ∧ r1 % c.FIO_MEMORY_BLOCK_SIZE = 0 ∧
      sys_alloc c len is_indi s = (r1, { (mmap len s).2 with
        next_alloc := (r1 + c.FIO_MEMORY_BLOCK_SIZE + 2 ^ 30 * is_indi) % WORD })) ∨
    (∃ r1, (mmap len s).1 = some r1 ∧ r1 % c.FIO_MEMORY_BLOCK_SIZE ≠ 0 ∧
      (mmap ((len + c.FIO_MEMORY_BLOCK_SIZE) % WORD) (munmap r1 len (mmap len s).2)).1 = none ∧
      sys_alloc c len is_indi s =
        (0, (mmap ((len + c.FIO_MEMORY_BLOCK_SIZE) % WORD) (munmap r1 len (mmap len s).2)).2)) ∨
    (∃ r1 r2, (mmap len s).1 = some r1 ∧ r1 % c.FIO_MEMORY_BLOCK_SIZE ≠ 0 ∧
      (mmap ((len + c.FIO_MEMORY_BLOCK_SIZE) % WORD) (munmap r1 len (mmap len s).2)).1 =
        some r2 ∧
      sys_alloc c len is_indi s =
        (r2 + (c.FIO_MEMORY_BLOCK_SIZE - r2 % c.FIO_MEMORY_BLOCK_SIZE),
          { munmap (r2 + (c.FIO_MEMORY_BLOCK_SIZE - r2 % c.FIO_MEMORY_BLOCK_SIZE) + len)
              (c.FIO_MEMORY_BLOCK_SIZE - (c.FIO_MEMORY_BLOCK_SIZE - r2 % c.FIO_MEMORY_BLOCK_SIZE))
              (munmap r2 (c.FIO_MEMORY_BLOCK_SIZE - r2 % c.FIO_MEMORY_BLOCK_SIZE)
                (mmap ((len + c.FIO_MEMORY_BLOCK_SIZE) % WORD)
                  (munmap r1 len (mmap len s).2)).2) with
            next_alloc := (r2 + (c.FIO_MEMORY_BLOCK_SIZE - r2 % c.FIO_MEMORY_BLOCK_SIZE) +
              c.FIO_MEMORY_BLOCK_SIZE + 2 ^ 30 * is_indi) % WORD })) := by
  delta sys_alloc
  dsimp only
  cases h1 : (mmap len s).1 with
  | none => left; exact ⟨rfl, rfl⟩
  | some r1 =>
    right
    dsimp only
    rw [and_mask]
    by_cases hm : r1 % c.FIO_MEMORY_BLOCK_SIZE = 0
    · left
      refine ⟨r1, rfl, hm, ?_⟩
      rw [if_neg (by simpa using hm)]
    · right
      rw [if_pos hm]
      cases h2 : (mmap ((len + c.FIO_MEMORY_BLOCK_SIZE) % WORD)
          (munmap r1 len (mmap len s).2)).1 with
      | none => left; exact ⟨r1, rfl, hm, h2, rfl⟩
      | some r2 =>
        right
        refine ⟨r1, r2, rfl, hm, h2, ?_⟩
        dsimp only
        rw [and_mask]
        have hlt := Nat.mod_lt r2 (block_size_pos c)
        have hne : c.FIO_MEMORY_BLOCK_SIZE - r2 % c.FIO_MEMORY_BLOCK_SIZE ≠ 0 := by omega
        rw [if_pos hne, if_pos hne]

theorem sys_alloc_static (c : Config) (len is_indi : Nat) (s : State) :
    SameStatic s (sys_alloc c len is_indi s).2 := by
  have h1 := mmap_static len s
  rcases sys_alloc_cases c len is_indi s with ⟨_, e⟩ | ⟨r1, _, _, e⟩ | ⟨r1, _, _, _, e⟩ |
    ⟨r1, r2, _, _, _, e⟩
  · rw [e]; exact h1
  · rw [e]; exact h1.trans' ⟨rfl, rfl, rfl, rfl, rfl, rfl, rfl⟩
  · rw [e]
    exact h1.trans' ((munmap_static r1 len _).trans' (mmap_static _ _))
  · rw [e]
    have h2 := h1.trans' ((munmap_static r1 len _).trans'
      (mmap_static ((len + c.FIO_MEMORY_BLOCK_SIZE) % WORD) _))
    have h3 := h2.trans' (munmap_static r2
      (c.FIO_MEMORY_BLOCK_SIZE - r2 % c.FIO_MEMORY_BLOCK_SIZE) _)
    have h4 := h3.trans' (munmap_static
      (r2 + (c.FIO_MEMORY_BLOCK_SIZE - r2 % c.FIO_MEMORY_BLOCK_SIZE) + len)
      (c.FIO_MEMORY_BLOCK_SIZE - (c.FIO_MEMORY_BLOCK_SIZE - r2 % c.FIO_MEMORY_BLOCK_SIZE)) _)
    exact h4.trans' ⟨rfl, rfl, rfl, rfl, rfl, rfl, rfl⟩

/-- The result of `sys_alloc` is `NULL` or a block aligned address with `len`
bytes below the top of the user address space. -/
theorem sys_alloc_addr (c : Config) (hc : c.ok) (len is_indi : Nat) (s : State) :
    (sys_alloc c len is_indi s).1 = 0 ∨
      ((sys_alloc c len is_indi s).1 ≠ 0 ∧
        (sys_alloc c len is_indi s).1 % c.FIO_MEMORY_BLOCK_SIZE = 0 ∧
        (sys_alloc c len is_indi s).1 + len ≤ 2 ^ 63) := by
  have hse := hc.size_eq
  rcases sys_alloc_cases c len is_indi s with ⟨_, e⟩ | ⟨r1, h1, hm, e⟩ | ⟨r1, _, _, _, e⟩ |
    ⟨r1, r2, h1, _, h2, e⟩
  · rw [e]; left; rfl
  · rw [e]
    have m1 := mmap_some h1
    have hce := le_pageCeil len
    right
    exact ⟨m1.1, hm, by omega⟩
  · rw [e]; left; rfl
  · rw [e]
    have m1 := mmap_some h1
    have hce := le_pageCeil len
    have hlen : len + c.FIO_MEMORY_BLOCK_SIZE < WORD := by
      unfold WORD
      omega
    have m2 := mmap_some h2
    rw [Nat.mod_eq_of_lt hlen] at m2
    have hlt := Nat.mod_lt r2 (block_size_pos c)
    have hce2 := le_pageCeil (len + c.FIO_MEMORY_BLOCK_SIZE)
    right
    refine ⟨by dsimp only; omega, ?_, by dsimp only; omega⟩
    have hdm := Nat.div_add_mod r2 c.FIO_MEMORY_BLOCK_SIZE
    have e2 : r2 + (c.FIO_MEMORY_BLOCK_SIZE - r2 % c.FIO_MEMORY_BLOCK_SIZE) =
        c.FIO_MEMORY_BLOCK_SIZE * (r2 / c.FIO_MEMORY_BLOCK_SIZE + 1) := by
      rw [Nat.mul_add, Nat.mul_one]
      omega
    dsimp only
    rw [e2]
    exact Nat.mul_mod_right _ _

/-! ## The arena array -/

theorem arenaBlock_setLock (a : List arena_s) (i j : Nat) (v : Bool) :
    arenaBlock (setLock a i v) j = arenaBlock a j := by
  unfold arenaBlock setLock
  simp only [List.get?_eq_getElem?, List.getElem?_modify]
  cases a[j]? <;> simp
  split <;> rfl

theorem arenaLocked_setBlock (a : List arena_s) (i j blk : Nat) :
    arenaLocked (setBlock a i blk) j = arenaLocked a j := by
  unfold arenaLocked setBlock
  simp only [List.get?_eq_getElem?, List.getElem?_modify]
  cases a[j]? <;> simp
  split <;> rfl

theorem arenaLocked_lt {a : List arena_s} {i : Nat} (h : arenaLocked a i = false) :
    i < a.length := by
  unfold arenaLocked at h
  simp only [List.get?_eq_getElem?] at h
  by_contra hlt
  rw [List.getElem?_eq_none (by omega)] at h
  simp at h

theorem arenaBlock_setBlock_same (a : List arena_s) (i blk : Nat) (h : i < a.length) :
    arenaBlock (setBlock a i blk) i = blk := by
  unfold arenaBlock setBlock
  simp only [List.get?_eq_getElem?, List.getElem?_modify]
  rw [List.getElem?_eq_getElem h]
  simp

theorem arenaBlock_setBlock_ne (a : List arena_s) (i j blk : Nat) (h : i ≠ j) :
    arenaBlock (setBlock a i blk) j = arenaBlock a j := by
  unfold arenaBlock setBlock
  simp only [List.get?_eq_getElem?, List.getElem?_modify]
  cases a[j]? <;> simp [h]

theorem arenaLocked_setLock_same (a : List arena_s) (i : Nat) (v : Bool) (h : i < a.length) :
    arenaLocked (setLock a i v) i = v := by
  unfold arenaLocked setLock
  simp only [List.get?_eq_getElem?, List.getElem?_modify]
  rw [List.getElem?_eq_getElem h]
  simp

theorem arenaLocked_setLock_ne (a : List arena_s) (i j : Nat) (v : Bool) (h : i ≠ j) :
    arenaLocked (setLock a i v) j = arenaLocked a j := by
  unfold arenaLocked setLock
  simp only [List.get?_eq_getElem?, List.getElem?_modify]
  cases a[j]? <;> simp [h]

theorem length_setLock (a : List arena_s) (i : Nat) (v : Bool) :
    (setLock a i v).length = a.length := by
  simp [setLock]

theorem length_setBlock (a : List arena_s) (i blk : Nat) :
    (setBlock a i blk).length = a.length := by
  simp [setBlock]

/-- On an unlocked preferred arena `arena_enter` returns at once, whatever the
fuel. -/
theorem arena_enter_free (fuel : Nat) (s : State)
    (h : arenaLocked s.arenas (cur_arena s) = false) :
    arena_enter fuel s = some { s with
      arenas := setLock s.arenas (cur_arena s) true
      arena_last_used := some (cur_arena s) } := by
  unfold arena_enter arena_lock
  unfold cur_arena at h
  simp only [h, if_true]
  rfl

/-! ## Block headers -/

theorem block_init_header (c : Config) (blk : Nat) (s : State) :
    block_ref (block_init c blk s).mem blk = 1 ∧ block_pos (block_init c blk s).mem blk = 2 ∧
      block_max (block_init c blk s).mem blk = (c.FIO_MEMORY_BLOCK_SLICES - 1) % 65536 := by
  have e : sizeof_block_s >>> 4 = 0 := by decide
  unfold block_ref block_pos block_max block_init
  simp only [e]
  refine ⟨?_, ?_, ?_⟩
  · rw [load16_store16_ne _ _ _ _ (by omega), load16_store16_ne _ _ _ _ (by omega),
      load16_store16_ne _ _ _ _ (by omega), load16_store16]
  · rw [load16_store16_ne _ _ _ _ (by omega), load16_store16_ne _ _ _ _ (by omega),
      load16_store16]
  · rw [load16_store16_ne _ _ _ _ (by omega), load16_store16]
    simp

theorem block_init_static (c : Config) (blk : Nat) (s : State) :
    SameStatic s (block_init c blk s) := ⟨rfl, rfl, rfl, rfl, rfl, rfl, rfl⟩

/-! ## The recycled list, `block_free` and `block_new` -/

theorem push_available (node : Nat) (s : State) :
    (fio_ls_embd_push node s).available = node :: s.available := by
  unfold fio_ls_embd_push
  split
  · rename_i e; simp [e]
  · rename_i e; simp [e]

theorem push_frame (node : Nat) (s : State) :
    (fio_ls_embd_push node s).arenas = s.arenas ∧
      (fio_ls_embd_push node s).arena_last_used = s.arena_last_used ∧
      (fio_ls_embd_push node s).cores = s.cores ∧
      (fio_ls_embd_push node s).count = s.count ∧
      (fio_ls_embd_push node s).available_addr = s.available_addr ∧
      (fio_ls_embd_push node s).arenas_ptr = s.arenas_ptr ∧
      (fio_ls_embd_push node s).mapped = s.mapped ∧
      (fio_ls_embd_push node s).oracle = s.oracle := by
  unfold fio_ls_embd_push
  split <;> exact ⟨rfl, rfl, rfl, rfl, rfl, rfl, rfl, rfl⟩

theorem pop_cases (s : State) :
    ((fio_ls_embd_pop s).1 = 0 ∧ s.available = [] ∧ (fio_ls_embd_pop s).2 = s) ∨
      (s.available = (fio_ls_embd_pop s).1 :: (fio_ls_embd_pop s).2.available) := by
  unfold fio_ls_embd_pop
  split
  · rename_i e; left; exact ⟨rfl, e, rfl⟩
  · rename_i e; right; simp [e]
  · rename_i e; right; simp [e]

theorem pop_frame (s : State) :
    (fio_ls_embd_pop s).2.arenas = s.arenas ∧
      (fio_ls_embd_pop s).2.arena_last_used = s.arena_last_used ∧
      (fio_ls_embd_pop s).2.cores = s.cores ∧
      (fio_ls_embd_pop s).2.count = s.count ∧
      (fio_ls_embd_pop s).2.available_addr = s.available_addr ∧
      (fio_ls_embd_pop s).2.arenas_ptr = s.arenas_ptr ∧
      (fio_ls_embd_pop s).2.mapped = s.mapped ∧
      (fio_ls_embd_pop s).2.oracle = s.oracle := by
  unfold fio_ls_embd_pop
  split <;> exact ⟨rfl, rfl, rfl, rfl, rfl, rfl, rfl, rfl⟩

theorem block_free_frame (c : Config) (blk : Nat) (s : State) :
    (block_free c blk s).arenas = s.arenas ∧
      (block_free c blk s).arena_last_used = s.arena_last_used ∧
      (block_free c blk s).cores = s.cores ∧
      (block_free c blk s).available_addr = s.available_addr ∧
      (block_free c blk s).arenas_ptr = s.arenas_ptr ∧
      (block_free c blk s).oracle = s.oracle ∧
      ((block_free c blk s).available = s.available ∨
        (block_free c blk s).available = blk :: s.available) := by
  rw [block_free]
  dsimp only
  split
  · exact ⟨rfl, rfl, rfl, rfl, rfl, rfl, Or.inl rfl⟩
  · split
    · unfold sys_free munmap
      split <;> exact ⟨rfl, rfl, rfl, rfl, rfl, rfl, Or.inl rfl⟩
    · have h := push_frame blk
        { s with
          mem := memset (store16 s.mem blk ((65535 + block_ref s.mem blk) % 65536)) blk 0
            c.FIO_MEMORY_BLOCK_SIZE
          count := s.count + 1 }
      have ha := push_available blk
        { s with
          mem := memset (store16 s.mem blk ((65535 + block_ref s.mem blk) % 65536)) blk 0
            c.FIO_MEMORY_BLOCK_SIZE
          count := s.count + 1 }
      exact ⟨h.1, h.2.1, h.2.2.1, h.2.2.2.2.1, h.2.2.2.2.2.1, h.2.2.2.2.2.2.2, Or.inr ha⟩

theorem block_free_keep (c : Config) (blk : Nat) (s : State)
    (h : (65535 + block_ref s.mem blk) % 65536 ≠ 0) :
    block_free c blk s =
      { s with mem := store16 s.mem blk ((65535 + block_ref s.mem blk) % 65536) } := by
  rw [block_free]
  dsimp only
  rw [if_pos h]

theorem block_free_unmap (c : Config) (blk : Nat) (s : State)
    (h : (65535 + block_ref s.mem blk) % 65536 = 0) (h2 : s.count + 1 > pool_cap c s) :
    block_free c blk s = sys_free blk c.FIO_MEMORY_BLOCK_SIZE
      { s with mem := store16 s.mem blk ((65535 + block_ref s.mem blk) % 65536) } := by
  have h2' : s.count + 1 > pool_cap c
      { s with mem := store16 s.mem blk ((65535 + block_ref s.mem blk) % 65536) } := h2
  rw [block_free]
  dsimp only
  rw [if_neg (by simpa using h), if_pos h2']

theorem block_free_pool (c : Config) (blk : Nat) (s : State)
    (h : (65535 + block_ref s.mem blk) % 65536 = 0) (h2 : ¬ s.count + 1 > pool_cap c s) :
    block_free c blk s = fio_ls_embd_push blk
      { s with
        count := s.count + 1
        mem := memset (store16 s.mem blk ((65535 + block_ref s.mem blk) % 65536)) blk 0
          c.FIO_MEMORY_BLOCK_SIZE } := by
  have h2' : ¬ s.count + 1 > pool_cap c
      { s with mem := store16 s.mem blk ((65535 + block_ref s.mem blk) % 65536) } := h2
  rw [block_free]
  dsimp only
  rw [if_neg (by simpa using h), if_neg h2']

theorem two_block_lt_word (c : Config) (hc : c.ok) :
    c.FIO_MEMORY_BLOCK_SIZE + c.FIO_MEMORY_BLOCK_SIZE < WORD := by
  have h := hc.size_eq
  unfold WORD
  omega

theorem block_new_pop (c : Config) (s : State) (h : (fio_ls_embd_pop s).1 ≠ 0) :
    block_new c s = ((fio_ls_embd_pop s).1, block_init c (fio_ls_embd_pop s).1
      { (fio_ls_embd_pop s).2 with
        count := (fio_ls_embd_pop s).2.count - 1
        mem := store64 (store64 (fio_ls_embd_pop s).2.mem (fio_ls_embd_pop s).1 0)
          ((fio_ls_embd_pop s).1 + 8) 0 }) := by
  delta block_new
  dsimp only
  rw [if_pos h]

theorem block_new_fail (c : Config) (s : State) (h : (fio_ls_embd_pop s).1 = 0)
    (h2 : (sys_alloc c c.FIO_MEMORY_BLOCK_SIZE 0 (fio_ls_embd_pop s).2).1 = 0) :
    block_new c s = (0, (sys_alloc c c.FIO_MEMORY_BLOCK_SIZE 0 (fio_ls_embd_pop s).2).2) := by
  delta block_new
  dsimp only
  rw [if_neg (by simpa using h), if_pos h2]

theorem block_new_fresh (c : Config) (s : State) (h : (fio_ls_embd_pop s).1 = 0)
    (h2 : (sys_alloc c c.FIO_MEMORY_BLOCK_SIZE 0 (fio_ls_embd_pop s).2).1 ≠ 0) :
    block_new c s = ((sys_alloc c c.FIO_MEMORY_BLOCK_SIZE 0 (fio_ls_embd_pop s).2).1,
      block_init c (sys_alloc c c.FIO_MEMORY_BLOCK_SIZE 0 (fio_ls_embd_pop s).2).1
        (sys_alloc c c.FIO_MEMORY_BLOCK_SIZE 0 (fio_ls_embd_pop s).2).2) := by
  delta block_new
  dsimp only
  rw [if_neg (by simpa using h), if_neg h2]

/-- What `block_new` returns: `NULL`, or a usable block address whose header
was just initialised. The recycled list stays a list of usable addresses and
the arena array is not touched. -/
theorem block_new_spec (c : Config) (hc : c.ok) (s : State)
    (hp : ∀ b ∈ s.available, AddrOK c b) :
    (∀ b ∈ (block_new c s).2.available, AddrOK c b) ∧
      (block_new c s).2.arenas = s.arenas ∧
      (block_new c s).2.arena_last_used = s.arena_last_used ∧
      ((block_new c s).1 = 0 ∨
        (AddrOK c (block_new c s).1 ∧
          block_ref (block_new c s).2.mem (block_new c s).1 = 1 ∧
          block_pos (block_new c s).2.mem (block_new c s).1 = 2 ∧
          block_max (block_new c s).2.mem (block_new c s).1 =
            c.FIO_MEMORY_BLOCK_SLICES - 1)) := by
  have hs := hc.size_eq
  have hmax : (c.FIO_MEMORY_BLOCK_SLICES - 1) % 65536 = c.FIO_MEMORY_BLOCK_SLICES - 1 :=
    Nat.mod_eq_of_lt (by omega)
  have hpc := pop_cases s
  have hpf := pop_frame s
  by_cases hne : (fio_ls_embd_pop s).1 ≠ 0
  · rw [block_new_pop c s hne]
    rcases hpc with ⟨h0, _, _⟩ | hcons
    · exact absurd h0 hne
    · have hin : ∀ b ∈ (fio_ls_embd_pop s).2.available, AddrOK c b := fun b hb =>
        hp b (by rw [hcons]; exact List.mem_cons_of_mem _ hb)
      have hblk : AddrOK c (fio_ls_embd_pop s).1 :=
        hp _ (by rw [hcons]; exact List.mem_cons_self _ _)
      have hh := block_init_header c (fio_ls_embd_pop s).1
        { (fio_ls_embd_pop s).2 with
          count := (fio_ls_embd_pop s).2.count - 1
          mem := store64 (store64 (fio_ls_embd_pop s).2.mem (fio_ls_embd_pop s).1 0)
            ((fio_ls_embd_pop s).1 + 8) 0 }
      rw [hmax] at hh
      dsimp only
      exact ⟨hin, hpf.1, hpf.2.1, Or.inr ⟨hblk, hh.1, hh.2.1, hh.2.2⟩⟩
  · have hz : (fio_ls_embd_pop s).1 = 0 := by simpa using hne
    have hs1 : (fio_ls_embd_pop s).2 = s := by
      rcases hpc with ⟨_, _, h⟩ | hcons
      · exact h
      · have := hp _ (by rw [hcons]; exact List.mem_cons_self _ _)
        exact absurd hz this.1
    have hst := sys_alloc_static c c.FIO_MEMORY_BLOCK_SIZE 0 (fio_ls_embd_pop s).2
    have had := sys_alloc_addr c hc c.FIO_MEMORY_BLOCK_SIZE 0 (fio_ls_embd_pop s).2
    obtain ⟨_, _, hav, _, _, har, hlu⟩ := hst
    have hp' : ∀ b ∈ (sys_alloc c c.FIO_MEMORY_BLOCK_SIZE 0 (fio_ls_embd_pop s).2).2.available,
        AddrOK c b := by
      rw [hav, hs1]; exact hp
    have har' : (sys_alloc c c.FIO_MEMORY_BLOCK_SIZE 0 (fio_ls_embd_pop s).2).2.arenas =
        s.arenas := by rw [har, hs1]
    have hlu' : (sys_alloc c c.FIO_MEMORY_BLOCK_SIZE 0 (fio_ls_embd_pop s).2).2.arena_last_used =
        s.arena_last_used := by rw [hlu, hs1]
    by_cases h2 : (sys_alloc c c.FIO_MEMORY_BLOCK_SIZE 0 (fio_ls_embd_pop s).2).1 = 0
    · rw [block_new_fail c s hz h2]
      exact ⟨hp', har', hlu', Or.inl rfl⟩
    · rw [block_new_fresh c s hz h2]
      rcases had with h0 | ⟨h1, h3, h4⟩
      · exact absurd h0 h2
      · have hh := block_init_header c
          (sys_alloc c c.FIO_MEMORY_BLOCK_SIZE 0 (fio_ls_embd_pop s).2).1
          (sys_alloc c c.FIO_MEMORY_BLOCK_SIZE 0 (fio_ls_embd_pop s).2).2
        rw [hmax] at hh
        dsimp only
        exact ⟨hp', har', hlu', Or.inr ⟨⟨h1, h3, h4⟩, hh.1, hh.2.1, hh.2.2⟩⟩

/-! ## `block_slice` -/

theorem block_slice_cut_fst (c : Config) (units blk : Nat) (s : State) :
    (block_slice_cut c units blk s).1 = blk + 16 * block_pos s.mem blk := by
  unfold block_slice_cut
  dsimp only
  split <;> simp [Nat.shiftLeft_eq] <;> omega

theorem rotate_empty (c : Config) (units : Nat) (s : State)
    (h : arenaBlock s.arenas (cur_arena s) = 0) :
    block_slice_rotate c units s =
      ((block_new c s).1,
        { (block_new c s).2 with
          arenas := setBlock (block_new c s).2.arenas (cur_arena s) (block_new c s).1 }) := by
  delta block_slice_rotate
  dsimp only
  rw [if_pos h]

theorem rotate_full (c : Config) (units : Nat) (s : State)
    (h : arenaBlock s.arenas (cur_arena s) ≠ 0)
    (h2 : block_pos s.mem (arenaBlock s.arenas (cur_arena s)) + units >
      block_max s.mem (arenaBlock s.arenas (cur_arena s))) :
    block_slice_rotate c units s =
      ((block_new c (block_free c (arenaBlock s.arenas (cur_arena s)) s)).1,
        { (block_new c (block_free c (arenaBlock s.arenas (cur_arena s)) s)).2 with
          arenas := setBlock
            (block_new c (block_free c (arenaBlock s.arenas (cur_arena s)) s)).2.arenas
            (cur_arena s)
            (block_new c (block_free c (arenaBlock s.arenas (cur_arena s)) s)).1 }) := by
  delta block_slice_rotate
  dsimp only
  rw [if_neg h, if_pos h2]

theorem rotate_fit (c : Config) (units : Nat) (s : State)
    (h : arenaBlock s.arenas (cur_arena s) ≠ 0)
    (h2 : ¬ block_pos s.mem (arenaBlock s.arenas (cur_arena s)) + units >
      block_max s.mem (arenaBlock s.arenas (cur_arena s))) :
    block_slice_rotate c units s = (arenaBlock s.arenas (cur_arena s), s) := by
  delta block_slice_rotate
  dsimp only
  rw [if_neg h, if_neg h2]

/-- The block `block_slice_rotate` settles on: `NULL`, or a usable block that is
either the arena's active block, unchanged and with room for `units`, or a
block that was just initialised. -/
theorem block_slice_rotate_spec (c : Config) (hc : c.ok) (units : Nat) (s : State)
    (hb : arenaBlock s.arenas (cur_arena s) ≠ 0 →
      HeaderOK c s.mem (arenaBlock s.arenas (cur_arena s)))
    (hp : ∀ b ∈ s.available, AddrOK c b) :
    (block_slice_rotate c units s).1 = 0 ∨
      (AddrOK c (block_slice_rotate c units s).1 ∧
        (((block_slice_rotate c units s).1 = arenaBlock s.arenas (cur_arena s) ∧
            (block_slice_rotate c units s).2 = s ∧
            2 ≤ block_pos s.mem (block_slice_rotate c units s).1 ∧
            block_pos s.mem (block_slice_rotate c units s).1 + units ≤
              block_max s.mem (block_slice_rotate c units s).1 ∧
            block_max s.mem (block_slice_rotate c units s).1 < c.FIO_MEMORY_BLOCK_SLICES) ∨
          block_pos (block_slice_rotate c units s).2.mem (block_slice_rotate c units s).1 = 2)) := by
  by_cases h : arenaBlock s.arenas (cur_arena s) = 0
  · rw [rotate_empty c units s h]
    have h := block_new_spec c hc s hp
    dsimp only
    rcases h.2.2.2 with h0 | ⟨h1, _, h2, _⟩
    · exact Or.inl h0
    · exact Or.inr ⟨h1, Or.inr h2⟩
  · by_cases h2 : block_pos s.mem (arenaBlock s.arenas (cur_arena s)) + units >
        block_max s.mem (arenaBlock s.arenas (cur_arena s))
    · rw [rotate_full c units s h h2]
      have hf := block_free_frame c (arenaBlock s.arenas (cur_arena s)) s
      have hp' : ∀ b ∈ (block_free c (arenaBlock s.arenas (cur_arena s)) s).available,
          AddrOK c b := by
        intro b hb'
        rcases hf.2.2.2.2.2.2 with e | e
        · rw [e] at hb'; exact hp b hb'
        · rw [e] at hb'
          rcases List.mem_cons.1 hb' with e0 | hm
          · rw [e0]; exact (hb h).1
          · exact hp b hm
      have hn := block_new_spec c hc _ hp'
      dsimp only
      rcases hn.2.2.2 with h0 | ⟨h1, _, h3, _⟩
      · exact Or.inl h0
      · exact Or.inr ⟨h1, Or.inr h3⟩
    · rw [rotate_fit c units s h h2]
      have hh := hb h
      dsimp only
      exact Or.inr ⟨hh.1, Or.inl ⟨rfl, rfl, hh.2.1, by omega, hh.2.2.2⟩⟩

/-- Where `block_slice` cuts: the result is `NULL`, or `b + 16 * pos` for a
usable block `b`, which is either the arena's active block at its current
position (when the request fits below `max`) or a block that was just
initialised, at position 2. -/
theorem block_slice_ptr (c : Config) (hc : c.ok) (units : Nat) (s : State)
    (hb : arenaBlock s.arenas (cur_arena s) ≠ 0 →
      HeaderOK c s.mem (arenaBlock s.arenas (cur_arena s)))
    (hp : ∀ b ∈ s.available, AddrOK c b) :
    (block_slice c units s).1 = 0 ∨
      ∃ b pos, (block_slice c units s).1 = b + 16 * pos ∧ AddrOK c b ∧
        ((b = arenaBlock s.arenas (cur_arena s) ∧ pos = block_pos s.mem b ∧ 2 ≤ pos ∧
            pos + units ≤ block_max s.mem b ∧ block_max s.mem b < c.FIO_MEMORY_BLOCK_SLICES) ∨
          pos = 2) := by
  have h := block_slice_rotate_spec c hc units s hb hp
  unfold block_slice
  generalize block_slice_rotate c units s = r at h ⊢
  obtain ⟨blk, s1⟩ := r
  dsimp only at h ⊢
  by_cases hz : blk = 0
  · left; rw [if_pos hz]
  · right
    rw [if_neg hz, block_slice_cut_fst]
    rcases h with h0 | ⟨ha, hk⟩
    · exact absurd h0 hz
    · refine ⟨blk, block_pos s1.mem blk, rfl, ha, ?_⟩
      rcases hk with ⟨e1, e2, h2, h3, h4⟩ | h2
      · left
        subst e2
        exact ⟨e1, rfl, h2, h3, h4⟩
      · right; exact h2

/-! ## `fio_malloc` -/

theorem slice_units_eq (n : Nat) : slice_units n = (n + 15) / 16 := by
  unfold slice_units
  rw [and_15, Nat.shiftRight_eq_div_pow]
  split <;> omega

/-- On a ready state a small request goes through the calling thread's arena,
whatever the fuel. -/
theorem fio_malloc_small (c : Config) (fuel n : Nat) (s : State)
    (hl : arenaLocked s.arenas (cur_arena s) = false) (h0 : 0 < n)
    (hn : n < c.FIO_MEMORY_BLOCK_ALLOC_LIMIT) :
    fio_malloc c fuel n s =
      some ((block_slice c (slice_units n % 65536) (entered s)).1,
        arena_exit (block_slice c (slice_units n % 65536) (entered s)).2) := by
  unfold fio_malloc
  rw [if_neg (by omega), if_neg (by omega), arena_enter_free fuel s hl]
  dsimp only [entered]

theorem fio_malloc_big (c : Config) (fuel n : Nat) (s : State)
    (hn : c.FIO_MEMORY_BLOCK_ALLOC_LIMIT ≤ n) (h0 : 0 < n) :
    fio_malloc c fuel n s = some (big_alloc c n s) := by
  unfold fio_malloc
  rw [if_neg (by omega), if_pos hn]

/-- The pointer of `big_alloc` is 16 bytes past `NULL` or past a block aligned
address. -/
theorem big_alloc_ptr (c : Config) (hc : c.ok) (size : Nat) (s : State) :
    ∃ mem, (big_alloc c size s).1 = mem + 16 ∧ mem % c.FIO_MEMORY_BLOCK_SIZE = 0 ∧
      mem + 16 < WORD := by
  unfold big_alloc
  dsimp only
  have h := sys_alloc_addr c hc (sys_round_size ((size + 16) % WORD)) 1 s
  generalize sys_alloc c (sys_round_size ((size + 16) % WORD)) 1 s = r at h ⊢
  obtain ⟨mem, s1⟩ := r
  dsimp only at h ⊢
  have hse := hc.size_eq
  rcases h with h0 | ⟨h1, h2, h3⟩
  · subst h0
    exact ⟨0, by decide, by simp, by decide⟩
  · have hlt : mem + 16 < WORD := by
      unfold WORD
      have : mem % c.FIO_MEMORY_BLOCK_SIZE < c.FIO_MEMORY_BLOCK_SIZE := Nat.mod_lt _ (by omega)
      omega
    exact ⟨mem, Nat.mod_eq_of_lt hlt, h2, hlt⟩

theorem ready_entered (c : Config) (s : State) (hs : Ready c s) :
    (arenaBlock (entered s).arenas (cur_arena (entered s)) ≠ 0 →
      HeaderOK c (entered s).mem (arenaBlock (entered s).arenas (cur_arena (entered s)))) ∧
    (∀ b ∈ (entered s).available, AddrOK c b) ∧
    arenaBlock (entered s).arenas (cur_arena (entered s)) = arenaBlock s.arenas (cur_arena s) ∧
    (entered s).mem = s.mem := by
  have e : cur_arena (entered s) = cur_arena s := rfl
  have e2 : arenaBlock (entered s).arenas (cur_arena (entered s)) =
      arenaBlock s.arenas (cur_arena s) := by
    rw [e]
    exact arenaBlock_setLock _ _ _ _
  refine ⟨?_, hs.2.2, e2, rfl⟩
  rw [e2]
  exact hs.2.1

theorem add_mod_block (B b x : Nat) (hb : b % B = 0) (hx : x < B) : (b + x) % B = x := by
  obtain ⟨k, hk⟩ := Nat.dvd_of_mod_eq_zero hb
  rw [hk, Nat.mul_add_mod, Nat.mod_eq_of_lt hx]

theorem mod16_of_block (c : Config) (hc : c.ok) (b : Nat)
    (hb : b % c.FIO_MEMORY_BLOCK_SIZE = 0) : b % 16 = 0 := by
  obtain ⟨k, hk⟩ := Nat.dvd_of_mod_eq_zero hb
  rw [hk, hc.size_eq.1, Nat.mul_assoc]
  exact Nat.mul_mod_right _ _

theorem defaultConfig_ok : defaultConfig.ok := ⟨by decide, by decide⟩

theorem sampleState_available : sampleState.available = [0x20000000] := by decide

theorem sampleState_ready : Ready defaultConfig sampleState := by
  refine ⟨by decide, fun h => absurd (by decide) h, ?_⟩
  intro b hb
  rw [sampleState_available] at hb
  rw [List.mem_singleton.1 hb]
  exact ⟨by decide, by decide, by decide⟩

/-- The pointer of a small allocation sits at least 32 bytes into its block. -/
theorem small_ptr_mod (c : Config) (hc : c.ok) (b pos : Nat) (hb : AddrOK c b)
    (h2 : 2 ≤ pos) (hlt : pos < c.FIO_MEMORY_BLOCK_SLICES) :
    (b + 16 * pos) % c.FIO_MEMORY_BLOCK_SIZE = 16 * pos := by
  have hse := hc.size_eq
  exact add_mod_block _ _ _ hb.2.1 (by omega)

/-- C1: for every size `n > 0` the non-null pointer `p` that `fio_malloc`
returns on a ready state has `p mod B = 16` exactly when `n` is at or above
`FIO_MEMORY_BLOCK_ALLOC_LIMIT`, and a small allocation never has offset 0 in
its block; so the test `(ptr & FIO_MEMORY_BLOCK_MASK) == 16` of `fio_free` and
`fio_realloc2` sends `p` to `big_free` / `big_realloc` when `big_alloc` made it
and to the block path (`block_slice_free`) when `block_slice` made it. -/
theorem fio_malloc_classification (c : Config) (hc : c.ok) (s : State) (hs : Ready c s)
    (fuel n : Nat) (hn : 0 < n) :
    ∃ p s', fio_malloc c fuel n s = some (p, s') ∧
      (p ≠ 0 →
        (p % c.FIO_MEMORY_BLOCK_SIZE = 16 ↔ c.FIO_MEMORY_BLOCK_ALLOC_LIMIT ≤ n) ∧
        (n < c.FIO_MEMORY_BLOCK_ALLOC_LIMIT → p % c.FIO_MEMORY_BLOCK_SIZE ≠ 0) ∧
        (∀ t, fio_free c p t =
          if c.FIO_MEMORY_BLOCK_ALLOC_LIMIT ≤ n then big_free p t
          else block_slice_free c p t) ∧
        (∀ fuel' o m t, c.FIO_MEMORY_BLOCK_ALLOC_LIMIT ≤ n →
          fio_realloc2 c fuel' p o m t = some (big_realloc p m t)) ∧
        (∀ fuel' o m t, n < c.FIO_MEMORY_BLOCK_ALLOC_LIMIT →
          fio_realloc2 c fuel' p o m t =
            match fio_malloc c fuel' m t with
            | none => none
            | some r =>
              if r.1 = 0 then some (0, r.2)
              else some (r.1, block_slice_free c p
                { r.2 with mem := fio_memcpy r.2.mem r.1 p (realloc_units o m) }))) := by
  have hse := hc.size_eq
  have key : ∀ p : Nat, p ≠ 0 →
      (p % c.FIO_MEMORY_BLOCK_SIZE = 16 ↔ c.FIO_MEMORY_BLOCK_ALLOC_LIMIT ≤ n) →
      (∀ t, fio_free c p t =
          if c.FIO_MEMORY_BLOCK_ALLOC_LIMIT ≤ n then big_free p t
          else block_slice_free c p t) ∧
        (∀ fuel' o m t, c.FIO_MEMORY_BLOCK_ALLOC_LIMIT ≤ n →
          fio_realloc2 c fuel' p o m t = some (big_realloc p m t)) ∧
        (∀ fuel' o m t, n < c.FIO_MEMORY_BLOCK_ALLOC_LIMIT →
          fio_realloc2 c fuel' p o m t =
            match fio_malloc c fuel' m t with
            | none => none
            | some r =>
              if r.1 = 0 then some (0, r.2)
              else some (r.1, block_slice_free c p
                { r.2 with mem := fio_memcpy r.2.mem r.1 p (realloc_units o m) })) := by
    intro p hp hiff
    refine ⟨?_, ?_, ?_⟩
    · intro t
      unfold fio_free
      rw [if_neg hp, and_mask]
      by_cases hl : c.FIO_MEMORY_BLOCK_ALLOC_LIMIT ≤ n
      · rw [if_pos (hiff.2 hl), if_pos hl]
      · rw [if_neg (fun h => hl (hiff.1 h)), if_neg hl]
    · intro fuel' o m t hl
      unfold fio_realloc2
      rw [if_neg hp, and_mask, if_pos (hiff.2 hl)]
    · intro fuel' o m t hl
      unfold fio_realloc2
      rw [if_neg hp, and_mask, if_neg (fun h => absurd (hiff.1 h) (by omega))]
  by_cases hl : c.FIO_MEMORY_BLOCK_ALLOC_LIMIT ≤ n
  · obtain ⟨mem, e1, e2, _⟩ := big_alloc_ptr c hc n s
    refine ⟨(big_alloc c n s).1, (big_alloc c n s).2, fio_malloc_big c fuel n s hl hn, ?_⟩
    intro hp
    have hm : (big_alloc c n s).1 % c.FIO_MEMORY_BLOCK_SIZE = 16 := by
      rw [e1]
      exact add_mod_block _ _ _ e2 (by omega)
    have hiff : (big_alloc c n s).1 % c.FIO_MEMORY_BLOCK_SIZE = 16 ↔
        c.FIO_MEMORY_BLOCK_ALLOC_LIMIT ≤ n := ⟨fun _ => hl, fun _ => hm⟩
    exact ⟨hiff, fun h => absurd hl (by omega), key _ hp hiff⟩
  · have hlt : n < c.FIO_MEMORY_BLOCK_ALLOC_LIMIT := by omega
    refine ⟨_, _, fio_malloc_small c fuel n s hs.1 hn hlt, ?_⟩
    intro hp
    obtain ⟨hb, hpool, eblk, emem⟩ := ready_entered c s hs
    rcases block_slice_ptr c hc (slice_units n % 65536) (entered s) hb hpool with h0 | h
    · exact absurd h0 hp
    · obtain ⟨b, pos, ep, hab, hcase⟩ := h
      have hpos : 2 ≤ pos ∧ pos < c.FIO_MEMORY_BLOCK_SLICES := by
        rcases hcase with ⟨_, _, h2, h3, h4⟩ | h2
        · omega
        · omega
      have hm := small_ptr_mod c hc b pos hab hpos.1 hpos.2
      rw [← ep] at hm
      have hiff : (block_slice c (slice_units n % 65536) (entered s)).1 %
          c.FIO_MEMORY_BLOCK_SIZE = 16 ↔ c.FIO_MEMORY_BLOCK_ALLOC_LIMIT ≤ n :=
        ⟨fun h => by omega, fun h => absurd h hl⟩
      exact ⟨hiff, fun _ => by omega, key _ hp hiff⟩

/-- Witness for C1: one byte requested from the sample process. -/
theorem fio_malloc_classification_witness :
    defaultConfig.ok ∧ Ready defaultConfig sampleState ∧ 0 < 1 ∧
      ∃ p s', fio_malloc defaultConfig 1 1 sampleState = some (p, s') ∧
        (p ≠ 0 →
          (p % defaultConfig.FIO_MEMORY_BLOCK_SIZE = 16 ↔
            defaultConfig.FIO_MEMORY_BLOCK_ALLOC_LIMIT ≤ 1) ∧
          (1 < defaultConfig.FIO_MEMORY_BLOCK_ALLOC_LIMIT →
            p % defaultConfig.FIO_MEMORY_BLOCK_SIZE ≠ 0)) := by
  refine ⟨defaultConfig_ok, sampleState_ready, by decide, ?_⟩
  obtain ⟨p, s', h1, h2⟩ :=
    fio_malloc_classification defaultConfig defaultConfig_ok sampleState sampleState_ready 1 1
      (by decide)
  exact ⟨p, s', h1, fun hp => ⟨(h2 hp).1, (h2 hp).2.1⟩⟩

/-- C2: for every size `n > 0` the pointer `fio_malloc` returns on a ready
state is 16 byte aligned: on the small path it is `b + pos * 16` for a block
aligned `b`, on the large path it is `mem + 16` for the block aligned (or null)
result `mem` of `sys_alloc`. -/
theorem fio_malloc_aligned (c : Config) (hc : c.ok) (s : State) (hs : Ready c s)
    (fuel n : Nat) (hn : 0 < n) :
    ∃ p s', fio_malloc c fuel n s = some (p, s') ∧ p % 16 = 0 ∧
      (n < c.FIO_MEMORY_BLOCK_ALLOC_LIMIT → p ≠ 0 →
        ∃ b pos, p = b + pos * 16 ∧ b % c.FIO_MEMORY_BLOCK_SIZE = 0) ∧
      (c.FIO_MEMORY_BLOCK_ALLOC_LIMIT ≤ n →
        ∃ mem, p = mem + 16 ∧ mem % c.FIO_MEMORY_BLOCK_SIZE = 0) := by
  by_cases hl : c.FIO_MEMORY_BLOCK_ALLOC_LIMIT ≤ n
  · obtain ⟨mem, e1, e2, _⟩ := big_alloc_ptr c hc n s
    refine ⟨(big_alloc c n s).1, (big_alloc c n s).2, fio_malloc_big c fuel n s hl hn, ?_,
      fun h => absurd hl (by omega), fun _ => ⟨mem, e1, e2⟩⟩
    have := mod16_of_block c hc mem e2
    rw [e1]
    omega
  · have hlt : n < c.FIO_MEMORY_BLOCK_ALLOC_LIMIT := by omega
    refine ⟨_, _, fio_malloc_small c fuel n s hs.1 hn hlt, ?_, ?_, fun h => absurd h hl⟩
    · obtain ⟨hb, hpool, _, _⟩ := ready_entered c s hs
      rcases block_slice_ptr c hc (slice_units n % 65536) (entered s) hb hpool with h0 | h
      · rw [h0]
      · obtain ⟨b, pos, ep, hab, _⟩ := h
        have := mod16_of_block c hc b hab.2.1
        rw [ep]
        omega
    · intro _ hp
      obtain ⟨hb, hpool, _, _⟩ := ready_entered c s hs
      rcases block_slice_ptr c hc (slice_units n % 65536) (entered s) hb hpool with h0 | h
      · exact absurd h0 hp
      · obtain ⟨b, pos, ep, hab, _⟩ := h
        exact ⟨b, pos, by rw [ep]; omega, hab.2.1⟩

/-- Witness for C2: a request of `FIO_MEMORY_BLOCK_ALLOC_LIMIT` bytes from the
sample process. -/
theorem fio_malloc_aligned_witness :
    defaultConfig.ok ∧ Ready defaultConfig sampleState ∧ 0 < 32768 ∧
      ∃ p s', fio_malloc defaultConfig 1 32768 sampleState = some (p, s') ∧ p % 16 = 0 := by
  refine ⟨defaultConfig_ok, sampleState_ready, by decide, ?_⟩
  obtain ⟨p, s', h1, h2, _⟩ :=
    fio_malloc_aligned defaultConfig defaultConfig_ok sampleState sampleState_ready 1 32768
      (by decide)
  exact ⟨p, s', h1, h2⟩

/-- Every address of a block is mapped to the block's base by the mask of
`block_slice_free`. -/
theorem and_not_mask_block (c : Config) (hc : c.ok) (b q : Nat) (hb : AddrOK c b)
    (h1 : b ≤ q) (h2 : q < b + c.FIO_MEMORY_BLOCK_SIZE) :
    q &&& (WORD - 1 - c.FIO_MEMORY_BLOCK_MASK) = b := by
  have hq : q < WORD := by
    have := hb.2.2
    unfold WORD
    omega
  rw [and_not_mask c hc q hq]
  have e : q = b + (q - b) := by omega
  have hm : q % c.FIO_MEMORY_BLOCK_SIZE = q - b := by
    rw [e]
    rw [add_mod_block _ _ _ hb.2.1 (by omega)]
    omega
  omega

/-- C3: on a ready state, with a limit that fits a block, a request of
`0 < n < FIO_MEMORY_BLOCK_ALLOC_LIMIT` bytes that `block_slice` serves from block
`b` at position `pos` with `units = ceil(n / 16)` gets the bytes
`[b + 16 * pos, b + 16 * (pos + units))`: at least `n` bytes, inside
`[b + 32, b + B - 16]`; so the mask of `block_slice_free` takes every address
of the slice back to `b`, the block that was cut (the arena's active block at
its position, or a block just initialised at position 2). -/
theorem small_slice_inside_block (c : Config) (hc : c.ok) (hfit : c.limit_fits) (s : State)
    (hs : Ready c s) (fuel n : Nat) (hn : 0 < n) (hl : n < c.FIO_MEMORY_BLOCK_ALLOC_LIMIT) :
    ∃ p s', fio_malloc c fuel n s = some (p, s') ∧
      (p ≠ 0 → ∃ b pos,
        p = b + 16 * pos ∧ AddrOK c b ∧
        ((b = arenaBlock s.arenas (cur_arena s) ∧ pos = block_pos s.mem b) ∨ pos = 2) ∧
        n ≤ 16 * slice_units n ∧
        b + 32 ≤ p ∧
        p + 16 * slice_units n ≤ b + c.FIO_MEMORY_BLOCK_SIZE - 16 ∧
        ∀ q, p ≤ q → q < p + 16 * slice_units n →
          q &&& (WORD - 1 - c.FIO_MEMORY_BLOCK_MASK) = b ∧
          ∀ t, block_slice_free c q t = block_free c b t) := by
  have hse := hc.size_eq
  refine ⟨_, _, fio_malloc_small c fuel n s hs.1 hn hl, ?_⟩
  intro hp
  obtain ⟨hb, hpool, eblk, emem⟩ := ready_entered c s hs
  have hu := slice_units_eq n
  have hfit' : n + 48 ≤ c.FIO_MEMORY_BLOCK_SIZE := by
    unfold Config.limit_fits at hfit
    omega
  have hu2 : slice_units n + 3 ≤ c.FIO_MEMORY_BLOCK_SLICES := by omega
  have hmod : slice_units n % 65536 = slice_units n := Nat.mod_eq_of_lt (by omega)
  rw [hmod] at hp ⊢
  rcases block_slice_ptr c hc (slice_units n) (entered s) hb hpool with h0 | h
  · exact absurd h0 hp
  · obtain ⟨b, pos, ep, hab, hcase⟩ := h
    have hpos : 2 ≤ pos ∧ pos + slice_units n + 1 ≤ c.FIO_MEMORY_BLOCK_SLICES := by
      rcases hcase with ⟨_, _, h2, h3, h4⟩ | h2
      · omega
      · omega
    refine ⟨b, pos, ep, hab, ?_, by omega, by omega, by omega, ?_⟩
    · rcases hcase with ⟨e1, e2, _⟩ | h2
      · left
        rw [eblk] at e1
        rw [emem] at e2
        exact ⟨e1, e2⟩
      · right; exact h2
    · intro q hq1 hq2
      have hq := and_not_mask_block c hc b q hab (by omega) (by omega)
      refine ⟨hq, fun t => ?_⟩
      unfold block_slice_free
      rw [hq]

theorem defaultConfig_limit_fits : defaultConfig.limit_fits := by
  unfold Config.limit_fits
  decide

/-- Witness for C3: 100 bytes requested from the sample process. -/
theorem small_slice_inside_block_witness :
    defaultConfig.ok ∧ defaultConfig.limit_fits ∧ Ready defaultConfig sampleState ∧ 0 < 100 ∧
      100 < defaultConfig.FIO_MEMORY_BLOCK_ALLOC_LIMIT ∧
      ∃ p s', fio_malloc defaultConfig 1 100 sampleState = some (p, s') ∧
        (p ≠ 0 → ∃ b pos, p = b + 16 * pos ∧ AddrOK defaultConfig b ∧ b + 32 ≤ p ∧
          p + 16 * slice_units 100 ≤ b + defaultConfig.FIO_MEMORY_BLOCK_SIZE - 16) := by
  refine ⟨defaultConfig_ok, defaultConfig_limit_fits, sampleState_ready, by decide, by decide, ?_⟩
  obtain ⟨p, s', h1, h2⟩ :=
    small_slice_inside_block defaultConfig defaultConfig_ok defaultConfig_limit_fits sampleState
      sampleState_ready 1 100 (by decide) (by decide)
  refine ⟨p, s', h1, fun hp => ?_⟩
  obtain ⟨b, pos, e1, e2, _, _, e5, e6, _⟩ := h2 hp
  exact ⟨b, pos, e1, e2, e5, e6⟩

/-! ## Pages -/

theorem setRange_in (m : Nat → Bool) (a len : Nat) (v : Bool) (pg : Nat) (h : inPages a len pg) :
    setRange m a len v pg = v := by
  unfold inPages at h
  unfold setRange
  rw [if_pos h]

theorem setRange_out (m : Nat → Bool) (a len : Nat) (v : Bool) (pg : Nat)
    (h : ¬ inPages a len pg) : setRange m a len v pg = m pg := by
  unfold inPages at h
  unfold setRange
  rw [if_neg h]

theorem rangeFree_iff (m : Nat → Bool) (a len : Nat) :
    rangeFree m a len = true ↔ ∀ pg, inPages a len pg → m pg = false := by
  unfold rangeFree inPages
  simp only [List.all_eq_true, List.mem_range, Bool.not_eq_true']
  constructor
  · intro h pg hpg
    have := h (pg - a / 4096) (by omega)
    rwa [Nat.add_sub_cancel' hpg.1] at this
  · intro h i hi
    exact h _ ⟨by omega, by omega⟩

theorem rangeMapped_iff (m : Nat → Bool) (a len : Nat) :
    rangeMapped m a len = true ↔ ∀ pg, inPages a len pg → m pg = true := by
  unfold rangeMapped inPages
  simp only [List.all_eq_true, List.mem_range]
  constructor
  · intro h pg hpg
    have := h (pg - a / 4096) (by omega)
    rwa [Nat.add_sub_cancel' hpg.1] at this
  · intro h i hi
    exact h _ ⟨by omega, by omega⟩

theorem Config.paged.dvd {c : Config} (hp : c.paged) : c.FIO_MEMORY_BLOCK_SIZE % 4096 = 0 := by
  unfold Config.paged at hp
  unfold Config.FIO_MEMORY_BLOCK_SIZE
  obtain ⟨k, hk⟩ : ∃ k, c.FIO_MEMORY_BLOCK_SIZE_LOG = 12 + k :=
    ⟨c.FIO_MEMORY_BLOCK_SIZE_LOG - 12, by omega⟩
  rw [hk, Nat.pow_add]
  norm_num

/-- The pages of a block are the pages from its first page on. -/
theorem inPages_block (c : Config) (hp : c.paged) (b pg : Nat) (hb : b % 4096 = 0) :
    inPages b c.FIO_MEMORY_BLOCK_SIZE pg ↔
      b ≤ 4096 * pg ∧ 4096 * pg < b + c.FIO_MEMORY_BLOCK_SIZE := by
  have hd := hp.dvd
  unfold inPages
  rw [pageCeil_of_mod _ hd]
  omega

/-- What `mmap` does to the page table and to memory, whether it succeeds or
not: pages that were mapped stay mapped and keep their bytes. -/
theorem mmap_extends (len : Nat) (s : State) :
    (∀ pg, s.mapped pg = true → (mmap len s).2.mapped pg = true) ∧
      (∀ x, s.mapped (x / 4096) = true → (mmap len s).2.mem x = s.mem x) := by
  cases h : (mmap len s).1 with
  | none =>
    have := mmap_none h
    rw [this.1, this.2]
    exact ⟨fun _ h => h, fun _ _ => rfl⟩
  | some r =>
    obtain ⟨h1, h2, h3, h4, h5, h6, h7⟩ := mmap_some h
    rw [h6, h7]
    rw [rangeFree_iff] at h5
    constructor
    · intro pg hm
      by_cases hin : inPages r len pg
      · exact setRange_in _ _ _ _ _ hin
      · rw [setRange_out _ _ _ _ _ hin]
        exact hm
    · intro x hm
      apply memset_apply_ne
      by_contra hcon
      have hin : inPages r len (x / 4096) := by
        unfold inPages
        have := pageCeil_mod len
        omega
      rw [h5 _ hin] at hm
      simp at hm



theorem pool_cap_congr (c : Config) {s s' : State} (h : s'.cores = s.cores) :
    pool_cap c s' = pool_cap c s := by
  unfold pool_cap
  rw [h]

theorem CapInv.of_eq {c : Config} {s s' : State} (h : CapInv c s) (h1 : s'.count = s.count)
    (h2 : s'.cores = s.cores) : CapInv c s' := by
  unfold CapInv at h ⊢
  rw [pool_cap_congr c h2, h1, h2]
  exact h

theorem CapInv.of_static {c : Config} {s s' : State} (h : CapInv c s) (hs : SameStatic s s') :
    CapInv c s' := h.of_eq hs.1 hs.2.1

/-- The cap the code compares with is never above the product it stands for. -/
theorem pool_cap_le (c : Config) (s : State) :
    pool_cap c s ≤ ((c.FIO_MEM_MAX_BLOCKS_PER_CORE * s.cores : Nat) : Int) := by
  unfold pool_cap
  dsimp only
  have h1 : (c.FIO_MEM_MAX_BLOCKS_PER_CORE * s.cores) % WORD ≤
      c.FIO_MEM_MAX_BLOCKS_PER_CORE * s.cores := Nat.mod_le _ _
  have h2 : (c.FIO_MEM_MAX_BLOCKS_PER_CORE * s.cores) % WORD < WORD :=
    Nat.mod_lt _ (by unfold WORD; norm_num)
  split
  · exact_mod_cast h1
  · have h3 : (((c.FIO_MEM_MAX_BLOCKS_PER_CORE * s.cores) % WORD : Nat) : Int) < (WORD : Int) := by
      exact_mod_cast h2
    have h4 : (0 : Int) ≤ ((c.FIO_MEM_MAX_BLOCKS_PER_CORE * s.cores : Nat) : Int) :=
      Int.ofNat_nonneg _
    omega

theorem CapInv.le {c : Config} {s : State} (h : CapInv c s) :
    s.count ≤ ((c.FIO_MEM_MAX_BLOCKS_PER_CORE * s.cores : Nat) : Int) := by
  rcases h with h | h
  · exact le_trans h (pool_cap_le c s)
  · have h4 : (0 : Int) ≤ ((c.FIO_MEM_MAX_BLOCKS_PER_CORE * s.cores : Nat) : Int) :=
      Int.ofNat_nonneg _
    have h5 : (0 : Int) ≤ (s.cores : Int) := Int.ofNat_nonneg _
    omega

theorem mremap_static (a o n : Nat) (s : State) : SameStatic s (mremap a o n s).2 := by
  unfold mremap
  split
  · exact SameStatic.rfl' s
  · exact ⟨rfl, rfl, rfl, rfl, rfl, rfl, rfl⟩
  · split
    · split
      · exact ⟨rfl, rfl, rfl, rfl, rfl, rfl, rfl⟩
      · split <;> exact ⟨rfl, rfl, rfl, rfl, rfl, rfl, rfl⟩
    · exact ⟨rfl, rfl, rfl, rfl, rfl, rfl, rfl⟩

theorem sys_realloc_static (mem prev_len new_len : Nat) (s : State) :
    SameStatic s (sys_realloc mem prev_len new_len s).2 := by
  delta sys_realloc
  split
  · have h := mremap_static mem prev_len new_len s
    cases h1 : (mremap mem prev_len new_len s).1 <;> exact h
  · split
    · exact munmap_static _ _ _
    · exact SameStatic.rfl' s

theorem big_alloc_static (c : Config) (size : Nat) (s : State) :
    SameStatic s (big_alloc c size s).2 := by
  delta big_alloc
  exact (sys_alloc_static c _ 1 s).trans' ⟨rfl, rfl, rfl, rfl, rfl, rfl, rfl⟩

theorem big_free_static (ptr : Nat) (s : State) : SameStatic s (big_free ptr s) := by
  delta big_free sys_free
  exact munmap_static _ _ _

theorem big_realloc_static (ptr new_size : Nat) (s : State) :
    SameStatic s (big_realloc ptr new_size s).2 := by
  delta big_realloc
  dsimp only
  have h := sys_realloc_static ((WORD - 16 + ptr) % WORD) (load64 s.mem ((WORD - 16 + ptr) % WORD))
    (sys_round_size ((new_size + 16) % WORD)) s
  split
  · exact h
  · exact h.trans' ⟨rfl, rfl, rfl, rfl, rfl, rfl, rfl⟩

theorem block_free_cap (c : Config) (blk : Nat) (s : State) (h : CapInv c s) :
    CapInv c (block_free c blk s) := by
  rw [block_free]
  dsimp only
  split
  · exact h.of_eq rfl rfl
  · split
    · exact (h.of_eq rfl rfl).of_static (munmap_static _ _ _)
    · rename_i hle
      have hf := push_frame blk
        { s with
          mem := memset (store16 s.mem blk ((65535 + block_ref s.mem blk) % 65536)) blk 0
            c.FIO_MEMORY_BLOCK_SIZE
          count := s.count + 1 }
      left
      rw [hf.2.2.2.1, pool_cap_congr c hf.2.2.1]
      exact not_lt.1 hle

theorem block_new_cap (c : Config) (s : State) (h : CapInv c s) :
    CapInv c (block_new c s).2 := by
  have hpf := pop_frame s
  by_cases hne : (fio_ls_embd_pop s).1 ≠ 0
  · rw [block_new_pop c s hne]
    have h2 : CapInv c (fio_ls_embd_pop s).2 := h.of_eq hpf.2.2.2.1 hpf.2.2.1
    rcases h2 with h2 | h2
    · left
      show (fio_ls_embd_pop s).2.count - 1 ≤ pool_cap c (fio_ls_embd_pop s).2
      omega
    · right
      show (fio_ls_embd_pop s).2.count - 1 ≤ -((fio_ls_embd_pop s).2.cores : Int)
      omega
  · have hz : (fio_ls_embd_pop s).1 = 0 := by simpa using hne
    have h2 : CapInv c (fio_ls_embd_pop s).2 := h.of_eq hpf.2.2.2.1 hpf.2.2.1
    have h3 := h2.of_static (sys_alloc_static c c.FIO_MEMORY_BLOCK_SIZE 0 (fio_ls_embd_pop s).2)
    by_cases h0 : (sys_alloc c c.FIO_MEMORY_BLOCK_SIZE 0 (fio_ls_embd_pop s).2).1 = 0
    · rw [block_new_fail c s hz h0]
      exact h3
    · rw [block_new_fresh c s hz h0]
      exact h3.of_eq rfl rfl

theorem block_slice_rotate_cap (c : Config) (units : Nat) (s : State) (h : CapInv c s) :
    CapInv c (block_slice_rotate c units s).2 := by
  by_cases h0 : arenaBlock s.arenas (cur_arena s) = 0
  · rw [rotate_empty c units s h0]
    exact (block_new_cap c s h).of_eq rfl rfl
  · by_cases h2 : block_pos s.mem (arenaBlock s.arenas (cur_arena s)) + units >
        block_max s.mem (arenaBlock s.arenas (cur_arena s))
    · rw [rotate_full c units s h0 h2]
      exact (block_new_cap c _ (block_free_cap c _ s h)).of_eq rfl rfl
    · rw [rotate_fit c units s h0 h2]
      exact h

theorem block_slice_cut_cap (c : Config) (units blk : Nat) (s : State) (h : CapInv c s) :
    CapInv c (block_slice_cut c units blk s).2 := by
  delta block_slice_cut
  dsimp only
  split
  · dsimp only
    have h1 : CapInv c { s with mem := cut_mem s.mem units blk } := h.of_eq rfl rfl
    exact (block_free_cap c blk _ h1).of_eq rfl rfl
  · dsimp only
    exact h.of_eq rfl rfl

theorem block_slice_cap (c : Config) (units : Nat) (s : State) (h : CapInv c s) :
    CapInv c (block_slice c units s).2 := by
  delta block_slice
  dsimp only
  have h1 := block_slice_rotate_cap c units s h
  split
  · exact h1
  · exact block_slice_cut_cap c units _ _ h1

theorem arena_enter_cap (c : Config) (fuel : Nat) (s s1 : State) (h : CapInv c s)
    (he : arena_enter fuel s = some s1) : CapInv c s1 := by
  unfold arena_enter arena_lock at he
  dsimp only at he
  split at he
  · rename_i r e
    simp only [Option.some.injEq] at he
    subst he
    split at e
    · simp only [Option.some.injEq] at e
      subst e
      exact h.of_eq rfl rfl
    · split at e
      · simp only [Option.some.injEq] at e
        subst e
        exact h.of_eq rfl rfl
      · simp at e
  · simp at he

theorem fio_malloc_cap (c : Config) (fuel size : Nat) (s : State) (r : Nat × State)
    (h : CapInv c s) (he : fio_malloc c fuel size s = some r) : CapInv c r.2 := by
  unfold fio_malloc at he
  split at he
  · simp only [Option.some.injEq] at he
    subst he
    exact h
  · split at he
    · simp only [Option.some.injEq] at he
      subst he
      exact h.of_static (big_alloc_static c size s)
    · split at he
      · simp at he
      · rename_i s1 e1
        simp only [Option.some.injEq] at he
        subst he
        exact (block_slice_cap c _ s1 (arena_enter_cap c fuel s s1 h e1)).of_eq rfl rfl

theorem fio_free_cap (c : Config) (ptr : Nat) (s : State) (h : CapInv c s) :
    CapInv c (fio_free c ptr s) := by
  unfold fio_free
  split
  · exact h
  · split
    · exact h.of_static (big_free_static ptr s)
    · exact block_free_cap c _ s h

theorem fio_realloc2_cap (c : Config) (fuel ptr o n : Nat) (s : State) (r : Nat × State)
    (h : CapInv c s) (he : fio_realloc2 c fuel ptr o n s = some r) : CapInv c r.2 := by
  unfold fio_realloc2 at he
  split at he
  · exact fio_malloc_cap c fuel n s r h he
  · split at he
    · simp only [Option.some.injEq] at he
      subst he
      exact h.of_static (big_realloc_static ptr n s)
    · split at he
      · simp at he
      · rename_i r1 e1
        have h1 := fio_malloc_cap c fuel n s r1 h e1
        split at he
        · simp only [Option.some.injEq] at he
          subst he
          exact h1
        · simp only [Option.some.injEq] at he
          subst he
          exact block_free_cap c _ _ (h1.of_eq rfl rfl)

theorem call_cap (c : Config) (fuel : Nat) (x : Call) (s s1 : State) (h : CapInv c s)
    (he : call c fuel x s = some s1) : CapInv c s1 := by
  cases x with
  | malloc size =>
    simp only [call, Option.map_eq_some'] at he
    obtain ⟨r, e, rfl⟩ := he
    exact fio_malloc_cap c fuel size s r h e
  | calloc size count =>
    simp only [call, Option.map_eq_some', fio_calloc] at he
    obtain ⟨r, e, rfl⟩ := he
    exact fio_malloc_cap c fuel _ s r h e
  | free ptr =>
    simp only [call, Option.some.injEq] at he
    subst he
    exact fio_free_cap c ptr s h
  | realloc ptr new_size =>
    simp only [call, Option.map_eq_some', fio_realloc] at he
    obtain ⟨r, e, rfl⟩ := he
    exact fio_realloc2_cap c fuel ptr _ new_size s r h e
  | realloc2 ptr o new_size =>
    simp only [call, Option.map_eq_some'] at he
    obtain ⟨r, e, rfl⟩ := he
    exact fio_realloc2_cap c fuel ptr o new_size s r h e

theorem run_cap (c : Config) (fuel : Nat) (h : List Call) :
    ∀ s s1 : State, CapInv c s → run c fuel h s = some s1 → CapInv c s1 := by
  induction h with
  | nil =>
    intro s s1 hs he
    simp only [run, Option.some.injEq] at he
    subst he
    exact hs
  | cons x xs ih =>
    intro s s1 hs he
    simp only [run] at he
    split at he
    · simp at he
    · rename_i s2 e2
      exact ih s2 s1 (call_cap c fuel x s s2 hs e2) he

theorem pre_pool_loop_static (c : Config) (n : Nat) :
    ∀ s : State, (pre_pool_loop c n s).count = s.count ∧ (pre_pool_loop c n s).cores = s.cores := by
  induction n with
  | zero => intro s; exact ⟨rfl, rfl⟩
  | succ n ih =>
    intro s
    rw [pre_pool_loop]
    have hs := sys_alloc_static c c.FIO_MEMORY_BLOCK_SIZE 0 s
    split
    · have hp := push_frame (sys_alloc c c.FIO_MEMORY_BLOCK_SIZE 0 s).1
        (sys_alloc c c.FIO_MEMORY_BLOCK_SIZE 0 s).2
      have := ih (fio_ls_embd_push (sys_alloc c c.FIO_MEMORY_BLOCK_SIZE 0 s).1
        (sys_alloc c c.FIO_MEMORY_BLOCK_SIZE 0 s).2)
      exact ⟨this.1.trans (hp.2.2.2.1.trans hs.1), this.2.trans (hp.2.2.1.trans hs.2.1)⟩
    · have := ih (sys_alloc c c.FIO_MEMORY_BLOCK_SIZE 0 s).2
      exact ⟨this.1.trans hs.1, this.2.trans hs.2.1⟩

/-- A process that has not been initialised is initialised by `fio_mem_init`
unless the function exits. -/
theorem fio_mem_init_eq (c : Config) (cpu_count : Nat) (s s0 : State) (h0 : s.arenas_ptr = 0)
    (h : fio_mem_init c cpu_count s = some s0) :
    (fio_mem_init_arenas c cpu_count s).arenas_ptr ≠ 0 ∧
      s0 = pre_pool_loop c (if cpu_count > 32 then 32 else cpu_count)
        (fio_mem_init_arenas c cpu_count s) := by
  delta fio_mem_init at h
  rw [if_neg (by simpa using h0)] at h
  by_cases h1 : (fio_mem_init_arenas c cpu_count s).arenas_ptr = 0
  · rw [if_pos h1] at h
    simp at h
  · rw [if_neg h1] at h
    simp only [Option.some.injEq] at h
    exact ⟨h1, h.symm⟩

theorem fio_mem_init_arenas_count (c : Config) (cpu_count : Nat) (s : State) :
    (fio_mem_init_arenas c cpu_count s).count = -(cpu_count : Int) ∧
      (fio_mem_init_arenas c cpu_count s).cores = cpu_count := by
  delta fio_mem_init_arenas
  have h2 := big_alloc_static c (sizeof_arena_s * cpu_count % WORD)
    { s with cores := cpu_count, count := 0 - (cpu_count : Int) }
  refine ⟨h2.1.trans ?_, h2.2.1⟩
  show (0 : Int) - (cpu_count : Int) = -(cpu_count : Int)
  omega

/-- After `fio_mem_init` in a fresh process the counter holds its bias and
`memory.cores` the core count. -/
theorem fio_mem_init_count (c : Config) (cpu_count : Nat) (oracle : List (Option Nat))
    (s0 : State) (h : fio_mem_init c cpu_count (boot oracle) = some s0) :
    s0.count = -(cpu_count : Int) ∧ s0.cores = cpu_count := by
  obtain ⟨_, e⟩ := fio_mem_init_eq c cpu_count (boot oracle) s0 rfl h
  have h1 := pre_pool_loop_static c (if cpu_count > 32 then 32 else cpu_count)
    (fio_mem_init_arenas c cpu_count (boot oracle))
  have h2 := fio_mem_init_arenas_count c cpu_count (boot oracle)
  rw [e]
  exact ⟨h1.1.trans h2.1, h1.2.trans h2.2⟩

/-- C9: after `fio_mem_init` and after every completed call of a sequential
history of `fio_malloc`, `fio_calloc`, `fio_free`, `fio_realloc` and
`fio_realloc2` calls (whatever their arguments), `memory.count` is at most
`FIO_MEM_MAX_BLOCKS_PER_CORE * memory.cores`; and a block whose release would
take the counter above the cap `block_free` compares with is unmapped, with the
counter and the recycled list left as they were. -/
theorem pool_counter_capped (c : Config) (cpu_count fuel : Nat) (oracle : List (Option Nat))
    (history : List Call) (s0 s : State)
    (hinit : fio_mem_init c cpu_count (boot oracle) = some s0)
    (hrun : run c fuel history s0 = some s) :
    s.count ≤ ((c.FIO_MEM_MAX_BLOCKS_PER_CORE * s.cores : Nat) : Int) ∧
      ∀ (t : State) (blk : Nat), (65535 + block_ref t.mem blk) % 65536 = 0 →
        t.count + 1 > pool_cap c t →
        (block_free c blk t).count = t.count ∧
        (block_free c blk t).available = t.available ∧
        (block_free c blk t).mapped = (munmap blk c.FIO_MEMORY_BLOCK_SIZE t).mapped := by
  have hi := fio_mem_init_count c cpu_count oracle s0 hinit
  have h0 : CapInv c s0 := by
    right
    rw [hi.1, hi.2]
  refine ⟨(run_cap c fuel history s0 s h0 hrun).le, ?_⟩
  intro t blk hz hgt
  rw [block_free_unmap c blk t hz hgt]
  unfold sys_free munmap
  split <;> exact ⟨rfl, rfl, rfl⟩

theorem some_getD {α : Type} (o : Option α) (d : α) (h : o.isSome = true) :
    o = some (o.getD d) := by
  cases o with
  | none => simp at h
  | some x => rfl

theorem sampleState_init :
    fio_mem_init defaultConfig 1 (boot sampleOracle) = some sampleState :=
  some_getD _ _ (by decide)

/-- Witness for C9: the sample process and `sampleHistory`. -/
theorem pool_counter_capped_witness :
    fio_mem_init defaultConfig 1 (boot sampleOracle) = some sampleState ∧
      run defaultConfig 1 sampleHistory sampleState = some sampleFinal ∧
      sampleFinal.count ≤
        ((defaultConfig.FIO_MEM_MAX_BLOCKS_PER_CORE * sampleFinal.cores : Nat) : Int) :=
  ⟨sampleState_init, some_getD _ _ (by decide),
    (pool_counter_capped defaultConfig 1 1 sampleOracle sampleHistory sampleState sampleFinal
      sampleState_init (some_getD _ _ (by decide))).1⟩

/-! ## Reference counts -/

theorem munmap_out (a len : Nat) (s : State) (pg : Nat) (h : ¬ inPages a len pg) :
    (munmap a len s).mapped pg = s.mapped pg := by
  unfold munmap
  split
  · exact setRange_out _ _ _ _ _ h
  · rfl

theorem munmap_in (a len : Nat) (s : State) (pg : Nat) (ha : a % 4096 = 0) (hl : len ≠ 0)
    (h : inPages a len pg) : (munmap a len s).mapped pg = false := by
  unfold munmap
  rw [if_pos ⟨ha, hl⟩]
  exact setRange_in _ _ _ _ _ h

/-- Mapping and unmapping again a range that was free changes no page. -/
theorem mmap_munmap_mapped {len : Nat} {s : State} {r : Nat} (h : (mmap len s).1 = some r)
    (pg : Nat) : (munmap r len (mmap len s).2).mapped pg = s.mapped pg := by
  obtain ⟨h1, h2, h3, h4, h5, h6, h7⟩ := mmap_some h
  rw [rangeFree_iff] at h5
  by_cases hin : inPages r len pg
  · rw [munmap_in _ _ _ _ h2 h3 hin, h5 _ hin]
  · rw [munmap_out _ _ _ _ hin, h6, setRange_out _ _ _ _ _ hin]

/-- What `sys_alloc` does to the page table and to memory, for a page multiple
`len`: a failed call changes no page; a successful call maps exactly the pages
of `[result, result + len)`, which were free; and in both cases the bytes of
the pages that were mapped are not touched. -/
theorem sys_alloc_pages (c : Config) (hc : c.ok) (hp : c.paged) (len is_indi : Nat) (s : State)
    (hlen : len % 4096 = 0) :
    ((sys_alloc c len is_indi s).1 = 0 →
        ∀ pg, (sys_alloc c len is_indi s).2.mapped pg = s.mapped pg) ∧
      ((sys_alloc c len is_indi s).1 ≠ 0 →
        (∀ pg, inPages (sys_alloc c len is_indi s).1 len pg →
          s.mapped pg = false ∧ (sys_alloc c len is_indi s).2.mapped pg = true) ∧
        (∀ pg, ¬ inPages (sys_alloc c len is_indi s).1 len pg →
          (sys_alloc c len is_indi s).2.mapped pg = s.mapped pg)) ∧
      (∀ x, s.mapped (x / 4096) = true → (sys_alloc c len is_indi s).2.mem x = s.mem x) := by
  have hse := hc.size_eq
  have hd := hp.dvd
  have hB := block_size_pos c
  rcases sys_alloc_cases c len is_indi s with ⟨h1, e⟩ | ⟨r1, h1, hm, e⟩ | ⟨r1, h1, hm, h2, e⟩ |
    ⟨r1, r2, h1, hm, h2, e⟩
  · rw [e]
    have hn := mmap_none h1
    dsimp only
    rw [hn.1, hn.2]
    exact ⟨fun _ _ => rfl, fun h => absurd rfl h, fun _ _ => rfl⟩
  · rw [e]
    obtain ⟨m1, m2, m3, m4, m5, m6, m7⟩ := mmap_some h1
    rw [rangeFree_iff] at m5
    dsimp only
    rw [m6]
    refine ⟨fun h => absurd h m1, fun _ => ⟨fun pg hin => ⟨m5 pg hin, setRange_in _ _ _ _ _ hin⟩,
      fun pg hout => setRange_out _ _ _ _ _ hout⟩, (mmap_extends len s).2⟩
  · rw [e]
    dsimp only
    have hn := mmap_none h2
    rw [hn.1, hn.2, munmap_mem]
    exact ⟨fun _ pg => mmap_munmap_mapped h1 pg, fun h => absurd rfl h, (mmap_extends len s).2⟩
  · rw [e]
    dsimp only
    obtain ⟨m1, m2, m3, m4, m5, m6, m7⟩ := mmap_some h1
    have hce := le_pageCeil len
    have hwl : len + c.FIO_MEMORY_BLOCK_SIZE < WORD := by
      unfold WORD
      omega
    rw [Nat.mod_eq_of_lt hwl] at h2 ⊢
    obtain ⟨n1, n2, n3, n4, n5, n6, n7⟩ := mmap_some h2
    rw [rangeFree_iff] at n5
    have hlt := Nat.mod_lt r2 hB
    have hr2 : r2 % c.FIO_MEMORY_BLOCK_SIZE % 4096 = 0 := by
      rw [Nat.mod_mod_of_dvd _ (Nat.dvd_of_mod_eq_zero hd)]
      exact n2
    have hpc : pageCeil (len + c.FIO_MEMORY_BLOCK_SIZE) = len + c.FIO_MEMORY_BLOCK_SIZE :=
      pageCeil_of_mod _ (by omega)
    have hpl : pageCeil len = len := pageCeil_of_mod _ hlen
    -- the pages of the second mapping were free in `s`
    have hfree : ∀ pg, inPages r2 (len + c.FIO_MEMORY_BLOCK_SIZE) pg → s.mapped pg = false := by
      intro pg hin
      rw [← mmap_munmap_mapped h1 pg]
      exact n5 pg hin
    have hoff : (c.FIO_MEMORY_BLOCK_SIZE - r2 % c.FIO_MEMORY_BLOCK_SIZE) % 4096 = 0 := by omega
    have hoff0 : c.FIO_MEMORY_BLOCK_SIZE - r2 % c.FIO_MEMORY_BLOCK_SIZE ≠ 0 := by omega
    have hpo : pageCeil (c.FIO_MEMORY_BLOCK_SIZE - r2 % c.FIO_MEMORY_BLOCK_SIZE) =
        c.FIO_MEMORY_BLOCK_SIZE - r2 % c.FIO_MEMORY_BLOCK_SIZE := pageCeil_of_mod _ hoff
    have hsub : c.FIO_MEMORY_BLOCK_SIZE - (c.FIO_MEMORY_BLOCK_SIZE - r2 % c.FIO_MEMORY_BLOCK_SIZE) =
        r2 % c.FIO_MEMORY_BLOCK_SIZE := by omega
    rw [hsub]
    have hpt : pageCeil (r2 % c.FIO_MEMORY_BLOCK_SIZE) = r2 % c.FIO_MEMORY_BLOCK_SIZE :=
      pageCeil_of_mod _ hr2
    refine ⟨fun h => absurd h (by omega), fun _ => ⟨?_, ?_⟩, ?_⟩
    · intro pg hin
      have hin2 : inPages r2 (len + c.FIO_MEMORY_BLOCK_SIZE) pg := by
        unfold inPages at hin ⊢
        rw [hpl] at hin
        rw [hpc]
        omega
      refine ⟨hfree pg hin2, ?_⟩
      rw [munmap_out, munmap_out, n6]
      · exact setRange_in _ _ _ _ _ hin2
      · unfold inPages at hin ⊢
        rw [hpl] at hin
        rw [hpo]
        omega
      · unfold inPages at hin ⊢
        rw [hpl] at hin
        rw [hpt]
        omega
    · intro pg hout
      by_cases hin2 : inPages r2 (len + c.FIO_MEMORY_BLOCK_SIZE) pg
      · rw [hfree pg hin2]
        by_cases hlead : inPages r2 (c.FIO_MEMORY_BLOCK_SIZE - r2 % c.FIO_MEMORY_BLOCK_SIZE) pg
        · rw [munmap_out, munmap_in _ _ _ _ n2 hoff0 hlead]
          unfold inPages at hlead ⊢
          rw [hpo] at hlead
          rw [hpt]
          omega
        · have htrail : inPages
              (r2 + (c.FIO_MEMORY_BLOCK_SIZE - r2 % c.FIO_MEMORY_BLOCK_SIZE) + len)
              (r2 % c.FIO_MEMORY_BLOCK_SIZE) pg := by
            unfold inPages at hout hin2 hlead ⊢
            rw [hpl] at hout
            rw [hpc] at hin2
            rw [hpo] at hlead
            rw [hpt]
            omega
          have hne : r2 % c.FIO_MEMORY_BLOCK_SIZE ≠ 0 := by
            intro h0
            unfold inPages at htrail
            rw [hpt, h0] at htrail
            omega
          exact munmap_in _ _ _ _ (by omega) hne htrail
      · rw [munmap_out, munmap_out, n6, setRange_out _ _ _ _ _ hin2]
        · exact mmap_munmap_mapped h1 pg
        · unfold inPages at hin2 ⊢
          rw [hpc] at hin2
          rw [hpo]
          omega
        · unfold inPages at hin2 ⊢
          rw [hpc] at hin2
          rw [hpt]
          omega
    · intro x hx
      rw [munmap_mem, munmap_mem]
      have hx1 : (munmap r1 len (mmap len s).2).mapped (x / 4096) = true := by
        rw [mmap_munmap_mapped h1]
        exact hx
      rw [(mmap_extends _ _).2 x hx1, munmap_mem]
      exact (mmap_extends len s).2 x hx

theorem aligned_far (B a b : Nat) (ha : a % B = 0) (hb : b % B = 0) (hne : a ≠ b) :
    a + B ≤ b ∨ b + B ≤ a := by
  obtain ⟨k, hk⟩ := Nat.dvd_of_mod_eq_zero ha
  obtain ⟨l, hl⟩ := Nat.dvd_of_mod_eq_zero hb
  subst hk
  subst hl
  rcases Nat.lt_trichotomy k l with h | h | h
  · left
    calc B * k + B = B * (k + 1) := by ring
      _ ≤ B * l := Nat.mul_le_mul_left _ h
  · exact absurd (by rw [h]) hne
  · right
    calc B * l + B = B * (l + 1) := by ring
      _ ≤ B * k := Nat.mul_le_mul_left _ h

theorem AddrOK.far {c : Config} {a b : Nat} (ha : AddrOK c a) (hb : AddrOK c b) (hne : a ≠ b) :
    a + c.FIO_MEMORY_BLOCK_SIZE ≤ b ∨ b + c.FIO_MEMORY_BLOCK_SIZE ≤ a :=
  aligned_far _ _ _ ha.2.1 hb.2.1 hne

theorem AddrOK.page {c : Config} (hp : c.paged) {a : Nat} (ha : AddrOK c a) : a % 4096 = 0 := by
  have hd := hp.dvd
  obtain ⟨k, hk⟩ := Nat.dvd_of_mod_eq_zero ha.2.1
  obtain ⟨l, hl⟩ := Nat.dvd_of_mod_eq_zero hd
  rw [hk, hl, Nat.mul_assoc]
  exact Nat.mul_mod_right _ _

theorem blockOf_add (c : Config) (b x : Nat) (hb : b % c.FIO_MEMORY_BLOCK_SIZE = 0)
    (hx : x < c.FIO_MEMORY_BLOCK_SIZE) : blockOf c (b + x) = b := by
  unfold blockOf
  rw [add_mod_block _ _ _ hb hx]
  omega

/-- The first page of a block is one of its pages. -/
theorem inPages_first (c : Config) (hc : c.ok) (hp : c.paged) (b : Nat) (hb : b % 4096 = 0) :
    inPages b c.FIO_MEMORY_BLOCK_SIZE (b / 4096) := by
  rw [inPages_block c hp b _ hb]
  have := hc.size_eq
  omega

/-- The pages of two different blocks are different. -/
theorem inPages_disjoint (c : Config) (hp : c.paged) {a b : Nat} (ha : AddrOK c a)
    (hb : AddrOK c b) (hne : a ≠ b) (pg : Nat) (h1 : inPages a c.FIO_MEMORY_BLOCK_SIZE pg) :
    ¬ inPages b c.FIO_MEMORY_BLOCK_SIZE pg := by
  rw [inPages_block c hp a _ (ha.page hp)] at h1
  rw [inPages_block c hp b _ (hb.page hp)]
  have := ha.far hb hne
  omega

theorem sliceCount_cons (c : Config) (p : Nat) (live : List Nat) (b : Nat) :
    sliceCount c (p :: live) b = sliceCount c live b + (if blockOf c p = b then 1 else 0) := by
  unfold sliceCount
  rw [List.countP_cons]
  simp

theorem sliceCount_erase (c : Config) (p : Nat) (live : List Nat) (b : Nat) (h : p ∈ live) :
    sliceCount c (live.erase p) b + (if blockOf c p = b then 1 else 0) = sliceCount c live b := by
  induction live with
  | nil => simp at h
  | cons q l ih =>
    by_cases hq : q = p
    · subst hq
      rw [List.erase_cons_head, sliceCount_cons]
    · have hm : p ∈ l := by
        rcases List.mem_cons.1 h with e | e
        · exact absurd e.symm hq
        · exact e
      rw [List.erase_cons_tail (by simpa using hq), sliceCount_cons, sliceCount_cons]
      have := ih hm
      omega

theorem sliceCount_pos (c : Config) (live : List Nat) (b : Nat) (h : 0 < sliceCount c live b) :
    ∃ p ∈ live, blockOf c p = b := by
  unfold sliceCount at h
  rw [List.countP_pos_iff] at h
  obtain ⟨p, hp, he⟩ := h
  exact ⟨p, hp, by simpa using he⟩

theorem sliceCount_of_not_mem (c : Config) (live : List Nat) (b : Nat)
    (h : ∀ p ∈ live, blockOf c p ≠ b) : sliceCount c live b = 0 := by
  by_contra hne
  obtain ⟨p, hp, he⟩ := sliceCount_pos c live b (by omega)
  exact h p hp he

theorem hdr_of_low (m m' : Mem) (b : Nat) (h : ∀ x, b ≤ x → x < b + 6 → m' x = m x) :
    block_ref m' b = block_ref m b ∧ block_pos m' b = block_pos m b ∧
      block_max m' b = block_max m b := by
  unfold block_ref block_pos block_max
  refine ⟨load16_congr _ _ _ (h _ (by omega) (by omega)) (h _ (by omega) (by omega)),
    load16_congr _ _ _ (h _ (by omega) (by omega)) (h _ (by omega) (by omega)),
    load16_congr _ _ _ (h _ (by omega) (by omega)) (h _ (by omega) (by omega))⟩

/-- A change inside one block leaves the headers of the other blocks alone. -/
theorem MemOnly.hdr {c : Config} (hc : c.ok) {s s' : State} {b b' : Nat}
    (h : MemOnly c s s' b) (hav : ∀ t ∈ s.available, AddrOK c t) (hb : AddrOK c b)
    (hb' : AddrOK c b') (hne : b' ≠ b) :
    block_ref s'.mem b' = block_ref s.mem b' ∧ block_pos s'.mem b' = block_pos s.mem b' ∧
      block_max s'.mem b' = block_max s.mem b' := by
  have hse := hc.size_eq
  apply hdr_of_low
  intro x h1 h2
  apply h
  · have := hb'.far hb hne
    omega
  · intro t ht
    by_cases e : t = b'
    · subst e; omega
    · have := (hav t ht).far hb' e
      omega

theorem push_mem_out (node : Nat) (s : State) (x : Nat) (h1 : x < node ∨ node + 16 ≤ x)
    (h2 : ∀ t ∈ s.available, x < t + 8 ∨ t + 16 ≤ x) :
    (fio_ls_embd_push node s).mem x = s.mem x := by
  unfold fio_ls_embd_push
  split
  · show store64 (store64 s.mem node s.available_addr) (node + 8) s.available_addr x = s.mem x
    rw [store64_apply_ne _ _ _ _ (by omega), store64_apply_ne _ _ _ _ (by omega)]
  · rename_i top rest e
    have ht := h2 top (by rw [e]; exact List.mem_cons_self _ _)
    show store64 (store64 (store64 s.mem node top) (node + 8) s.available_addr) (top + 8) node x =
      s.mem x
    rw [store64_apply_ne _ _ _ _ (by omega), store64_apply_ne _ _ _ _ (by omega),
      store64_apply_ne _ _ _ _ (by omega)]

theorem pop_mem_out (s : State) (x : Nat) (h2 : ∀ t ∈ s.available, x < t + 8 ∨ t + 16 ≤ x) :
    (fio_ls_embd_pop s).2.mem x = s.mem x := by
  unfold fio_ls_embd_pop
  split
  · rfl
  · rfl
  · rename_i node below rest e
    have ht := h2 below (by rw [e]; exact List.mem_cons_of_mem _ (List.mem_cons_self _ _))
    show store64 s.mem (below + 8) s.available_addr x = s.mem x
    rw [store64_apply_ne _ _ _ _ (by omega)]

theorem block_free_memOnly (c : Config) (hc : c.ok) (b : Nat) (s : State) :
    MemOnly c s (block_free c b s) b := by
  have hse := hc.size_eq
  intro x h1 h2
  by_cases hr : (65535 + block_ref s.mem b) % 65536 ≠ 0
  · rw [block_free_keep c b s hr]
    show store16 s.mem b _ x = s.mem x
    exact store16_apply_ne _ _ _ _ (by omega) (by omega)
  · have hr0 : (65535 + block_ref s.mem b) % 65536 = 0 := by simpa using hr
    by_cases hcap : s.count + 1 > pool_cap c s
    · rw [block_free_unmap c b s hr0 hcap]
      unfold sys_free
      rw [munmap_mem]
      show store16 s.mem b _ x = s.mem x
      exact store16_apply_ne _ _ _ _ (by omega) (by omega)
    · rw [block_free_pool c b s hr0 hcap]
      have key : ∀ m : Mem, (fio_ls_embd_push b { s with count := s.count + 1, mem := m }).mem x =
          m x := fun m => push_mem_out b { s with count := s.count + 1, mem := m } x (by omega) h2
      refine (key _).trans ?_
      show memset (store16 s.mem b _) b 0 c.FIO_MEMORY_BLOCK_SIZE x = s.mem x
      rw [memset_apply_ne _ _ _ _ _ (by omega)]
      exact store16_apply_ne _ _ _ _ (by omega) (by omega)

theorem block_init_mem_out (c : Config) (blk : Nat) (s : State) (x : Nat)
    (h : x < blk ∨ blk + 8 ≤ x) : (block_init c blk s).mem x = s.mem x := by
  unfold block_init
  dsimp only
  rw [store16_apply_ne _ _ _ _ (by omega) (by omega), store16_apply_ne _ _ _ _ (by omega) (by omega),
    store16_apply_ne _ _ _ _ (by omega) (by omega), store16_apply_ne _ _ _ _ (by omega) (by omega)]

theorem cut_mem_out (m : Mem) (units blk x : Nat) (h : x < blk ∨ blk + 4 ≤ x) :
    cut_mem m units blk x = m x := by
  unfold cut_mem
  rw [store16_apply_ne _ _ _ _ (by omega) (by omega), store16_apply_ne _ _ _ _ (by omega) (by omega)]

theorem cut_mem_hdr (m : Mem) (units blk : Nat) :
    block_ref (cut_mem m units blk) blk = (block_ref m blk + 1) % 65536 ∧
      block_pos (cut_mem m units blk) blk = (block_pos m blk + units) % 65536 ∧
      block_max (cut_mem m units blk) blk = block_max m blk := by
  unfold cut_mem block_ref block_pos block_max
  refine ⟨?_, ?_, ?_⟩
  · rw [load16_store16_ne _ _ _ _ (by omega), load16_store16]
    simp
  · rw [load16_store16, load16_store16_ne _ _ _ _ (by omega)]
    simp
  · rw [load16_store16_ne _ _ _ _ (by omega), load16_store16_ne _ _ _ _ (by omega)]

theorem store16_ref_hdr (m : Mem) (blk v : Nat) :
    block_ref (store16 m blk v) blk = v % 65536 ∧
      block_pos (store16 m blk v) blk = block_pos m blk ∧
      block_max (store16 m blk v) blk = block_max m blk := by
  unfold block_ref block_pos block_max
  exact ⟨load16_store16 _ _ _, load16_store16_ne _ _ _ _ (by omega),
    load16_store16_ne _ _ _ _ (by omega)⟩

/-- What `block_free` does to a block that holds at least one reference. -/
theorem block_free_effect (c : Config) (hp : c.paged) (b : Nat) (s : State)
    (hb : AddrOK c b) (hr1 : 1 ≤ block_ref s.mem b) :
    (∀ pg, ¬ inPages b c.FIO_MEMORY_BLOCK_SIZE pg →
      (block_free c b s).mapped pg = s.mapped pg) ∧
    (block_ref s.mem b ≠ 1 →
      (block_free c b s).available = s.available ∧ (block_free c b s).mapped = s.mapped ∧
        block_ref (block_free c b s).mem b + 1 = block_ref s.mem b ∧
        block_pos (block_free c b s).mem b = block_pos s.mem b ∧
        block_max (block_free c b s).mem b = block_max s.mem b) ∧
    (block_ref s.mem b = 1 →
      ((block_free c b s).available = b :: s.available ∧ (block_free c b s).mapped = s.mapped) ∨
      ((block_free c b s).available = s.available ∧ BlockFree c (block_free c b s) b)) := by
  have hlt : block_ref s.mem b < 65536 := load16_lt _ _
  have hB := block_size_pos c
  by_cases hr : (65535 + block_ref s.mem b) % 65536 ≠ 0
  · rw [block_free_keep c b s hr]
    have h := store16_ref_hdr s.mem b ((65535 + block_ref s.mem b) % 65536)
    refine ⟨fun _ _ => rfl, fun _ => ⟨rfl, rfl, ?_, h.2.1, h.2.2⟩, fun h1 => ?_⟩
    · show block_ref (store16 s.mem b _) b + 1 = _
      rw [h.1]
      omega
    · exfalso
      omega
  · have hr0 : (65535 + block_ref s.mem b) % 65536 = 0 := by simpa using hr
    have hone : block_ref s.mem b = 1 := by omega
    by_cases hcap : s.count + 1 > pool_cap c s
    · rw [block_free_unmap c b s hr0 hcap]
      unfold sys_free
      refine ⟨fun pg hpg => munmap_out _ _ _ _ hpg, fun h1 => absurd hone h1, fun _ => Or.inr ⟨?_, ?_⟩⟩
      · exact (munmap_static _ _ _).2.2.1
      · intro pg hpg
        exact munmap_in _ _ _ _ (hb.page hp) (by omega) hpg
    · rw [block_free_pool c b s hr0 hcap]
      refine ⟨fun pg _ => ?_, fun h1 => absurd hone h1, fun _ => Or.inl ⟨?_, ?_⟩⟩
      · rw [(push_frame _ _).2.2.2.2.2.2.1]
      · rw [push_available]
      · rw [(push_frame _ _).2.2.2.2.2.2.1]

theorem sliceCount_pos_of_mem (c : Config) (live : List Nat) (p : Nat) (h : p ∈ live) :
    0 < sliceCount c live (blockOf c p) := by
  unfold sliceCount
  rw [List.countP_pos_iff]
  exact ⟨p, h, by simp⟩

theorem Core.held_mapped {c : Config} {s : State} {live : List Nat} {A : Nat}
    (h : Core c s live A) (t : Nat)
    (ht : 0 < sliceCount c live t + (if t = A then 1 else 0)) : t ≠ 0 → BlockMapped c s t := by
  intro h0
  by_cases hs : 0 < sliceCount c live t
  · obtain ⟨p, hp, e⟩ := sliceCount_pos c live t hs
    rw [← e]
    exact (h.live_ok p hp).2.2
  · have : t = A := by
      by_contra hne
      rw [if_neg hne] at ht
      omega
    subst this
    exact (h.active h0).2.1

theorem Core.held_not_pool {c : Config} {s : State} {live : List Nat} {A : Nat}
    (h : Core c s live A) (t : Nat)
    (ht : 0 < sliceCount c live t + (if t = A then 1 else 0)) : t ∉ s.available := by
  intro hin
  have := h.pool t hin
  rw [if_neg this.2.2.1, this.2.2.2] at ht
  omega

/-- The allocator's view survives a step that changes the standing of one
block `b` only. -/
theorem Core.update {c : Config} {s s' : State} {live live' : List Nat}
    {A A' b : Nat} (h : Core c s live A) (hb : AddrOK c b)
    (hA' : A' = A ∨ A' = b ∨ A' = 0)
    (hnodup : s'.available.Nodup)
    (hav : ∀ t ∈ s'.available, t ≠ b → t ∈ s.available)
    (hmap : ∀ t, AddrOK c t → t ≠ b → BlockMapped c s t → BlockMapped c s' t)
    (hhdr : ∀ t, AddrOK c t → t ≠ b → BlockMapped c s t →
      block_ref s'.mem t = block_ref s.mem t ∧ block_pos s'.mem t = block_pos s.mem t ∧
        block_max s'.mem t = block_max s.mem t)
    (hlive : ∀ p ∈ live', blockOf c p ≠ b → p ∈ live)
    (hliveb : ∀ p ∈ live', blockOf c p = b → 32 ≤ p % c.FIO_MEMORY_BLOCK_SIZE)
    (hsc : ∀ t, t ≠ b → sliceCount c live' t = sliceCount c live t)
    (hact : ∀ t, AddrOK c t → t ≠ b → (t = A' ↔ t = A))
    (hself_pool : b ∈ s'.available →
      BlockMapped c s' b ∧ b ≠ A' ∧ sliceCount c live' b = 0)
    (hself_live : 0 < sliceCount c live' b + (if b = A' then 1 else 0) →
      BlockMapped c s' b ∧
        block_ref s'.mem b = sliceCount c live' b + (if b = A' then 1 else 0) ∧
        sliceCount c live' b + 2 ≤ block_pos s'.mem b ∧
        (b = A' → block_max s'.mem b < c.FIO_MEMORY_BLOCK_SLICES)) :
    Core c s' live' A' := by
  refine ⟨?_, hnodup, ?_, ?_, ?_⟩
  · intro t ht
    by_cases e : t = b
    · subst e
      exact ⟨hb, hself_pool ht⟩
    · have hin := hav t ht e
      obtain ⟨h1, h2, h3, h4⟩ := h.pool t hin
      refine ⟨h1, hmap t h1 e h2, ?_, ?_⟩
      · intro e2
        exact h3 ((hact t h1 e).1 e2)
      · rw [hsc t e]
        exact h4
  · intro p hpl
    by_cases e : blockOf c p = b
    · have hpos := sliceCount_pos_of_mem c live' p hpl
      rw [e] at hpos ⊢
      exact ⟨hb, hliveb p hpl e, (hself_live (by omega)).1⟩
    · have hin := hlive p hpl e
      obtain ⟨h1, h2, h3⟩ := h.live_ok p hin
      exact ⟨h1, h2, hmap _ h1 e h3⟩
  · intro hne
    by_cases e : A' = b
    · subst e
      have := hself_live (by rw [if_pos rfl]; omega)
      exact ⟨hb, this.1, this.2.2.2 rfl⟩
    · have hAA : A' = A := by
        rcases hA' with h1 | h1 | h1
        · exact h1
        · exact absurd h1 e
        · exact absurd h1 hne
      have hA0 : A ≠ 0 := hAA ▸ hne
      obtain ⟨h1, h2, h3⟩ := h.active hA0
      rw [hAA]
      have eb : A ≠ b := hAA ▸ e
      refine ⟨h1, hmap A h1 eb h2, ?_⟩
      rw [(hhdr A h1 eb h2).2.2]
      exact h3
  · intro t ht hpos
    by_cases e : t = b
    · subst e
      have := hself_live hpos
      exact ⟨this.2.1, this.2.2.1⟩
    · have hiff := hact t ht e
      have hif : (if t = A' then 1 else 0) = (if t = A then 1 else 0) := by
        by_cases e2 : t = A
        · rw [if_pos e2, if_pos (hiff.2 e2)]
        · rw [if_neg e2, if_neg (fun e3 => e2 (hiff.1 e3))]
      rw [hsc t e, hif] at hpos ⊢
      have hm := h.held_mapped t hpos ht.1
      obtain ⟨r1, r2, _⟩ := hhdr t ht e hm
      rw [r1, r2]
      exact h.refs t ht hpos

/-- Dropping one reference of a referenced block keeps the allocator's view
sound: `live'` and `A'` describe the holders after the call, one fewer for
`b`. The block is reclaimed exactly when no holder is left. -/
theorem block_free_core (c : Config) (hc : c.ok) (hp : c.paged) (s : State)
    (live live' : List Nat) (A A' b : Nat) (h : Core c s live A) (hb : AddrOK c b)
    (hpos : 0 < sliceCount c live b + (if b = A then 1 else 0))
    (hA : A' = A ∨ (A' = 0 ∧ A = b)) (hsub : ∀ p ∈ live', p ∈ live)
    (hscb : sliceCount c live' b + (if b = A' then 1 else 0) + 1 =
      sliceCount c live b + (if b = A then 1 else 0))
    (hsc : ∀ t, t ≠ b → sliceCount c live' t = sliceCount c live t) :
    Core c (block_free c b s) live' A' ∧
      (sliceCount c live' b + (if b = A' then 1 else 0) = 0 →
        block_ref s.mem b = 1 ∧
          (b ∈ (block_free c b s).available ∨ BlockFree c (block_free c b s) b)) ∧
      (0 < sliceCount c live' b + (if b = A' then 1 else 0) →
        (block_free c b s).available = s.available ∧ (block_free c b s).mapped = s.mapped ∧
          block_ref (block_free c b s).mem b + 1 = block_ref s.mem b) ∧
      (∀ t, t ≠ b → (t ∈ s.available → t ∈ (block_free c b s).available) ∧
        (AddrOK c t → BlockFree c s t → BlockFree c (block_free c b s) t)) := by
  have href := h.refs b hb hpos
  have hposlt : block_pos s.mem b < 65536 := load16_lt _ _
  obtain ⟨e_map, e_keep, e_zero⟩ := block_free_effect c hp b s hb (by omega)
  have hmo := block_free_memOnly c hc b s
  have hav0 : ∀ t ∈ s.available, AddrOK c t := fun t ht => (h.pool t ht).1
  have hbm := h.held_mapped b hpos hb.1
  have hbn := h.held_not_pool b hpos
  have hA3 : A' = A ∨ A' = b ∨ A' = 0 := by
    rcases hA with h1 | h1
    · exact Or.inl h1
    · exact Or.inr (Or.inr h1.1)
  have hmap : ∀ t, AddrOK c t → t ≠ b → BlockMapped c s t →
      BlockMapped c (block_free c b s) t := by
    intro t ht hne hm pg hpg
    rw [e_map pg (inPages_disjoint c hp ht hb hne pg hpg)]
    exact hm pg hpg
  have hfree : ∀ t, t ≠ b → AddrOK c t → BlockFree c s t →
      BlockFree c (block_free c b s) t := by
    intro t hne ht hm pg hpg
    rw [e_map pg (inPages_disjoint c hp ht hb hne pg hpg)]
    exact hm pg hpg
  have hhdr : ∀ t, AddrOK c t → t ≠ b → BlockMapped c s t →
      block_ref (block_free c b s).mem t = block_ref s.mem t ∧
        block_pos (block_free c b s).mem t = block_pos s.mem t ∧
        block_max (block_free c b s).mem t = block_max s.mem t :=
    fun t ht hne _ => hmo.hdr hc hav0 hb ht hne
  have hliveb : ∀ p ∈ live', blockOf c p = b → 32 ≤ p % c.FIO_MEMORY_BLOCK_SIZE :=
    fun p hpl _ => (h.live_ok p (hsub p hpl)).2.1
  have hact : ∀ t, AddrOK c t → t ≠ b → (t = A' ↔ t = A) := by
    intro t ht hne
    rcases hA with h1 | ⟨h1, h2⟩
    · rw [h1]
    · rw [h1, h2]
      exact ⟨fun e => absurd e ht.1, fun e => absurd e hne⟩
  have hmaxb : b = A' → block_max s.mem b < c.FIO_MEMORY_BLOCK_SLICES := by
    intro e
    have hA0 : A' ≠ 0 := e ▸ hb.1
    rcases hA with h1 | ⟨h1, _⟩
    · rw [e, h1]
      exact (h.active (h1 ▸ hA0)).2.2
    · exact absurd h1 hA0
  have hle : sliceCount c live' b ≤ sliceCount c live b := by
    rcases hA with h1 | ⟨h1, h2⟩
    · rw [h1] at hscb
      omega
    · rw [h1, h2, if_neg hb.1, if_pos rfl] at hscb
      omega
  by_cases hz : block_ref s.mem b = 1
  · have hz1 : sliceCount c live' b + (if b = A' then 1 else 0) = 0 := by omega
    have hsc0 : sliceCount c live' b = 0 := by omega
    have hbA : b ≠ A' := by
      intro e
      rw [if_pos e] at hz1
      omega
    rcases e_zero hz with ⟨eav, emp⟩ | ⟨eav, efree⟩
    · refine ⟨?_, fun _ => ⟨hz, Or.inl (by rw [eav]; exact List.mem_cons_self _ _)⟩,
        fun hgt => ?_, fun t hne => ⟨fun hin => ?_, hfree t hne⟩⟩
      · refine h.update hb hA3 ?_ ?_ hmap hhdr (fun p hpl _ => hsub p hpl) hliveb hsc hact ?_ ?_
        · rw [eav]
          exact List.nodup_cons.2 ⟨hbn, h.nodup⟩
        · intro t ht hne
          rw [eav] at ht
          rcases List.mem_cons.1 ht with e | e
          · exact absurd e hne
          · exact e
        · intro _
          refine ⟨?_, hbA, hsc0⟩
          intro pg hpg
          rw [emp]
          exact hbm pg hpg
        · intro hgt
          omega
      · omega
      · rw [eav]
        exact List.mem_cons_of_mem _ hin
    · refine ⟨?_, fun _ => ⟨hz, Or.inr efree⟩, fun hgt => ?_,
        fun t hne => ⟨fun hin => ?_, hfree t hne⟩⟩
      · refine h.update hb hA3 ?_ ?_ hmap hhdr (fun p hpl _ => hsub p hpl) hliveb hsc hact ?_ ?_
        · rw [eav]
          exact h.nodup
        · intro t ht _
          rw [eav] at ht
          exact ht
        · intro hin
          rw [eav] at hin
          exact absurd hin hbn
        · intro hgt
          omega
      · omega
      · rw [eav]
        exact hin
  · obtain ⟨eav, emp, er, ep, em⟩ := e_keep hz
    have hgt : 0 < sliceCount c live' b + (if b = A' then 1 else 0) := by omega
    refine ⟨?_, fun h0 => ?_, fun _ => ⟨eav, emp, er⟩, fun t hne => ⟨fun hin => ?_, hfree t hne⟩⟩
    · refine h.update hb hA3 ?_ ?_ hmap hhdr (fun p hpl _ => hsub p hpl) hliveb hsc hact ?_ ?_
      · rw [eav]
        exact h.nodup
      · intro t ht _
        rw [eav] at ht
        exact ht
      · intro hin
        rw [eav] at hin
        exact absurd hin hbn
      · intro _
        refine ⟨?_, by omega, by omega, ?_⟩
        · intro pg hpg
          rw [emp]
          exact hbm pg hpg
        · intro e
          rw [em]
          exact hmaxb e
    · omega
    · rw [eav]
      exact hin

/-- The allocator's view only reads the recycled list, the page table and the
headers of mapped blocks. -/
theorem Core.frame {c : Config} (hc : c.ok) (hp : c.paged) {s s' : State} {live : List Nat}
    {A : Nat} (h : Core c s live A) (hav : s'.available = s.available)
    (hmap : ∀ pg, s'.mapped pg = s.mapped pg)
    (hmem : ∀ x, s.mapped (x / 4096) = true → s'.mem x = s.mem x) : Core c s' live A := by
  have hbm : ∀ t, BlockMapped c s t → BlockMapped c s' t := by
    intro t ht pg hpg
    rw [hmap]
    exact ht pg hpg
  have hhdr : ∀ t, AddrOK c t → BlockMapped c s t →
      block_ref s'.mem t = block_ref s.mem t ∧ block_pos s'.mem t = block_pos s.mem t ∧
        block_max s'.mem t = block_max s.mem t := by
    intro t ht hm
    apply hdr_of_low
    intro x h1 h2
    apply hmem
    have h4 := ht.page hp
    have : x / 4096 = t / 4096 := by omega
    rw [this]
    exact hm _ (inPages_first c hc hp t h4)
  refine ⟨?_, hav ▸ h.nodup, ?_, ?_, ?_⟩
  · intro t ht
    rw [hav] at ht
    obtain ⟨h1, h2, h3⟩ := h.pool t ht
    exact ⟨h1, hbm t h2, h3⟩
  · intro p hpl
    obtain ⟨h1, h2, h3⟩ := h.live_ok p hpl
    exact ⟨h1, h2, hbm _ h3⟩
  · intro hA
    obtain ⟨h1, h2, h3⟩ := h.active hA
    refine ⟨h1, hbm _ h2, ?_⟩
    rw [(hhdr A h1 h2).2.2]
    exact h3
  · intro t ht hpos
    have hm := h.held_mapped t hpos ht.1
    obtain ⟨r1, r2, _⟩ := hhdr t ht hm
    rw [r1, r2]
    exact h.refs t ht hpos

theorem init_max (c : Config) (hc : c.ok) :
    (c.FIO_MEMORY_BLOCK_SLICES - 1) % 65536 = c.FIO_MEMORY_BLOCK_SLICES - 1 ∧
      c.FIO_MEMORY_BLOCK_SLICES - 1 < c.FIO_MEMORY_BLOCK_SLICES := by
  have hse := hc.size_eq
  omega

/-- A block taken by `block_new` becomes the active block with one reference;
a failed call changes nothing the view depends on. -/
theorem block_new_core (c : Config) (hc : c.ok) (hp : c.paged) (s : State) (live : List Nat)
    (h : Core c s live 0) :
    ((block_new c s).1 = 0 → Core c (block_new c s).2 live 0) ∧
      ((block_new c s).1 ≠ 0 →
        Core c (block_new c s).2 live (block_new c s).1 ∧
          block_pos (block_new c s).2.mem (block_new c s).1 = 2 ∧
          block_max (block_new c s).2.mem (block_new c s).1 =
            c.FIO_MEMORY_BLOCK_SLICES - 1) ∧
      (∀ t, t ≠ (block_new c s).1 →
        (t ∈ s.available → t ∈ (block_new c s).2.available) ∧
        (AddrOK c t → BlockFree c s t → BlockFree c (block_new c s).2 t)) := by
  have hse := hc.size_eq
  have hB4 := hp.dvd
  have himax := init_max c hc
  rcases pop_cases s with ⟨hp0, hempty, hsame⟩ | hcons
  · by_cases h2 : (sys_alloc c c.FIO_MEMORY_BLOCK_SIZE 0 (fio_ls_embd_pop s).2).1 = 0
    · rw [block_new_fail c s hp0 h2]
      dsimp only
      rw [hsame] at h2 ⊢
      obtain ⟨hpg1, _, hpg3⟩ := sys_alloc_pages c hc hp c.FIO_MEMORY_BLOCK_SIZE 0 s hB4
      have hst := sys_alloc_static c c.FIO_MEMORY_BLOCK_SIZE 0 s
      refine ⟨fun _ => h.frame hc hp hst.2.2.1 (hpg1 h2) hpg3, fun hne => absurd rfl hne,
        fun t _ => ⟨fun hin => ?_, fun _ hf pg hpg => ?_⟩⟩
      · rw [hst.2.2.1]
        exact hin
      · rw [hpg1 h2]
        exact hf pg hpg
    · rw [block_new_fresh c s hp0 h2]
      dsimp only
      rw [hsame] at h2 ⊢
      obtain ⟨_, hpg2, hpg3⟩ := sys_alloc_pages c hc hp c.FIO_MEMORY_BLOCK_SIZE 0 s hB4
      obtain ⟨hin, hout⟩ := hpg2 h2
      have hst := sys_alloc_static c c.FIO_MEMORY_BLOCK_SIZE 0 s
      have hr : AddrOK c (sys_alloc c c.FIO_MEMORY_BLOCK_SIZE 0 s).1 := by
        rcases sys_alloc_addr c hc c.FIO_MEMORY_BLOCK_SIZE 0 s with h0 | h0
        · exact absurd h0 h2
        · exact h0
      generalize (sys_alloc c c.FIO_MEMORY_BLOCK_SIZE 0 s).1 = r at *
      generalize (sys_alloc c c.FIO_MEMORY_BLOCK_SIZE 0 s).2 = s1 at *
      have hhead := block_init_header c r s1
      have hnm : ¬ BlockMapped c s r := by
        intro hm
        have h1 := hm _ (inPages_first c hc hp r (hr.page hp))
        rw [(hin _ (inPages_first c hc hp r (hr.page hp))).1] at h1
        exact Bool.noConfusion h1
      have hsc0 : sliceCount c live r = 0 := by
        apply sliceCount_of_not_mem
        intro p hpl e
        exact hnm (e ▸ (h.live_ok p hpl).2.2)
      refine ⟨fun h0 => absurd h0 h2, fun _ => ⟨?_, hhead.2.1, hhead.2.2.trans himax.1⟩,
        fun t hne => ⟨fun hin => ?_, fun ht hf pg hpg => ?_⟩⟩
      · refine h.update hr (Or.inr (Or.inl rfl)) ?_ ?_ ?_ ?_ (fun p hpl _ => hpl)
          (fun p hpl _ => (h.live_ok p hpl).2.1) (fun _ _ => rfl) ?_ ?_ ?_
        · show s1.available.Nodup
          rw [hst.2.2.1]
          exact h.nodup
        · intro t ht _
          exact hst.2.2.1 ▸ ht
        · intro t ht hne hm pg hpg
          show s1.mapped pg = true
          rw [hout pg (inPages_disjoint c hp ht hr hne pg hpg)]
          exact hm pg hpg
        · intro t ht hne hm
          apply hdr_of_low
          intro x h1 h2
          have hfar := ht.far hr hne
          rw [block_init_mem_out c r s1 x (by omega)]
          apply hpg3
          have h4 := ht.page hp
          have : x / 4096 = t / 4096 := by omega
          rw [this]
          exact hm _ (inPages_first c hc hp t h4)
        · intro t ht hne
          exact ⟨fun e => absurd e hne, fun e => absurd e ht.1⟩
        · intro hin2
          have hin3 : r ∈ s.available := hst.2.2.1 ▸ hin2
          exact absurd (h.pool r hin3).2.1 hnm
        · intro _
          rw [if_pos rfl, hsc0]
          refine ⟨fun pg hpg => (hin pg hpg).2, hhead.1, ?_, fun _ => ?_⟩
          · rw [hhead.2.1]
          · rw [hhead.2.2, himax.1]
            exact himax.2
      · show t ∈ s1.available
        rw [hst.2.2.1]
        exact hin
      · show s1.mapped pg = false
        rw [hout pg (inPages_disjoint c hp ht hr hne pg hpg)]
        exact hf pg hpg
  · have hn := h.pool _ (hcons ▸ List.mem_cons_self _ _)
    rw [block_new_pop c s hn.1.1]
    dsimp only
    have hnd := h.nodup
    rw [hcons] at hnd
    have hmp : (fio_ls_embd_pop s).2.mapped = s.mapped := (pop_frame s).2.2.2.2.2.2.1
    have hpm := pop_mem_out s
    generalize (fio_ls_embd_pop s).1 = n at *
    generalize (fio_ls_embd_pop s).2 = s1 at *
    have hhead := block_init_header c n
      { s1 with count := s1.count - 1, mem := store64 (store64 s1.mem n 0) (n + 8) 0 }
    have hmemo : ∀ x, (x < n ∨ n + c.FIO_MEMORY_BLOCK_SIZE ≤ x) →
        (∀ t ∈ s.available, x < t + 8 ∨ t + 16 ≤ x) →
        (block_init c n
          { s1 with count := s1.count - 1, mem := store64 (store64 s1.mem n 0) (n + 8) 0 }).mem x =
          s.mem x := by
      intro x h1 h2
      rw [block_init_mem_out c n _ x (by omega)]
      show store64 (store64 s1.mem n 0) (n + 8) 0 x = s.mem x
      rw [store64_apply_ne _ _ _ _ (by omega), store64_apply_ne _ _ _ _ (by omega)]
      exact hpm x h2
    have hav0 : ∀ t ∈ s.available, AddrOK c t := fun t ht => (h.pool t ht).1
    refine ⟨fun h0 => absurd h0 hn.1.1, fun _ => ⟨?_, hhead.2.1, hhead.2.2.trans himax.1⟩,
      fun t hne => ⟨fun hin => ?_, fun ht hf pg hpg => ?_⟩⟩
    · refine h.update hn.1 (Or.inr (Or.inl rfl)) ?_ ?_ ?_ ?_ (fun p hpl _ => hpl)
        (fun p hpl _ => (h.live_ok p hpl).2.1) (fun _ _ => rfl) ?_ ?_ ?_
      · exact (List.nodup_cons.1 hnd).2
      · intro t ht _
        rw [hcons]
        exact List.mem_cons_of_mem _ ht
      · intro t _ _ hm pg hpg
        show s1.mapped pg = true
        rw [hmp]
        exact hm pg hpg
      · intro t ht hne _
        exact MemOnly.hdr hc hmemo hav0 hn.1 ht hne
      · intro t ht hne
        exact ⟨fun e => absurd e hne, fun e => absurd e ht.1⟩
      · intro hin2
        exact absurd hin2 (List.nodup_cons.1 hnd).1
      · intro _
        rw [if_pos rfl, hn.2.2.2]
        refine ⟨fun pg hpg => ?_, hhead.1, ?_, fun _ => ?_⟩
        · show s1.mapped pg = true
          rw [hmp]
          exact hn.2.1 pg hpg
        · rw [hhead.2.1]
        · rw [hhead.2.2, himax.1]
          exact himax.2
    · rw [hcons] at hin
      rcases List.mem_cons.1 hin with e | e
      · exact absurd e hne
      · exact e
    · show s1.mapped pg = false
      rw [hmp]
      exact hf pg hpg

theorem Core.congr {c : Config} {s s' : State} {live : List Nat} {A : Nat}
    (h : Core c s live A) (e1 : s'.available = s.available) (e2 : s'.mapped = s.mapped)
    (e3 : s'.mem = s.mem) : Core c s' live A := by
  have hbm : ∀ t, BlockMapped c s' t = BlockMapped c s t := by
    intro t
    unfold BlockMapped
    rw [e2]
  refine ⟨fun t ht => ?_, e1 ▸ h.nodup, fun p hp => ?_, fun hA => ?_, fun t ht hpos => ?_⟩
  · rw [e1] at ht
    rw [hbm]
    exact h.pool t ht
  · rw [hbm]
    exact h.live_ok p hp
  · rw [hbm, e3]
    exact h.active hA
  · rw [e3]
    exact h.refs t ht hpos

theorem cut_state_room (c : Config) (units blk : Nat) (s : State)
    (h : ¬ block_pos (cut_mem s.mem units blk) blk ≥ block_max (cut_mem s.mem units blk) blk) :
    (block_slice_cut c units blk s).2 = { s with mem := cut_mem s.mem units blk } := by
  delta block_slice_cut
  dsimp only
  rw [if_neg h]

theorem cut_state_full (c : Config) (units blk : Nat) (s : State)
    (h : block_pos (cut_mem s.mem units blk) blk ≥ block_max (cut_mem s.mem units blk) blk) :
    (block_slice_cut c units blk s).2 =
      { block_free c blk { s with mem := cut_mem s.mem units blk } with
        arenas := setBlock (block_free c blk { s with mem := cut_mem s.mem units blk }).arenas
          (cur_arena s) 0 } := by
  delta block_slice_cut
  dsimp only
  rw [if_pos h]

/-- Cutting a slice from the active block, which has room for it, adds one
holder to the block; the block stays active unless the cut used it up. -/
theorem block_slice_cut_core (c : Config) (hc : c.ok) (hp : c.paged) (s : State)
    (live : List Nat) (blk u : Nat) (h : Core c s live blk) (hb : blk ≠ 0)
    (hfit : block_pos s.mem blk + u ≤ block_max s.mem blk) (hu : 1 ≤ u) :
    blockOf c (block_slice_cut c u blk s).1 = blk ∧
      (block_slice_cut c u blk s).2.available = s.available ∧
      (block_slice_cut c u blk s).2.mapped = s.mapped ∧
      (block_slice_cut c u blk s).2.arena_last_used = s.arena_last_used ∧
      ((Core c (block_slice_cut c u blk s).2 ((block_slice_cut c u blk s).1 :: live) blk ∧
          (block_slice_cut c u blk s).2.arenas = s.arenas) ∨
        (Core c (block_slice_cut c u blk s).2 ((block_slice_cut c u blk s).1 :: live) 0 ∧
          (block_slice_cut c u blk s).2.arenas = setBlock s.arenas (cur_arena s) 0)) := by
  have hse := hc.size_eq
  obtain ⟨hbA, hbm, hmax⟩ := h.active hb
  have href := h.refs blk hbA (by rw [if_pos rfl]; omega)
  rw [if_pos rfl] at href
  have hch := cut_mem_hdr s.mem u blk
  have hplt : block_pos s.mem blk < 65536 := load16_lt _ _
  rw [block_slice_cut_fst]
  have hpB : blockOf c (blk + 16 * block_pos s.mem blk) = blk :=
    blockOf_add c blk _ hbA.2.1 (by omega)
  have hpmod : (blk + 16 * block_pos s.mem blk) % c.FIO_MEMORY_BLOCK_SIZE =
      16 * block_pos s.mem blk := by
    have h1 := Nat.mod_le (blk + 16 * block_pos s.mem blk) c.FIO_MEMORY_BLOCK_SIZE
    unfold blockOf at hpB
    omega
  have hsc1 : sliceCount c ((blk + 16 * block_pos s.mem blk) :: live) blk =
      sliceCount c live blk + 1 := by
    rw [sliceCount_cons, if_pos hpB]
  have h3 : Core c { s with mem := cut_mem s.mem u blk }
      ((blk + 16 * block_pos s.mem blk) :: live) blk := by
    refine h.update hbA (Or.inl rfl) h.nodup (fun t ht _ => ht) (fun t _ _ hm => hm) ?_ ?_ ?_ ?_
      (fun _ _ _ => Iff.rfl) ?_ ?_
    · intro t ht hne _
      apply hdr_of_low
      intro x h1 h2
      have hfar := ht.far hbA hne
      exact cut_mem_out s.mem u blk x (by omega)
    · intro p hpl hne
      rcases List.mem_cons.1 hpl with e | e
      · rw [e] at hne
        exact absurd hpB hne
      · exact e
    · intro p hpl _
      rcases List.mem_cons.1 hpl with e | e
      · rw [e, hpmod]
        omega
      · exact (h.live_ok p e).2.1
    · intro t hne
      rw [sliceCount_cons, hpB, if_neg (fun e => hne e.symm)]
      rfl
    · intro hin
      exact absurd rfl (h.pool blk hin).2.2.1
    · intro _
      rw [if_pos rfl, hsc1]
      refine ⟨hbm, ?_, ?_, fun _ => ?_⟩
      · show block_ref (cut_mem s.mem u blk) blk = _
        rw [hch.1]
        omega
      · show _ ≤ block_pos (cut_mem s.mem u blk) blk
        rw [hch.2.1]
        omega
      · show block_max (cut_mem s.mem u blk) blk < _
        rw [hch.2.2]
        exact hmax
  refine ⟨hpB, ?_⟩
  by_cases hfull : block_pos (cut_mem s.mem u blk) blk ≥ block_max (cut_mem s.mem u blk) blk
  · rw [cut_state_full c u blk s hfull]
    dsimp only
    have hf := block_free_core c hc hp { s with mem := cut_mem s.mem u blk }
      ((blk + 16 * block_pos s.mem blk) :: live) ((blk + 16 * block_pos s.mem blk) :: live)
      blk 0 blk h3 hbA (by rw [if_pos rfl]; omega) (Or.inr ⟨rfl, rfl⟩) (fun _ hpl => hpl)
      (by rw [if_neg hb, if_pos rfl]) (fun _ _ => rfl)
    obtain ⟨hcore, _, hkeep, _⟩ := hf
    obtain ⟨ea, em, _⟩ := hkeep (by rw [hsc1]; omega)
    have hfr := block_free_frame c blk { s with mem := cut_mem s.mem u blk }
    refine ⟨ea, em, hfr.2.1, Or.inr ⟨hcore.congr rfl rfl rfl, ?_⟩⟩
    rw [hfr.1]
  · rw [cut_state_room c u blk s hfull]
    exact ⟨rfl, rfl, rfl, Or.inl ⟨h3, rfl⟩⟩

theorem Shape.block {s : State} {A : Nat} {l : Bool} (h : Shape s A l) :
    arenaBlock s.arenas 0 = A := by
  obtain ⟨k, e⟩ := h
  rw [e]
  rfl

theorem Shape.locked {s : State} {A : Nat} {l : Bool} (h : Shape s A l) :
    arenaLocked s.arenas 0 = l := by
  obtain ⟨k, e⟩ := h
  rw [e]
  rfl

theorem Shape.setBlock {s s' : State} {A : Nat} {l : Bool} (h : Shape s A l) (A' : Nat)
    (e : s'.arenas = FioMem.setBlock s.arenas 0 A') : Shape s' A' l := by
  obtain ⟨k, e1⟩ := h
  refine ⟨k, ?_⟩
  rw [e, e1]
  rfl

theorem Shape.setLock {s s' : State} {A : Nat} {l : Bool} (h : Shape s A l) (l' : Bool)
    (e : s'.arenas = FioMem.setLock s.arenas 0 l') : Shape s' A l' := by
  obtain ⟨k, e1⟩ := h
  refine ⟨k, ?_⟩
  rw [e, e1]
  rfl

theorem Shape.same {s s' : State} {A : Nat} {l : Bool} (h : Shape s A l)
    (e : s'.arenas = s.arenas) : Shape s' A l := by
  obtain ⟨k, e1⟩ := h
  exact ⟨k, e.trans e1⟩

theorem Shape.active {s : State} {A : Nat} {l : Bool} (h : Shape s A l) (b : Nat)
    (hb : b ≠ 0) : activeCount s.arenas b = if b = A then 1 else 0 := by
  obtain ⟨k, e⟩ := h
  unfold activeCount
  rw [e]
  by_cases e2 : b = A
  · subst e2
    simp
  · have h1 : ¬ A = b := fun e3 => e2 e3.symm
    have h2 : ¬ 0 = b := fun e3 => hb e3.symm
    simp [h1, h2, e2]

/-- The choice of block for a cut keeps the view sound, the chosen block has
room, and the block the arena gave up is reclaimed when nothing holds it. -/
theorem block_slice_rotate_core (c : Config) (hc : c.ok) (hp : c.paged) (s : State)
    (live : List Nat) (A : Nat) (l : Bool) (h : Core c s live A) (hsh : Shape s A l)
    (hcur : cur_arena s = 0) (u : Nat) (hu : u + 3 ≤ c.FIO_MEMORY_BLOCK_SLICES) :
    (block_slice_rotate c u s).2.arena_last_used = s.arena_last_used ∧
      Shape (block_slice_rotate c u s).2 (block_slice_rotate c u s).1 l ∧
      Core c (block_slice_rotate c u s).2 live (block_slice_rotate c u s).1 ∧
      ((block_slice_rotate c u s).1 ≠ 0 →
        block_pos (block_slice_rotate c u s).2.mem (block_slice_rotate c u s).1 + u ≤
          block_max (block_slice_rotate c u s).2.mem (block_slice_rotate c u s).1) ∧
      (∀ t, AddrOK c t → 0 < sliceCount c live t + (if t = A then 1 else 0) →
        sliceCount c live t + (if t = (block_slice_rotate c u s).1 then 1 else 0) = 0 →
        t ∈ (block_slice_rotate c u s).2.available ∨
          BlockFree c (block_slice_rotate c u s).2 t) := by
  have hblk : arenaBlock s.arenas (cur_arena s) = A := by
    rw [hcur]
    exact hsh.block
  by_cases hA : A = 0
  · have hb0 : arenaBlock s.arenas (cur_arena s) = 0 := hblk.trans hA
    rw [rotate_empty c u s hb0]
    dsimp only
    subst hA
    obtain ⟨n0, n1, _⟩ := block_new_core c hc hp s live h
    have hsp := block_new_spec c hc s (fun b hb => (h.pool b hb).1)
    refine ⟨hsp.2.2.1, hsh.setBlock _ (by rw [hsp.2.1, hcur]), ?_, ?_, ?_⟩
    · by_cases e : (block_new c s).1 = 0
      · rw [e]
        exact (n0 e).congr rfl rfl rfl
      · exact (n1 e).1.congr rfl rfl rfl
    · intro e
      obtain ⟨_, e1, e2⟩ := n1 e
      show block_pos (block_new c s).2.mem _ + u ≤ block_max (block_new c s).2.mem _
      rw [e1, e2]
      omega
    · intro t ht h1 h2
      rw [if_neg ht.1] at h1
      omega
  · have hb0 : arenaBlock s.arenas (cur_arena s) ≠ 0 := by
      rw [hblk]
      exact hA
    by_cases hfull : block_pos s.mem (arenaBlock s.arenas (cur_arena s)) + u >
        block_max s.mem (arenaBlock s.arenas (cur_arena s))
    · rw [rotate_full c u s hb0 hfull]
      dsimp only
      rw [hblk]
      have hAok := (h.active hA).1
      obtain ⟨f1, f2, _, f4⟩ := block_free_core c hc hp s live live A 0 A h hAok
        (by rw [if_pos rfl]; omega) (Or.inr ⟨rfl, rfl⟩) (fun _ hpl => hpl)
        (by rw [if_neg hA, if_pos rfl]) (fun _ _ => rfl)
      have hfr := block_free_frame c A s
      obtain ⟨n0, n1, n2⟩ := block_new_core c hc hp (block_free c A s) live f1
      have hsp := block_new_spec c hc (block_free c A s) (fun b hb => (f1.pool b hb).1)
      refine ⟨hsp.2.2.1.trans hfr.2.1, hsh.setBlock _ (by rw [hsp.2.1, hfr.1, hcur]), ?_, ?_, ?_⟩
      · by_cases e : (block_new c (block_free c A s)).1 = 0
        · rw [e]
          exact (n0 e).congr rfl rfl rfl
        · exact (n1 e).1.congr rfl rfl rfl
      · intro e
        obtain ⟨_, e1, e2⟩ := n1 e
        show block_pos (block_new c (block_free c A s)).2.mem _ + u ≤
          block_max (block_new c (block_free c A s)).2.mem _
        rw [e1, e2]
        omega
      · intro t ht h1 h2
        have hsc0 : sliceCount c live t = 0 := by omega
        have htA : t = A := by
          by_contra hne
          rw [if_neg hne] at h1
          omega
        have hne : t ≠ (block_new c (block_free c A s)).1 := by
          intro e
          rw [if_pos e] at h2
          omega
        subst htA
        have hz := (f2 (by rw [if_neg hA, hsc0])).2
        rcases hz with hz | hz
        · exact Or.inl ((n2 t hne).1 hz)
        · exact Or.inr ((n2 t hne).2 ht hz)
    · rw [rotate_fit c u s hb0 hfull]
      dsimp only
      rw [hblk] at hfull ⊢
      refine ⟨rfl, hsh, h, fun _ => by omega, ?_⟩
      intro t _ h1 h2
      omega

theorem sliceCount_cons_ge (c : Config) (p : Nat) (live : List Nat) (t : Nat) :
    sliceCount c live t ≤ sliceCount c (p :: live) t := by
  rw [sliceCount_cons]
  omega

/-- The function `block_slice` on a sound view: a returned pointer becomes one
more holder of its block, and a block that loses its last holder in the call
is reclaimed. -/
theorem block_slice_core (c : Config) (hc : c.ok) (hp : c.paged) (s : State)
    (live : List Nat) (A : Nat) (l : Bool) (h : Core c s live A) (hsh : Shape s A l)
    (hcur : cur_arena s = 0) (u : Nat) (hu1 : 1 ≤ u) (hu : u + 3 ≤ c.FIO_MEMORY_BLOCK_SLICES) :
    ∃ A', Shape (block_slice c u s).2 A' l ∧
      (block_slice c u s).2.arena_last_used = s.arena_last_used ∧
      Core c (block_slice c u s).2
        (if (block_slice c u s).1 = 0 then live else (block_slice c u s).1 :: live) A' ∧
      (∀ t, AddrOK c t → 0 < sliceCount c live t + (if t = A then 1 else 0) →
        sliceCount c (if (block_slice c u s).1 = 0 then live else (block_slice c u s).1 :: live) t
          + (if t = A' then 1 else 0) = 0 →
        t ∈ (block_slice c u s).2.available ∨ BlockFree c (block_slice c u s).2 t) := by
  obtain ⟨r1, r2, r3, r4, r5⟩ := block_slice_rotate_core c hc hp s live A l h hsh hcur u hu
  have hcur2 : cur_arena (block_slice_rotate c u s).2 = 0 := by
    unfold cur_arena at hcur ⊢
    rw [r1]
    exact hcur
  delta block_slice
  dsimp only
  by_cases e : (block_slice_rotate c u s).1 = 0
  · rw [if_pos e]
    dsimp only
    rw [if_pos rfl]
    refine ⟨0, e ▸ r2, r1, e ▸ r3, ?_⟩
    intro t ht h1 h2
    exact r5 t ht h1 (by rw [e]; exact h2)
  · rw [if_neg e]
    generalize (block_slice_rotate c u s).1 = blk at *
    generalize (block_slice_rotate c u s).2 = s2 at *
    obtain ⟨c1, c2, c3, c4, c5⟩ := block_slice_cut_core c hc hp s2 live blk u r3 e (r4 e) hu1
    have hne : (block_slice_cut c u blk s2).1 ≠ 0 := by
      rw [block_slice_cut_fst]
      omega
    rw [if_neg hne]
    have htrack : ∀ A', (A' = blk ∨ A' = 0) → ∀ t, AddrOK c t →
        0 < sliceCount c live t + (if t = A then 1 else 0) →
        sliceCount c ((block_slice_cut c u blk s2).1 :: live) t + (if t = A' then 1 else 0) = 0 →
        t ∈ (block_slice_cut c u blk s2).2.available ∨
          BlockFree c (block_slice_cut c u blk s2).2 t := by
      intro A' _ t ht h1 h2
      have hge := sliceCount_cons_ge c (block_slice_cut c u blk s2).1 live t
      have hnb : t ≠ blk := by
        intro e2
        rw [sliceCount_cons, c1, if_pos e2.symm] at h2
        omega
      rcases r5 t ht h1 (by rw [if_neg hnb]; omega) with h3 | h3
      · exact Or.inl (c2 ▸ h3)
      · refine Or.inr (fun pg hpg => ?_)
        rw [c3]
        exact h3 pg hpg
    rcases c5 with ⟨c6, c7⟩ | ⟨c6, c7⟩
    · exact ⟨blk, r2.same c7, c4.trans r1, c6, htrack blk (Or.inl rfl)⟩
    · refine ⟨0, r2.setBlock 0 (by rw [c7, hcur2]), c4.trans r1, c6, htrack 0 (Or.inr rfl)⟩

theorem Shape.holders {c : Config} {s : State} {A : Nat} {l : Bool} (h : Shape s A l)
    (live : List Nat) (b : Nat) (hb : b ≠ 0) :
    holders c s live b = sliceCount c live b + (if b = A then 1 else 0) := by
  unfold FioMem.holders
  rw [h.active b hb]

theorem Core.held_ok {c : Config} {s : State} {live : List Nat} {A : Nat}
    (h : Core c s live A) (t : Nat)
    (ht : 0 < sliceCount c live t + (if t = A then 1 else 0)) (h0 : t ≠ 0) : AddrOK c t := by
  by_cases hs : 0 < sliceCount c live t
  · obtain ⟨p, hp, e⟩ := sliceCount_pos c live t hs
    rw [← e]
    exact (h.live_ok p hp).1
  · have : t = A := by
      by_contra hne
      rw [if_neg hne] at ht
      omega
    subst this
    exact (h.active h0).1

theorem blockFree_range (c : Config) (s : State) (b : Nat) (h : BlockFree c s b) :
    rangeFree s.mapped b c.FIO_MEMORY_BLOCK_SIZE = true :=
  (rangeFree_iff _ _ _).2 h

theorem small_units (c : Config) (hc : c.ok) (hl : c.limit_fits) (n : Nat) (h0 : 0 < n)
    (hn : n < c.FIO_MEMORY_BLOCK_ALLOC_LIMIT) :
    1 ≤ slice_units n % 65536 ∧ slice_units n % 65536 + 3 ≤ c.FIO_MEMORY_BLOCK_SLICES := by
  have hse := hc.size_eq
  unfold Config.limit_fits at hl
  rw [slice_units_eq]
  omega

/-- A small allocation on a sound state returns, keeps the state sound with
the returned pointer as one more outstanding slice, and reclaims a block that
lost its last holder. -/
theorem fio_malloc_step (c : Config) (hc : c.ok) (hp : c.paged) (hl : c.limit_fits)
    (s : State) (live : List Nat) (hinv : SmallInv c s live) (fuel n : Nat) (h0 : 0 < n)
    (hn : n < c.FIO_MEMORY_BLOCK_ALLOC_LIMIT) :
    ∃ r, fio_malloc c fuel n s = some r ∧
      SmallInv c r.2 (if r.1 = 0 then live else r.1 :: live) ∧
      ∀ b, b ≠ 0 → 0 < holders c s live b →
        holders c r.2 (if r.1 = 0 then live else r.1 :: live) b = 0 →
        b ∈ r.2.available ∨ rangeFree r.2.mapped b c.FIO_MEMORY_BLOCK_SIZE = true := by
  obtain ⟨A, hsh, hcur, hcore⟩ := hinv
  have hl0 : arenaLocked s.arenas (cur_arena s) = false := by
    rw [hcur]
    exact hsh.locked
  obtain ⟨hu1, hu2⟩ := small_units c hc hl n h0 hn
  have hsh1 : Shape (entered s) A true := hsh.setLock true (by unfold entered; rw [hcur])
  have hcur1 : cur_arena (entered s) = 0 := hcur
  have hcore1 : Core c (entered s) live A := hcore.congr rfl rfl rfl
  obtain ⟨A', b1, b2, b3, b4⟩ := block_slice_core c hc hp (entered s) live A true hcore1 hsh1
    hcur1 (slice_units n % 65536) hu1 hu2
  refine ⟨_, fio_malloc_small c fuel n s hl0 h0 hn, ?_, ?_⟩
  · dsimp only
    have hidx : (block_slice c (slice_units n % 65536) (entered s)).2.arena_last_used.getD 0
        = 0 := by
      rw [b2]
      exact hcur
    refine ⟨A', b1.setLock false ?_, ?_, b3.congr rfl rfl rfl⟩
    · unfold arena_exit
      dsimp only
      rw [hidx]
    · unfold cur_arena arena_exit
      exact hidx
  · intro b hb hpos hz
    dsimp only at hz ⊢
    rw [hsh.holders live b hb] at hpos
    have hidx : (block_slice c (slice_units n % 65536) (entered s)).2.arena_last_used.getD 0
        = 0 := by
      rw [b2]
      exact hcur
    have hsh2 : Shape (arena_exit (block_slice c (slice_units n % 65536) (entered s)).2) A'
        false := by
      refine b1.setLock false ?_
      unfold arena_exit
      dsimp only
      rw [hidx]
    rw [hsh2.holders _ b hb] at hz
    rcases b4 b (hcore.held_ok b hpos hb) hpos hz with h1 | h1
    · exact Or.inl h1
    · exact Or.inr (blockFree_range c _ b h1)

theorem fio_free_small (c : Config) (hc : c.ok) (p : Nat) (s : State)
    (hb : AddrOK c (blockOf c p)) (h32 : 32 ≤ p % c.FIO_MEMORY_BLOCK_SIZE) :
    fio_free c p s = block_free c (blockOf c p) s := by
  have hB := block_size_pos c
  have hlt := Nat.mod_lt p hB
  have hle := Nat.mod_le p c.FIO_MEMORY_BLOCK_SIZE
  have hbo : blockOf c p = p - p % c.FIO_MEMORY_BLOCK_SIZE := rfl
  have h2 := hb.2.2
  have hw : p < WORD := by
    unfold WORD
    omega
  unfold fio_free
  rw [if_neg (by omega), and_mask, if_neg (by omega)]
  unfold block_slice_free
  rw [and_not_mask c hc p hw, hbo]

/-- Freeing an outstanding slice keeps the state sound with the slice taken
off the list; the block's count drops by one, and the block is reclaimed when
that was its last holder. -/
theorem fio_free_step (c : Config) (hc : c.ok) (hp : c.paged) (s : State) (live : List Nat)
    (hinv : SmallInv c s live) (p : Nat) (hpl : p ∈ live) :
    SmallInv c (fio_free c p s) (live.erase p) ∧
      ((block_ref (fio_free c p s).mem (blockOf c p) + 1 = block_ref s.mem (blockOf c p) ∧
          0 < holders c (fio_free c p s) (live.erase p) (blockOf c p)) ∨
        (block_ref s.mem (blockOf c p) = 1 ∧
          holders c (fio_free c p s) (live.erase p) (blockOf c p) = 0 ∧
          (blockOf c p ∈ (fio_free c p s).available ∨
            rangeFree (fio_free c p s).mapped (blockOf c p) c.FIO_MEMORY_BLOCK_SIZE = true))) ∧
      (∀ b, b ≠ 0 → 0 < holders c s live b → holders c (fio_free c p s) (live.erase p) b = 0 →
        b ∈ (fio_free c p s).available ∨
          rangeFree (fio_free c p s).mapped b c.FIO_MEMORY_BLOCK_SIZE = true) := by
  obtain ⟨A, hsh, hcur, hcore⟩ := hinv
  obtain ⟨hb, h32, _⟩ := hcore.live_ok p hpl
  rw [fio_free_small c hc p s hb h32]
  have hsp := sliceCount_pos_of_mem c live p hpl
  have her := sliceCount_erase c p live (blockOf c p) hpl
  rw [if_pos rfl] at her
  obtain ⟨f1, f2, f3, _⟩ := block_free_core c hc hp s live (live.erase p) A A (blockOf c p)
    hcore hb (by omega) (Or.inl rfl) (fun q hq => List.mem_of_mem_erase hq) (by omega)
    (fun t hne => by
      have := sliceCount_erase c p live t hpl
      rw [if_neg (fun e => hne e.symm)] at this
      exact this)
  have hfr := block_free_frame c (blockOf c p) s
  have hsh' : Shape (block_free c (blockOf c p) s) A false := hsh.same hfr.1
  have hcur' : cur_arena (block_free c (blockOf c p) s) = 0 := by
    unfold cur_arena at hcur ⊢
    rw [hfr.2.1]
    exact hcur
  refine ⟨⟨A, hsh', hcur', f1⟩, ?_, ?_⟩
  · rw [hsh'.holders _ _ hb.1]
    by_cases hz : sliceCount c (live.erase p) (blockOf c p) +
        (if blockOf c p = A then 1 else 0) = 0
    · obtain ⟨z1, z2⟩ := f2 hz
      refine Or.inr ⟨z1, hz, ?_⟩
      rcases z2 with z2 | z2
      · exact Or.inl z2
      · exact Or.inr (blockFree_range c _ _ z2)
    · exact Or.inl ⟨(f3 (by omega)).2.2, by omega⟩
  · intro b hb0 hpos hz
    rw [hsh.holders live b hb0] at hpos
    rw [hsh'.holders _ b hb0] at hz
    by_cases e : b = blockOf c p
    · subst e
      rcases (f2 hz).2 with z2 | z2
      · exact Or.inl z2
      · exact Or.inr (blockFree_range c _ _ z2)
    · have := sliceCount_erase c p live b hpl
      rw [if_neg (fun e2 => e e2.symm)] at this
      omega

theorem sliceCount_nil (c : Config) (b : Nat) : sliceCount c [] b = 0 := rfl

theorem core_empty (c : Config) (s : State) (h : s.available = []) : Core c s [] 0 := by
  refine ⟨?_, ?_, ?_, fun h0 => absurd rfl h0, ?_⟩
  · intro b hb
    rw [h] at hb
    exact absurd hb (List.not_mem_nil _)
  · rw [h]
    exact List.nodup_nil
  · intro p hp
    exact absurd hp (List.not_mem_nil _)
  · intro b hb hpos
    rw [sliceCount_nil, if_neg hb.1] at hpos
    omega

/-- One round of the pre-seeding loop keeps the view of a process without
allocations sound. -/
theorem pre_pool_step (c : Config) (hc : c.ok) (hp : c.paged) (s : State)
    (h : Core c s [] 0) :
    Core c (if (sys_alloc c c.FIO_MEMORY_BLOCK_SIZE 0 s).1 ≠ 0 then
        fio_ls_embd_push (sys_alloc c c.FIO_MEMORY_BLOCK_SIZE 0 s).1
          (sys_alloc c c.FIO_MEMORY_BLOCK_SIZE 0 s).2
      else (sys_alloc c c.FIO_MEMORY_BLOCK_SIZE 0 s).2) [] 0 ∧
    (if (sys_alloc c c.FIO_MEMORY_BLOCK_SIZE 0 s).1 ≠ 0 then
        fio_ls_embd_push (sys_alloc c c.FIO_MEMORY_BLOCK_SIZE 0 s).1
          (sys_alloc c c.FIO_MEMORY_BLOCK_SIZE 0 s).2
      else (sys_alloc c c.FIO_MEMORY_BLOCK_SIZE 0 s).2).arenas = s.arenas ∧
    (if (sys_alloc c c.FIO_MEMORY_BLOCK_SIZE 0 s).1 ≠ 0 then
        fio_ls_embd_push (sys_alloc c c.FIO_MEMORY_BLOCK_SIZE 0 s).1
          (sys_alloc c c.FIO_MEMORY_BLOCK_SIZE 0 s).2
      else (sys_alloc c c.FIO_MEMORY_BLOCK_SIZE 0 s).2).arena_last_used = s.arena_last_used := by
  have hse := hc.size_eq
  have hB4 := hp.dvd
  obtain ⟨hpg1, hpg2, hpg3⟩ := sys_alloc_pages c hc hp c.FIO_MEMORY_BLOCK_SIZE 0 s hB4
  have hst := sys_alloc_static c c.FIO_MEMORY_BLOCK_SIZE 0 s
  by_cases h2 : (sys_alloc c c.FIO_MEMORY_BLOCK_SIZE 0 s).1 = 0
  · rw [if_neg (by simpa using h2)]
    exact ⟨h.frame hc hp hst.2.2.1 (hpg1 h2) hpg3, hst.2.2.2.2.2.1, hst.2.2.2.2.2.2⟩
  · rw [if_pos h2]
    obtain ⟨hin, hout⟩ := hpg2 h2
    have hr : AddrOK c (sys_alloc c c.FIO_MEMORY_BLOCK_SIZE 0 s).1 := by
      rcases sys_alloc_addr c hc c.FIO_MEMORY_BLOCK_SIZE 0 s with h0 | h0
      · exact absurd h0 h2
      · exact h0
    generalize (sys_alloc c c.FIO_MEMORY_BLOCK_SIZE 0 s).1 = r at *
    generalize (sys_alloc c c.FIO_MEMORY_BLOCK_SIZE 0 s).2 = s1 at *
    have hpf := push_frame r s1
    have hnm : ¬ BlockMapped c s r := by
      intro hm
      have h1 := hm _ (inPages_first c hc hp r (hr.page hp))
      rw [(hin _ (inPages_first c hc hp r (hr.page hp))).1] at h1
      exact Bool.noConfusion h1
    have hnin : r ∉ s.available := fun hin2 => hnm (h.pool r hin2).2.1
    refine ⟨?_, hpf.1.trans hst.2.2.2.2.2.1, hpf.2.1.trans hst.2.2.2.2.2.2⟩
    refine h.update hr (Or.inl rfl) ?_ ?_ ?_ ?_ (fun p hpl _ => hpl)
      (fun p hpl _ => absurd hpl (List.not_mem_nil _)) (fun _ _ => rfl)
      (fun _ _ _ => Iff.rfl) ?_ ?_
    · rw [push_available, hst.2.2.1]
      exact List.nodup_cons.2 ⟨hnin, h.nodup⟩
    · intro t ht hne
      rw [push_available, hst.2.2.1] at ht
      rcases List.mem_cons.1 ht with e | e
      · exact absurd e hne
      · exact e
    · intro t ht hne hm pg hpg
      rw [hpf.2.2.2.2.2.2.1, hout pg (inPages_disjoint c hp ht hr hne pg hpg)]
      exact hm pg hpg
    · intro t ht hne hm
      apply hdr_of_low
      intro x h1 h3
      have hfar := ht.far hr hne
      rw [push_mem_out r s1 x (by omega)]
      · apply hpg3
        have h4 := ht.page hp
        have : x / 4096 = t / 4096 := by omega
        rw [this]
        exact hm _ (inPages_first c hc hp t h4)
      · intro u hu
        rw [hst.2.2.1] at hu
        by_cases e : u = t
        · subst e
          omega
        · have := (h.pool u hu).1.far ht e
          omega
    · intro _
      refine ⟨fun pg hpg => ?_, hr.1, rfl⟩
      rw [hpf.2.2.2.2.2.2.1]
      exact (hin pg hpg).2
    · intro hpos
      rw [sliceCount_nil, if_neg hr.1] at hpos
      omega

theorem pre_pool_loop_core (c : Config) (hc : c.ok) (hp : c.paged) (n : Nat) :
    ∀ s : State, Core c s [] 0 →
      Core c (pre_pool_loop c n s) [] 0 ∧ (pre_pool_loop c n s).arenas = s.arenas ∧
        (pre_pool_loop c n s).arena_last_used = s.arena_last_used := by
  induction n with
  | zero => exact fun s h => ⟨h, rfl, rfl⟩
  | succ n ih =>
    intro s h
    obtain ⟨h1, h2, h3⟩ := pre_pool_step c hc hp s h
    obtain ⟨i1, i2, i3⟩ := ih _ h1
    rw [pre_pool_loop]
    exact ⟨i1, i2.trans h2, i3.trans h3⟩

/-- A process that initialised the allocator and allocated nothing is in a
sound state. -/
theorem fio_mem_init_small (c : Config) (hc : c.ok) (hp : c.paged) (oracle : List (Option Nat))
    (cpu_count : Nat) (hcpu : 0 < cpu_count) (s0 : State)
    (h : fio_mem_init c cpu_count (boot oracle) = some s0) : SmallInv c s0 [] := by
  obtain ⟨_, e⟩ := fio_mem_init_eq c cpu_count (boot oracle) s0 rfl h
  have hst := big_alloc_static c ((sizeof_arena_s * cpu_count) % WORD)
    { boot oracle with cores := cpu_count, count := 0 - (cpu_count : Int) }
  have hcore : Core c (fio_mem_init_arenas c cpu_count (boot oracle)) [] 0 := by
    apply core_empty
    unfold fio_mem_init_arenas
    dsimp only
    exact hst.2.2.1
  obtain ⟨p1, p2, p3⟩ := pre_pool_loop_core c hc hp (if cpu_count > 32 then 32 else cpu_count)
    _ hcore
  rw [← e] at p1 p2 p3
  refine ⟨0, ?_, ?_, p1⟩
  · obtain ⟨k, hk⟩ : ∃ k, cpu_count = k + 1 := ⟨cpu_count - 1, by omega⟩
    refine ⟨k, ?_⟩
    rw [p2]
    unfold fio_mem_init_arenas
    dsimp only
    rw [hk]
    rfl
  · unfold cur_arena
    rw [p3]
    unfold fio_mem_init_arenas
    dsimp only
    rw [hst.2.2.2.2.2.2]
    rfl

theorem range_not_both (c : Config) (hc : c.ok) (hp : c.paged) (s : State) (b : Nat)
    (hb : AddrOK c b) (h1 : BlockMapped c s b)
    (h2 : rangeFree s.mapped b c.FIO_MEMORY_BLOCK_SIZE = true) : False := by
  have hin := inPages_first c hc hp b (hb.page hp)
  have h3 := (rangeFree_iff _ _ _).1 h2 _ hin
  rw [h1 _ hin] at h3
  exact Bool.noConfusion h3

/-- In a sound state every held block carries exactly its holders in `ref`, is
mapped and is not on the recycled list. -/
theorem SmallInv.held {c : Config} {s : State} {live : List Nat} (h : SmallInv c s live)
    (b : Nat) (hb : b ≠ 0) (hpos : 0 < holders c s live b) :
    AddrOK c b ∧ block_ref s.mem b = holders c s live b ∧ b ∉ s.available ∧
      BlockMapped c s b := by
  obtain ⟨A, hsh, _, hcore⟩ := h
  rw [hsh.holders live b hb] at hpos ⊢
  have hok := hcore.held_ok b hpos hb
  exact ⟨hok, (hcore.refs b hok hpos).1, hcore.held_not_pool b hpos, hcore.held_mapped b hpos hb⟩

theorem fio_free_null (c : Config) (s : State) : fio_free c 0 s = s := by
  unfold fio_free
  rw [if_pos rfl]

theorem small_step_inv (c : Config) (hc : c.ok) (hp : c.paged) (hl : c.limit_fits)
    (fuel : Nat) (k : Call) (x y : State × List Nat) (h : SmallInv c x.1 x.2)
    (hk : small_step c fuel k x = some y) :
    SmallInv c y.1 y.2 ∧
      ∀ b, b ≠ 0 → 0 < holders c x.1 x.2 b → holders c y.1 y.2 b = 0 →
        b ∈ y.1.available ∨ rangeFree y.1.mapped b c.FIO_MEMORY_BLOCK_SIZE = true := by
  cases k with
  | malloc n =>
    unfold small_step at hk
    dsimp only at hk
    split at hk
    · rename_i hn
      obtain ⟨r, e, h1, h2⟩ := fio_malloc_step c hc hp hl x.1 x.2 h fuel n hn.1 hn.2
      rw [e] at hk
      simp only [Option.some.injEq] at hk
      subst hk
      exact ⟨h1, h2⟩
    · exact Option.noConfusion hk
  | free p =>
    unfold small_step at hk
    dsimp only at hk
    split at hk
    · rename_i hp0
      simp only [Option.some.injEq] at hk
      subst hk
      subst hp0
      dsimp only
      rw [fio_free_null]
      exact ⟨h, fun b _ h1 h2 => by omega⟩
    · split at hk
      · rename_i hin
        simp only [Option.some.injEq] at hk
        subst hk
        obtain ⟨h1, _, h3⟩ := fio_free_step c hc hp x.1 x.2 h p hin
        exact ⟨h1, h3⟩
      · exact Option.noConfusion hk
  | calloc a b => exact Option.noConfusion hk
  | realloc a b => exact Option.noConfusion hk
  | realloc2 a b d => exact Option.noConfusion hk

theorem small_run_inv (c : Config) (hc : c.ok) (hp : c.paged) (hl : c.limit_fits)
    (fuel : Nat) (history : List Call) :
    ∀ x y : State × List Nat, SmallInv c x.1 x.2 → small_run c fuel history x = some y →
      SmallInv c y.1 y.2 := by
  induction history with
  | nil =>
    intro x y h hr
    simp only [small_run, Option.some.injEq] at hr
    subst hr
    exact h
  | cons k ks ih =>
    intro x y h hr
    rw [small_run] at hr
    split at hr
    · exact Option.noConfusion hr
    · rename_i z hz
      exact ih z y (small_step_inv c hc hp hl fuel k x z h hz).1 hr

/-- C7, as the code has it: in a build whose block size is a multiple of the
page size and at most `2 ^ 20` bytes, with `LIMIT + 47` at most the block size,
and in a process with at least one core, after `fio_mem_init` and after every
call of a sequential history of small-path `fio_malloc` and `fio_free` calls
without double free, (1) every block with a holder has `ref` equal to the number of its
outstanding slices plus one when it is the active block of an arena, so
`ref ≥ 1`, and it is mapped and not on the recycled list; (2) a small
`fio_malloc` returns; (3) at every further call, a block that had a holder is
on the recycled list or unmapped afterwards exactly when the call left it
without holder; and (4) `fio_free` of an outstanding slice lowers the `ref` of
its block by one when a holder remains, and otherwise `ref` was 1 (the block
is then reclaimed by (3), and its header word is not a count any more). -/
theorem ref_count_invariant (c : Config) (hc : c.ok) (hp : c.paged) (hl : c.limit_fits)
    (oracle : List (Option Nat)) (cpu_count : Nat) (hcpu : 0 < cpu_count) (s0 : State)
    (hinit : fio_mem_init c cpu_count (boot oracle) = some s0) (fuel : Nat)
    (history : List Call) (s : State) (live : List Nat)
    (hrun : small_run c fuel history (s0, []) = some (s, live)) :
    (∀ b, b ≠ 0 → 0 < holders c s live b →
      block_ref s.mem b = holders c s live b ∧ 1 ≤ block_ref s.mem b ∧ b ∉ s.available ∧
        rangeMapped s.mapped b c.FIO_MEMORY_BLOCK_SIZE = true) ∧
    (∀ n, 0 < n → n < c.FIO_MEMORY_BLOCK_ALLOC_LIMIT →
      ∃ y, small_step c fuel (.malloc n) (s, live) = some y) ∧
    (∀ k y, small_step c fuel k (s, live) = some y →
      ∀ b, b ≠ 0 → 0 < holders c s live b →
        (holders c y.1 y.2 b = 0 ↔
          (b ∈ y.1.available ∨ rangeFree y.1.mapped b c.FIO_MEMORY_BLOCK_SIZE = true))) ∧
    (∀ p ∈ live,
      (block_ref (fio_free c p s).mem (blockOf c p) + 1 = block_ref s.mem (blockOf c p) ∧
          0 < holders c (fio_free c p s) (live.erase p) (blockOf c p)) ∨
        (block_ref s.mem (blockOf c p) = 1 ∧
          holders c (fio_free c p s) (live.erase p) (blockOf c p) = 0)) := by
  have h0 : SmallInv c s0 [] := fio_mem_init_small c hc hp oracle cpu_count hcpu s0 hinit
  have hinv : SmallInv c s live := small_run_inv c hc hp hl fuel history (s0, []) (s, live) h0 hrun
  refine ⟨?_, ?_, ?_, ?_⟩
  · intro b hb hpos
    obtain ⟨_, h1, h2, h3⟩ := hinv.held b hb hpos
    exact ⟨h1, by omega, h2, (rangeMapped_iff _ _ _).2 h3⟩
  · intro n hn0 hn
    obtain ⟨r, e, _⟩ := fio_malloc_step c hc hp hl s live hinv fuel n hn0 hn
    refine ⟨(r.2, if r.1 = 0 then live else r.1 :: live), ?_⟩
    unfold small_step
    dsimp only
    rw [if_pos ⟨hn0, hn⟩, e]
  · intro k y hk b hb hpos
    obtain ⟨h1, h2⟩ := small_step_inv c hc hp hl fuel k (s, live) y hinv hk
    refine ⟨h2 b hb hpos, fun hr => ?_⟩
    by_contra hne
    obtain ⟨g1, _, g3, g4⟩ := h1.held b hb (by omega)
    rcases hr with hr | hr
    · exact g3 hr
    · exact range_not_both c hc hp y.1 b g1 g4 hr
  · intro p hpl
    obtain ⟨_, h2, _⟩ := fio_free_step c hc hp s live hinv p hpl
    rcases h2 with h2 | ⟨h2, h3, _⟩
    · exact Or.inl h2
    · exact Or.inr ⟨h2, h3⟩

theorem defaultConfig_paged : defaultConfig.paged := by
  unfold Config.paged
  decide

theorem smallFinal_run :
    small_run defaultConfig 1 smallHistory (sampleState, []) = some smallFinal :=
  some_getD _ _ (by decide)

/-- Witness for C7: the sample process after `smallHistory`, where the block
`0x20000000` is held by one outstanding slice. -/
theorem ref_count_invariant_witness :
    small_run defaultConfig 1 smallHistory (sampleState, []) = some smallFinal ∧
      0 < holders defaultConfig smallFinal.1 smallFinal.2 0x20000000 ∧
      (block_ref smallFinal.1.mem 0x20000000 =
          holders defaultConfig smallFinal.1 smallFinal.2 0x20000000 ∧
        1 ≤ block_ref smallFinal.1.mem 0x20000000 ∧ 0x20000000 ∉ smallFinal.1.available ∧
        rangeMapped smallFinal.1.mapped 0x20000000 defaultConfig.FIO_MEMORY_BLOCK_SIZE = true) :=
  ⟨smallFinal_run, by decide,
    (ref_count_invariant defaultConfig defaultConfig_ok defaultConfig_paged defaultConfig_limit_fits
      sampleOracle 1 (by decide) sampleState sampleState_init 1 smallHistory smallFinal.1
      smallFinal.2 smallFinal_run).1 0x20000000 (by decide) (by decide)⟩

/-! ## Page rounding -/

theorem sys_round_size_eq (size : Nat) (h : size ≤ WORD - 1 - 4095) :
    sys_round_size size = size - size % 4096 + 4096 * (if size % 4096 ≠ 0 then 1 else 0) := by
  have hw : WORD = 2 ^ 64 := rfl
  have e1 : WORD - 1 - 4095 = 2 ^ 64 - 1 - (2 ^ 12 - 1) := by
    rw [hw]
    norm_num
  have e2 : size &&& 4095 = size % 4096 := land_low size 12
  have e3 : size &&& (WORD - 1 - 4095) = size - size % 4096 := by
    rw [e1]
    exact land_high size 12 (by omega) (by omega)
  unfold sys_round_size
  rw [e2, e3]
  apply Nat.mod_eq_of_lt
  split <;> omega

/-- C11: for every `size ≤ SIZE_MAX - 4095`, `sys_round_size(size)` is a multiple
of 4096 that is at least `size`, exceeds `size` by less than 4096 and is the
least such multiple; the function is idempotent at its result and monotone on
these sizes. -/
theorem sys_round_size_page_ceiling (size : Nat) (h : size ≤ WORD - 1 - 4095) :
    sys_round_size size % 4096 = 0 ∧ size ≤ sys_round_size size ∧
      sys_round_size size < size + 4096 ∧
      (∀ m, m % 4096 = 0 → size ≤ m → sys_round_size size ≤ m) ∧
      sys_round_size (sys_round_size size) = sys_round_size size ∧
      (∀ size', size' ≤ WORD - 1 - 4095 → size ≤ size' →
        sys_round_size size ≤ sys_round_size size') := by
  have hw : WORD = 2 ^ 64 := rfl
  have e := sys_round_size_eq size h
  have hr : sys_round_size size ≤ WORD - 1 - 4095 := by
    rw [e]
    split <;> omega
  have e2 := sys_round_size_eq _ hr
  refine ⟨?_, ?_, ?_, ?_, ?_, ?_⟩
  · rw [e]
    split <;> omega
  · rw [e]
    split <;> omega
  · rw [e]
    split <;> omega
  · intro m hm hle
    rw [e]
    split <;> omega
  · have h0 : sys_round_size size % 4096 = 0 := by
      rw [e]
      split <;> omega
    rw [e2, h0]
    simp
  · intro size' h' hle
    rw [e, sys_round_size_eq size' h']
    split <;> split <;> omega

/-- Witness for C11: 5000 bytes round up to two pages. -/
theorem sys_round_size_page_ceiling_witness :
    5000 ≤ WORD - 1 - 4095 ∧ sys_round_size 5000 = 8192 ∧ sys_round_size 5000 % 4096 = 0 :=
  ⟨by decide, by decide, (sys_round_size_page_ceiling 5000 (by decide)).1⟩

/-! ## The block header and `fio_calloc` -/

/-- C14, as the code has it: `block_init` sets `ref = 1`,
`pos = 2 + (sizeof(block_s) >> 4)`, which is 2, and
`max = (FIO_MEMORY_BLOCK_SLICES - 1) - (sizeof(block_s) >> 4)`, which is
`B / 16 - 1` for every block size from 64 bytes to 1 MiB. -/
theorem block_init_writes (c : Config) (hc : c.ok) (blk : Nat) (s : State) :
    block_ref (block_init c blk s).mem blk = 1 ∧
      block_pos (block_init c blk s).mem blk = 2 + (sizeof_block_s >>> 4) ∧
      block_pos (block_init c blk s).mem blk = 2 ∧
      block_max (block_init c blk s).mem blk =
        (c.FIO_MEMORY_BLOCK_SLICES - 1) - (sizeof_block_s >>> 4) ∧
      block_max (block_init c blk s).mem blk = c.FIO_MEMORY_BLOCK_SIZE / 16 - 1 := by
  have hse := hc.size_eq
  obtain ⟨h1, h2, h3⟩ := block_init_header c blk s
  have e : sizeof_block_s >>> 4 = 0 := by decide
  have hm : (c.FIO_MEMORY_BLOCK_SLICES - 1) % 65536 = c.FIO_MEMORY_BLOCK_SLICES - 1 := by omega
  refine ⟨h1, ?_, h2, ?_, ?_⟩
  · rw [h2, e]
  · rw [h3, e, hm]
    rfl
  · rw [h3, hm]
    omega

/-- Witness for C14: the default build, where `max` is 4095. -/
theorem block_init_writes_witness :
    defaultConfig.ok ∧ block_pos (block_init defaultConfig 0x20000000 sampleState).mem 0x20000000 = 2 ∧
      defaultConfig.FIO_MEMORY_BLOCK_SIZE / 16 - 1 = 4095 :=
  ⟨defaultConfig_ok,
    (block_init_writes defaultConfig defaultConfig_ok 0x20000000 sampleState).2.2.1, by decide⟩

/-- C20: `fio_calloc(size, count)` is `fio_malloc` of the product reduced modulo
`2 ^ 64`; when the reduced product is 0 the result is `NULL` and nothing
changes; and in the sample process `fio_calloc(2^63 + 8, 2)`, whose product is
above `SIZE_MAX`, returns the non-null pointer `0x20000020` to a slice of 16
bytes (the next slice starts at `0x20000030`). -/
theorem fio_calloc_wraps (c : Config) (fuel size count : Nat) (s : State) :
    fio_calloc c fuel size count s = fio_malloc c fuel ((size * count) % WORD) s ∧
      ((size * count) % WORD = 0 → fio_calloc c fuel size count s = some (0, s)) ∧
      ((2 ^ 63 + 8) * 2 > WORD - 1 ∧
        calloc_wrap_scenario = some (0x20000020, 0x20000030)) := by
  refine ⟨rfl, fun h => ?_, by decide, by decide⟩
  unfold fio_calloc fio_malloc
  rw [h, if_pos rfl]

/-- Witness for C20: `fio_calloc(2^32, 2^32)` in the sample process. -/
theorem fio_calloc_wraps_witness :
    (2 ^ 32 * 2 ^ 32) % WORD = 0 ∧
      fio_calloc defaultConfig 1 (2 ^ 32) (2 ^ 32) sampleState = some (0, sampleState) :=
  ⟨by decide, (fio_calloc_wraps defaultConfig 1 (2 ^ 32) (2 ^ 32) sampleState).2.1 (by decide)⟩

/-! ## The alignment fallback of `sys_alloc` -/

/-- C18: in a build whose block size is a multiple of the page size, when the
first mapping of a page multiple `len` is not block aligned
and the second `mmap`, of `len + FIO_MEMORY_BLOCK_SIZE` bytes, returns `r2`,
`sys_alloc` returns `r2 + (B - r2 mod B)`, a non-null multiple of `B`; the
window `[result, result + len)` lies inside `[r2, r2 + len + B)`; the leading
piece of `B - r2 mod B` bytes ends where the window starts and the trailing
piece of `B - (B - r2 mod B)` bytes starts where the window ends and ends with
the mapping; afterwards the pages of the window are mapped and every other page
of the second mapping is unmapped. And every non-null result of `sys_alloc` is
a multiple of `B`. -/
theorem sys_alloc_fallback_window (c : Config) (hc : c.ok) (hp : c.paged)
    (len is_indi : Nat) (s : State) (hlen : len % 4096 = 0) (r1 r2 : Nat)
    (h1 : (mmap len s).1 = some r1) (hm : r1 % c.FIO_MEMORY_BLOCK_SIZE ≠ 0)
    (h2 : (mmap ((len + c.FIO_MEMORY_BLOCK_SIZE) % WORD) (munmap r1 len (mmap len s).2)).1 =
      some r2) :
    (len + c.FIO_MEMORY_BLOCK_SIZE) % WORD = len + c.FIO_MEMORY_BLOCK_SIZE ∧
      r2 % 4096 = 0 ∧
      (sys_alloc c len is_indi s).1 =
        r2 + (c.FIO_MEMORY_BLOCK_SIZE - r2 % c.FIO_MEMORY_BLOCK_SIZE) ∧
      (sys_alloc c len is_indi s).1 ≠ 0 ∧
      (sys_alloc c len is_indi s).1 % c.FIO_MEMORY_BLOCK_SIZE = 0 ∧
      r2 < (sys_alloc c len is_indi s).1 ∧
      (sys_alloc c len is_indi s).1 + len ≤ r2 + (len + c.FIO_MEMORY_BLOCK_SIZE) ∧
      (sys_alloc c len is_indi s).1 + len +
          (c.FIO_MEMORY_BLOCK_SIZE - (c.FIO_MEMORY_BLOCK_SIZE - r2 % c.FIO_MEMORY_BLOCK_SIZE)) =
        r2 + (len + c.FIO_MEMORY_BLOCK_SIZE) ∧
      (∀ pg, inPages (sys_alloc c len is_indi s).1 len pg →
        (sys_alloc c len is_indi s).2.mapped pg = true) ∧
      (∀ pg, inPages r2 (len + c.FIO_MEMORY_BLOCK_SIZE) pg →
        ¬ inPages (sys_alloc c len is_indi s).1 len pg →
        (sys_alloc c len is_indi s).2.mapped pg = false) ∧
      (∀ (len' is_indi' : Nat) (s' : State), (sys_alloc c len' is_indi' s').1 ≠ 0 →
        (sys_alloc c len' is_indi' s').1 % c.FIO_MEMORY_BLOCK_SIZE = 0) := by
  have hB := block_size_pos c
  have hlt := Nat.mod_lt r2 hB
  obtain ⟨m1, m2, m3, m4, m5, m6, m7⟩ := mmap_some h1
  have hce := le_pageCeil len
  have hwl : len + c.FIO_MEMORY_BLOCK_SIZE < WORD := by
    have := two_block_lt_word c hc
    unfold WORD at this ⊢
    have hse := hc.size_eq
    omega
  have hw := Nat.mod_eq_of_lt hwl
  rw [hw] at h2
  obtain ⟨n1, n2, n3, n4, n5, n6, n7⟩ := mmap_some h2
  rw [rangeFree_iff] at n5
  have hres : (sys_alloc c len is_indi s).1 =
      r2 + (c.FIO_MEMORY_BLOCK_SIZE - r2 % c.FIO_MEMORY_BLOCK_SIZE) := by
    rcases sys_alloc_cases c len is_indi s with ⟨g1, _⟩ | ⟨q1, g1, gm, _⟩ | ⟨q1, g1, gm, g2, _⟩ |
      ⟨q1, q2, g1, gm, g2, e⟩
    · rw [h1] at g1
      exact Option.noConfusion g1
    · rw [h1] at g1
      have := Option.some.inj g1
      subst this
      exact absurd gm hm
    · rw [h1] at g1
      have := Option.some.inj g1
      subst this
      rw [hw, h2] at g2
      exact Option.noConfusion g2
    · rw [h1] at g1
      have := Option.some.inj g1
      subst this
      rw [hw, h2] at g2
      have := Option.some.inj g2
      subst this
      rw [e]
  have hne : (sys_alloc c len is_indi s).1 ≠ 0 := by
    rw [hres]
    omega
  have halign : ∀ (len' is_indi' : Nat) (s' : State), (sys_alloc c len' is_indi' s').1 ≠ 0 →
      (sys_alloc c len' is_indi' s').1 % c.FIO_MEMORY_BLOCK_SIZE = 0 := by
    intro len' is' s' h0
    rcases sys_alloc_addr c hc len' is' s' with h | h
    · exact absurd h h0
    · exact h.2.1
  obtain ⟨_, pg2, _⟩ := sys_alloc_pages c hc hp len is_indi s hlen
  obtain ⟨pin, pout⟩ := pg2 hne
  refine ⟨hw, n2, hres, hne, halign _ _ _ hne, ?_, ?_, ?_, fun pg hin => (pin pg hin).2, ?_, halign⟩
  · rw [hres]
    omega
  · rw [hres]
    omega
  · rw [hres]
    omega
  · intro pg hin hout
    rw [pout pg hout, ← mmap_munmap_mapped h1 pg]
    exact n5 pg hin

/-- Witness for C18: the kernel answers the request for one block with
`0x10001000` and the request for two blocks with `0x20003000`; `sys_alloc`
returns `0x20010000`. -/
theorem sys_alloc_fallback_window_witness :
    (mmap 65536 (boot [some 0x10001000, some 0x20003000])).1 = some 0x10001000 ∧
      (sys_alloc defaultConfig 65536 0 (boot [some 0x10001000, some 0x20003000])).1 =
        0x20003000 + (defaultConfig.FIO_MEMORY_BLOCK_SIZE -
          0x20003000 % defaultConfig.FIO_MEMORY_BLOCK_SIZE) ∧
      (sys_alloc defaultConfig 65536 0 (boot [some 0x10001000, some 0x20003000])).1 =
        0x20010000 :=
  ⟨by decide,
    (sys_alloc_fallback_window defaultConfig defaultConfig_ok defaultConfig_paged 65536 0
      (boot [some 0x10001000, some 0x20003000]) (by decide) 0x10001000 0x20003000 (by decide)
      (by decide) (by decide)).2.2.1, by decide⟩

/-! ## Resizing to size 0 -/

theorem store64_apply_in (m : Mem) (a v i : Nat) (h : i < 8) :
    store64 m a v (a + i) = v / 256 ^ i % 256 := by
  unfold store64
  rw [if_pos (by omega), Nat.add_sub_cancel_left]

theorem load64_store64 (m : Mem) (a v : Nat) : load64 (store64 m a v) a = v % WORD := by
  have h0 := store64_apply_in m a v 0 (by omega)
  have h1 := store64_apply_in m a v 1 (by omega)
  have h2 := store64_apply_in m a v 2 (by omega)
  have h3 := store64_apply_in m a v 3 (by omega)
  have h4 := store64_apply_in m a v 4 (by omega)
  have h5 := store64_apply_in m a v 5 (by omega)
  have h6 := store64_apply_in m a v 6 (by omega)
  have h7 := store64_apply_in m a v 7 (by omega)
  rw [Nat.add_zero] at h0
  have hw : WORD = 256 * (256 * (256 * (256 * (256 * (256 * (256 * 256)))))) := by
    unfold WORD
    norm_num
  have d2 : v / 256 ^ 2 = v / 256 / 256 := by rw [Nat.div_div_eq_div_mul]; rfl
  have d3 : v / 256 ^ 3 = v / 256 / 256 / 256 := by
    rw [Nat.div_div_eq_div_mul, Nat.div_div_eq_div_mul]; rfl
  have d4 : v / 256 ^ 4 = v / 256 / 256 / 256 / 256 := by
    rw [Nat.div_div_eq_div_mul, Nat.div_div_eq_div_mul, Nat.div_div_eq_div_mul]; rfl
  have d5 : v / 256 ^ 5 = v / 256 / 256 / 256 / 256 / 256 := by
    rw [Nat.div_div_eq_div_mul, Nat.div_div_eq_div_mul, Nat.div_div_eq_div_mul,
      Nat.div_div_eq_div_mul]; rfl
  have d6 : v / 256 ^ 6 = v / 256 / 256 / 256 / 256 / 256 / 256 := by
    rw [Nat.div_div_eq_div_mul, Nat.div_div_eq_div_mul, Nat.div_div_eq_div_mul,
      Nat.div_div_eq_div_mul, Nat.div_div_eq_div_mul]; rfl
  have d7 : v / 256 ^ 7 = v / 256 / 256 / 256 / 256 / 256 / 256 / 256 := by
    rw [Nat.div_div_eq_div_mul, Nat.div_div_eq_div_mul, Nat.div_div_eq_div_mul,
      Nat.div_div_eq_div_mul, Nat.div_div_eq_div_mul, Nat.div_div_eq_div_mul]; rfl
  unfold load64
  rw [h0, h1, h2, h3, h4, h5, h6, h7, hw, d2, d3, d4, d5, d6, d7, Nat.pow_zero, Nat.div_one,
    Nat.pow_one]
  simp only [Nat.mod_mod, Nat.mod_mul]

theorem sys_round_size_mod (x : Nat) (hx : x < WORD) :
    sys_round_size x % 4096 = 0 ∧ sys_round_size x < WORD := by
  have hw : WORD = 18446744073709551616 := by
    unfold WORD
    norm_num
  have e1 : WORD - 1 - 4095 = 2 ^ 64 - 1 - (2 ^ 12 - 1) := by
    rw [hw]
    norm_num
  have e3 : x &&& (WORD - 1 - 4095) = x - x % 4096 := by
    rw [e1]
    exact land_high x 12 (by omega) (by omega)
  unfold sys_round_size
  rw [e3, hw]
  constructor
  · split <;> omega
  · exact Nat.mod_lt _ (by omega)

theorem sys_alloc_len_ne (c : Config) (len is_indi : Nat) (s : State)
    (h : (sys_alloc c len is_indi s).1 ≠ 0) : len ≠ 0 := by
  rcases sys_alloc_cases c len is_indi s with ⟨_, e⟩ | ⟨q1, g1, _, _⟩ | ⟨q1, _, _, _, e⟩ |
    ⟨q1, q2, g1, _, _, _⟩
  · rw [e] at h
    exact absurd rfl h
  · exact (mmap_some g1).2.2.1
  · rw [e] at h
    exact absurd rfl h
  · exact (mmap_some g1).2.2.1

/-- Shrinking a large allocation whose header holds at least one page to size
0 returns the same pointer. -/
theorem fio_realloc_big_zero (c : Config) (fuel ptr : Nat) (s : State)
    (hp : ptr % c.FIO_MEMORY_BLOCK_SIZE = 16) (h16 : ptr ≠ 16) (hw : ptr < WORD)
    (hh : 4096 ≤ load64 s.mem (ptr - 16)) :
    ∃ r, fio_realloc c fuel ptr 0 s = some r ∧ r.1 = ptr := by
  have hB := block_size_pos c
  have hge : 16 ≤ ptr := by
    have := Nat.mod_le ptr c.FIO_MEMORY_BLOCK_SIZE
    omega
  have hmem : (WORD - 16 + ptr) % WORD = ptr - 16 := by
    unfold WORD at hw ⊢
    omega
  have hns : sys_round_size ((0 + 16) % WORD) = 4096 := by decide
  have hptr : (ptr - 16 + 16) % WORD = ptr := by
    unfold WORD at hw ⊢
    omega
  unfold fio_realloc fio_realloc2
  rw [if_neg (show ¬ ptr = 0 by omega), and_mask, if_pos hp]
  refine ⟨_, rfl, ?_⟩
  unfold big_realloc
  dsimp only
  rw [hmem, hns]
  unfold sys_realloc
  rw [if_neg (show ¬ 4096 > load64 s.mem (ptr - 16) by omega)]
  by_cases h2 : (4096 + 4096) % WORD < load64 s.mem (ptr - 16)
  · rw [if_pos h2]
    dsimp only
    rw [if_neg (show ¬ ptr - 16 = 0 by omega)]
    exact hptr
  · rw [if_neg h2]
    dsimp only
    rw [if_neg (show ¬ ptr - 16 = 0 by omega)]
    exact hptr

/-- C19: for every pointer `p` with `p mod B ≠ 16` and every old size,
`fio_realloc2(p, old, 0)` and `fio_realloc(p, 0)` return `NULL` and leave the
whole state as it was; `fio_realloc(p, 0)` of a pointer with `p mod B = 16`
other than 16 whose header holds at least a page returns `p`; and the pointer
of a granted large `fio_malloc` is such a pointer, so `fio_realloc(p, 0)`
returns it, which is not `NULL`. -/
theorem realloc_to_zero (c : Config) (hc : c.ok) (fuel : Nat) (s : State) :
    (∀ ptr original_size, ptr % c.FIO_MEMORY_BLOCK_SIZE ≠ 16 →
      fio_realloc2 c fuel ptr original_size 0 s = some (0, s) ∧
        fio_realloc c fuel ptr 0 s = some (0, s)) ∧
    (∀ ptr, ptr % c.FIO_MEMORY_BLOCK_SIZE = 16 → ptr ≠ 16 → ptr < WORD →
      4096 ≤ load64 s.mem (ptr - 16) →
      ∃ r, fio_realloc c fuel ptr 0 s = some r ∧ r.1 = ptr ∧ r.1 ≠ 0) ∧
    (∀ n r, c.FIO_MEMORY_BLOCK_ALLOC_LIMIT ≤ n → 0 < n → fio_malloc c fuel n s = some r →
      r.1 ≠ 16 →
      r.1 % c.FIO_MEMORY_BLOCK_SIZE = 16 ∧
        ∃ r2, fio_realloc c fuel r.1 0 r.2 = some r2 ∧ r2.1 = r.1 ∧ r2.1 ≠ 0) := by
  have hse := hc.size_eq
  have hsmall : ∀ ptr original_size, ptr % c.FIO_MEMORY_BLOCK_SIZE ≠ 16 →
      fio_realloc2 c fuel ptr original_size 0 s = some (0, s) := by
    intro ptr o hne
    have hm0 : fio_malloc c fuel 0 s = some (0, s) := by
      unfold fio_malloc
      rw [if_pos rfl]
    unfold fio_realloc2
    by_cases h0 : ptr = 0
    · rw [if_pos h0, hm0]
    · rw [if_neg h0, and_mask, if_neg hne, hm0]
      rfl
  refine ⟨fun ptr o hne => ⟨hsmall ptr o hne, hsmall ptr _ hne⟩, ?_, ?_⟩
  · intro ptr hp h16 hw hh
    obtain ⟨r, e, h⟩ := fio_realloc_big_zero c fuel ptr s hp h16 hw hh
    have hge : 16 ≤ ptr := by
      have := Nat.mod_le ptr c.FIO_MEMORY_BLOCK_SIZE
      omega
    exact ⟨r, e, h, by omega⟩
  · intro n r hn h0 hr h16
    rw [fio_malloc_big c fuel n s hn h0] at hr
    have hr' := (Option.some.inj hr).symm
    subst hr'
    have hx : (n + 16) % WORD < WORD := Nat.mod_lt _ (by unfold WORD; omega)
    obtain ⟨hs1, hs2⟩ := sys_round_size_mod _ hx
    have haddr := sys_alloc_addr c hc (sys_round_size ((n + 16) % WORD)) 1 s
    have hlen := sys_alloc_len_ne c (sys_round_size ((n + 16) % WORD)) 1 s
    unfold big_alloc at h16 ⊢
    dsimp only at h16 ⊢
    generalize sys_alloc c (sys_round_size ((n + 16) % WORD)) 1 s = a at *
    have ha0 : a.1 ≠ 0 := by
      intro e
      rw [e] at h16
      exact h16 (by decide)
    rcases haddr with h | ⟨_, hal, hle⟩
    · exact absurd h ha0
    have hlt : a.1 + 16 < WORD := by
      unfold WORD
      omega
    rw [Nat.mod_eq_of_lt hlt]
    have hmod : (a.1 + 16) % c.FIO_MEMORY_BLOCK_SIZE = 16 :=
      add_mod_block _ _ _ hal (by omega)
    refine ⟨hmod, ?_⟩
    have hlen0 := hlen ha0
    obtain ⟨r2, e, h⟩ := fio_realloc_big_zero c fuel (a.1 + 16)
      { a.2 with mem := store64 a.2.mem a.1 (sys_round_size ((n + 16) % WORD)) } hmod (by omega)
      hlt (by
        show 4096 ≤ load64 (store64 a.2.mem a.1 _) (a.1 + 16 - 16)
        rw [Nat.add_sub_cancel, load64_store64, Nat.mod_eq_of_lt hs2]
        omega)
    exact ⟨r2, e, h, by omega⟩

/-- Witness for C19: the first slice of the sample process. -/
theorem realloc_to_zero_witness :
    0x20000020 % defaultConfig.FIO_MEMORY_BLOCK_SIZE ≠ 16 ∧
      fio_realloc defaultConfig 1 0x20000020 0 sampleState = some (0, sampleState) :=
  ⟨by decide,
    ((realloc_to_zero defaultConfig defaultConfig_ok 1 sampleState).1 0x20000020 0
      (by decide)).2⟩

/-! ## Details of a small allocation -/

/-- The header of the block after a cut that fits, and whether the arena keeps
the block. -/
theorem block_slice_cut_detail (c : Config) (hc : c.ok) (hp : c.paged) (s : State)
    (live : List Nat) (blk u : Nat) (h : Core c s live blk) (hb : blk ≠ 0)
    (hfit : block_pos s.mem blk + u ≤ block_max s.mem blk) (hu : 1 ≤ u) :
    (block_slice_cut c u blk s).1 = blk + 16 * block_pos s.mem blk ∧
      block_pos (block_slice_cut c u blk s).2.mem blk = block_pos s.mem blk + u ∧
      block_max (block_slice_cut c u blk s).2.mem blk = block_max s.mem blk ∧
      (block_pos s.mem blk + u < block_max s.mem blk →
        Core c (block_slice_cut c u blk s).2 ((block_slice_cut c u blk s).1 :: live) blk ∧
          (block_slice_cut c u blk s).2.arenas = s.arenas) ∧
      (block_max s.mem blk ≤ block_pos s.mem blk + u →
        Core c (block_slice_cut c u blk s).2 ((block_slice_cut c u blk s).1 :: live) 0 ∧
          (block_slice_cut c u blk s).2.arenas = setBlock s.arenas (cur_arena s) 0) := by
  obtain ⟨hbA, hbm, hmax⟩ := h.active hb
  have href := h.refs blk hbA (by rw [if_pos rfl]; omega)
  rw [if_pos rfl] at href
  have hse := hc.size_eq
  have hch := cut_mem_hdr s.mem u blk
  have hplt : block_pos s.mem blk < 65536 := load16_lt _ _
  have hmlt : block_max s.mem blk < 65536 := load16_lt _ _
  have hpos' : block_pos (cut_mem s.mem u blk) blk = block_pos s.mem blk + u := by
    rw [hch.2.1]
    omega
  have href' : block_ref (cut_mem s.mem u blk) blk = block_ref s.mem blk + 1 := by
    rw [hch.1]
    omega
  obtain ⟨c1, _, _, _, c5⟩ := block_slice_cut_core c hc hp s live blk u h hb hfit hu
  have hsc1 : sliceCount c ((block_slice_cut c u blk s).1 :: live) blk =
      sliceCount c live blk + 1 := by
    rw [sliceCount_cons, if_pos c1]
  by_cases hfull : block_pos (cut_mem s.mem u blk) blk ≥ block_max (cut_mem s.mem u blk) blk
  · have hst := cut_state_full c u blk s hfull
    obtain ⟨_, e_keep, _⟩ := block_free_effect c hp blk { s with mem := cut_mem s.mem u blk } hbA
      (by show 1 ≤ block_ref (cut_mem s.mem u blk) blk; omega)
    obtain ⟨_, _, er, ep, em⟩ := e_keep
      (by show block_ref (cut_mem s.mem u blk) blk ≠ 1; omega)
    have er' : block_ref (block_slice_cut c u blk s).2.mem blk = block_ref s.mem blk := by
      rw [hst]
      show block_ref (block_free c blk { s with mem := cut_mem s.mem u blk }).mem blk = _
      have : block_ref ({ s with mem := cut_mem s.mem u blk } : State).mem blk =
          block_ref s.mem blk + 1 := href'
      omega
    have ep' : block_pos (block_slice_cut c u blk s).2.mem blk = block_pos s.mem blk + u := by
      rw [hst]
      show block_pos (block_free c blk { s with mem := cut_mem s.mem u blk }).mem blk = _
      rw [ep]
      exact hpos'
    have em' : block_max (block_slice_cut c u blk s).2.mem blk = block_max s.mem blk := by
      rw [hst]
      show block_max (block_free c blk { s with mem := cut_mem s.mem u blk }).mem blk = _
      rw [em]
      exact hch.2.2
    rw [hpos', hch.2.2] at hfull
    refine ⟨block_slice_cut_fst c u blk s, ep', em', fun hlt => by omega, fun _ => ?_⟩
    rcases c5 with ⟨c6, _⟩ | c6
    · exfalso
      have := (c6.refs blk hbA (by rw [if_pos rfl]; omega)).1
      rw [if_pos rfl, hsc1, er'] at this
      omega
    · exact c6
  · have hst := cut_state_room c u blk s hfull
    have er' : block_ref (block_slice_cut c u blk s).2.mem blk = block_ref s.mem blk + 1 := by
      rw [hst]
      exact href'
    have ep' : block_pos (block_slice_cut c u blk s).2.mem blk = block_pos s.mem blk + u := by
      rw [hst]
      exact hpos'
    have em' : block_max (block_slice_cut c u blk s).2.mem blk = block_max s.mem blk := by
      rw [hst]
      exact hch.2.2
    rw [hpos', hch.2.2] at hfull
    refine ⟨block_slice_cut_fst c u blk s, ep', em', fun _ => ?_, fun hge => by omega⟩
    rcases c5 with c6 | ⟨c6, _⟩
    · exact c6
    · exfalso
      have := (c6.refs blk hbA (by rw [hsc1]; omega)).1
      rw [if_neg hb, hsc1, er'] at this
      omega

/-- A failed `block_new` found the list empty and had its mapping refused. -/
theorem block_new_null (c : Config) (s : State) (h : (block_new c s).1 = 0)
    (hav : ∀ b ∈ s.available, b ≠ 0) :
    s.available = [] ∧ (sys_alloc c c.FIO_MEMORY_BLOCK_SIZE 0 s).1 = 0 ∧
      (block_new c s).2 = (sys_alloc c c.FIO_MEMORY_BLOCK_SIZE 0 s).2 := by
  rcases pop_cases s with ⟨hp0, hempty, hsame⟩ | hcons
  · by_cases h2 : (sys_alloc c c.FIO_MEMORY_BLOCK_SIZE 0 (fio_ls_embd_pop s).2).1 = 0
    · rw [block_new_fail c s hp0 h2]
      rw [hsame] at h2 ⊢
      exact ⟨hempty, h2, rfl⟩
    · rw [block_new_fresh c s hp0 h2] at h
      exact absurd h h2
  · have hne := hav _ (hcons ▸ List.mem_cons_self _ _)
    rw [block_new_pop c s hne] at h
    exact absurd h hne

theorem block_free_count (c : Config) (b : Nat) (s : State)
    (h : (block_free c b s).available = s.available) : (block_free c b s).count = s.count := by
  by_cases hr : (65535 + block_ref s.mem b) % 65536 ≠ 0
  · rw [block_free_keep c b s hr]
  · have hr0 : (65535 + block_ref s.mem b) % 65536 = 0 := by simpa using hr
    by_cases hcap : s.count + 1 > pool_cap c s
    · rw [block_free_unmap c b s hr0 hcap]
      unfold sys_free
      exact (munmap_static _ _ _).1
    · rw [block_free_pool c b s hr0 hcap, push_available] at h
      have := congrArg List.length h
      simp at this

/-- The new block that `block_slice` takes has a fresh header. -/
theorem block_slice_rotate_detail (c : Config) (hc : c.ok) (hp : c.paged) (s : State)
    (live : List Nat) (A : Nat) (l : Bool) (h : Core c s live A) (hsh : Shape s A l)
    (hcur : cur_arena s = 0) (u : Nat) :
    (A ≠ 0 → block_pos s.mem A + u ≤ block_max s.mem A → block_slice_rotate c u s = (A, s)) ∧
      ((A = 0 ∨ block_pos s.mem A + u > block_max s.mem A) →
        (block_slice_rotate c u s).1 ≠ 0 →
        block_ref (block_slice_rotate c u s).2.mem (block_slice_rotate c u s).1 = 1 ∧
          block_pos (block_slice_rotate c u s).2.mem (block_slice_rotate c u s).1 = 2 ∧
          block_max (block_slice_rotate c u s).2.mem (block_slice_rotate c u s).1 =
            c.FIO_MEMORY_BLOCK_SLICES - 1) := by
  have hblk : arenaBlock s.arenas (cur_arena s) = A := by
    rw [hcur]
    exact hsh.block
  refine ⟨fun hA hfit => ?_, fun hrot hne => ?_⟩
  · have := rotate_fit c u s (by rw [hblk]; exact hA) (by rw [hblk]; omega)
    rw [this, hblk]
  · by_cases hA : A = 0
    · have hb0 : arenaBlock s.arenas (cur_arena s) = 0 := hblk.trans hA
      rw [rotate_empty c u s hb0] at hne ⊢
      dsimp only at hne ⊢
      rcases (block_new_spec c hc s (fun b hb => (h.pool b hb).1)).2.2.2 with h0 | h1
      · exact absurd h0 hne
      · exact h1.2
    · have hb0 : arenaBlock s.arenas (cur_arena s) ≠ 0 := by
        rw [hblk]
        exact hA
      have hfull : block_pos s.mem (arenaBlock s.arenas (cur_arena s)) + u >
          block_max s.mem (arenaBlock s.arenas (cur_arena s)) := by
        rw [hblk]
        rcases hrot with h0 | h0
        · exact absurd h0 hA
        · exact h0
      rw [rotate_full c u s hb0 hfull] at hne ⊢
      dsimp only at hne ⊢
      rw [hblk] at hne ⊢
      have hAok := (h.active hA).1
      obtain ⟨f1, _⟩ := block_free_core c hc hp s live live A 0 A h hAok
        (by rw [if_pos rfl]; omega) (Or.inr ⟨rfl, rfl⟩) (fun _ hpl => hpl)
        (by rw [if_neg hA, if_pos rfl]) (fun _ _ => rfl)
      rcases (block_new_spec c hc (block_free c A s) (fun b hb => (f1.pool b hb).1)).2.2.2
        with h0 | h1
      · exact absurd h0 hne
      · exact h1.2

theorem small_units_eq (c : Config) (hc : c.ok) (hl : c.limit_fits) (n : Nat) (h0 : 0 < n)
    (hn : n < c.FIO_MEMORY_BLOCK_ALLOC_LIMIT) :
    slice_units n % 65536 = slice_units n ∧ 1 ≤ slice_units n ∧
      slice_units n + 3 ≤ c.FIO_MEMORY_BLOCK_SLICES := by
  have hse := hc.size_eq
  unfold Config.limit_fits at hl
  rw [slice_units_eq]
  omega

theorem arena_exit_frame (s : State) :
    (arena_exit s).available = s.available ∧ (arena_exit s).mapped = s.mapped ∧
      (arena_exit s).mem = s.mem ∧ (arena_exit s).arena_last_used = s.arena_last_used ∧
      (arena_exit s).arenas = setLock s.arenas (s.arena_last_used.getD 0) false ∧
      (arena_exit s).count = s.count :=
  ⟨rfl, rfl, rfl, rfl, rfl, rfl⟩

/-- A small `fio_malloc` that returns a pointer: the block `blk` it cut from,
the position `pos0` of the cut, the header afterwards, the arena's block
afterwards, and whether the block was the arena's block (the cut is at its
`pos`) or a new one (the cut is at position 2 of a block without slices). -/
theorem fio_malloc_success (c : Config) (hc : c.ok) (hp : c.paged) (hl : c.limit_fits)
    (s : State) (live : List Nat) (A : Nat) (hsh : Shape s A false) (hcur : cur_arena s = 0)
    (h : Core c s live A) (fuel n : Nat) (h0 : 0 < n) (hn : n < c.FIO_MEMORY_BLOCK_ALLOC_LIMIT)
    (r : Nat × State) (hr : fio_malloc c fuel n s = some r) (hne : r.1 ≠ 0) :
    ∃ blk pos0 A', AddrOK c blk ∧ r.1 = blk + 16 * pos0 ∧ 2 ≤ pos0 ∧
      pos0 + slice_units n ≤ block_max r.2.mem blk ∧
      block_max r.2.mem blk < c.FIO_MEMORY_BLOCK_SLICES ∧
      block_pos r.2.mem blk = pos0 + slice_units n ∧
      A' = (if block_max r.2.mem blk ≤ pos0 + slice_units n then 0 else blk) ∧
      Shape r.2 A' false ∧ cur_arena r.2 = 0 ∧ Core c r.2 (r.1 :: live) A' ∧
      ((A ≠ 0 ∧ block_pos s.mem A + slice_units n ≤ block_max s.mem A ∧ blk = A ∧
          pos0 = block_pos s.mem A ∧ block_max r.2.mem blk = block_max s.mem A) ∨
        ((A = 0 ∨ block_pos s.mem A + slice_units n > block_max s.mem A) ∧ pos0 = 2 ∧
          block_max r.2.mem blk = c.FIO_MEMORY_BLOCK_SLICES - 1 ∧
          sliceCount c live blk = 0)) := by
  have hse := hc.size_eq
  obtain ⟨hmod, hu1, hu2⟩ := small_units_eq c hc hl n h0 hn
  have hl0 : arenaLocked s.arenas (cur_arena s) = false := by
    rw [hcur]
    exact hsh.locked
  rw [fio_malloc_small c fuel n s hl0 h0 hn, hmod] at hr
  have hr' := (Option.some.inj hr).symm
  subst hr'
  dsimp only at hne ⊢
  have hsh1 : Shape (entered s) A true := hsh.setLock true (by unfold entered; rw [hcur])
  have hcur1 : cur_arena (entered s) = 0 := hcur
  have hcore1 : Core c (entered s) live A := h.congr rfl rfl rfl
  obtain ⟨q1, q2, q3, q4, _⟩ := block_slice_rotate_core c hc hp (entered s) live A true hcore1
    hsh1 hcur1 (slice_units n) hu2
  obtain ⟨d1, d2⟩ := block_slice_rotate_detail c hc hp (entered s) live A true hcore1 hsh1 hcur1
    (slice_units n)
  have hbs : block_slice c (slice_units n) (entered s) =
      block_slice_cut c (slice_units n) (block_slice_rotate c (slice_units n) (entered s)).1
        (block_slice_rotate c (slice_units n) (entered s)).2 := by
    delta block_slice
    dsimp only
    by_cases e : (block_slice_rotate c (slice_units n) (entered s)).1 = 0
    · exfalso
      apply hne
      delta block_slice
      dsimp only
      rw [if_pos e]
    · rw [if_neg e]
  have hblk0 : (block_slice_rotate c (slice_units n) (entered s)).1 ≠ 0 := by
    intro e
    apply hne
    delta block_slice
    dsimp only
    rw [if_pos e]
  rw [hbs] at hne ⊢
  have hcur2 : cur_arena (block_slice_rotate c (slice_units n) (entered s)).2 = 0 := by
    unfold cur_arena at hcur1 ⊢
    rw [q1]
    exact hcur1
  have hfit := q4 hblk0
  have hrotcase : (A ≠ 0 ∧ block_pos s.mem A + slice_units n ≤ block_max s.mem A ∧
      (block_slice_rotate c (slice_units n) (entered s)).1 = A ∧
      block_pos (block_slice_rotate c (slice_units n) (entered s)).2.mem A = block_pos s.mem A ∧
      block_max (block_slice_rotate c (slice_units n) (entered s)).2.mem A =
        block_max s.mem A) ∨
      ((A = 0 ∨ block_pos s.mem A + slice_units n > block_max s.mem A) ∧
        block_ref (block_slice_rotate c (slice_units n) (entered s)).2.mem
          (block_slice_rotate c (slice_units n) (entered s)).1 = 1 ∧
        block_pos (block_slice_rotate c (slice_units n) (entered s)).2.mem
          (block_slice_rotate c (slice_units n) (entered s)).1 = 2 ∧
        block_max (block_slice_rotate c (slice_units n) (entered s)).2.mem
          (block_slice_rotate c (slice_units n) (entered s)).1 =
            c.FIO_MEMORY_BLOCK_SLICES - 1) := by
    by_cases hA : A = 0
    · exact Or.inr ⟨Or.inl hA, d2 (Or.inl hA) hblk0⟩
    · by_cases hf : block_pos s.mem A + slice_units n ≤ block_max s.mem A
      · have e := d1 hA hf
        rw [e]
        exact Or.inl ⟨hA, hf, rfl, rfl, rfl⟩
      · have hf' : block_pos (entered s).mem A + slice_units n > block_max (entered s).mem A := by
          show block_pos s.mem A + slice_units n > block_max s.mem A
          omega
        exact Or.inr ⟨Or.inr (by omega), d2 (Or.inr hf') hblk0⟩
  generalize (block_slice_rotate c (slice_units n) (entered s)).1 = blk at *
  generalize hs2 : (block_slice_rotate c (slice_units n) (entered s)).2 = s2 at *
  obtain ⟨k1, k2, k3, k4, k5⟩ := block_slice_cut_detail c hc hp s2 live blk (slice_units n) q3
    hblk0 hfit hu1
  obtain ⟨hbok, _, hmaxlt⟩ := q3.active hblk0
  have hpos2 : 2 ≤ block_pos s2.mem blk := by
    have := (q3.refs blk hbok (by rw [if_pos rfl]; omega)).2
    omega
  have hidx : (block_slice_cut c (slice_units n) blk s2).2.arena_last_used.getD 0 = 0 := by
    have c4 := (block_slice_cut_core c hc hp s2 live blk (slice_units n) q3 hblk0 hfit hu1).2.2.2.1
    rw [c4]
    exact hcur2
  have hex := arena_exit_frame (block_slice_cut c (slice_units n) blk s2).2
  have hcurf : cur_arena (arena_exit (block_slice_cut c (slice_units n) blk s2).2) = 0 := by
    unfold cur_arena
    rw [hex.2.2.2.1]
    exact hidx
  have hexa : (arena_exit (block_slice_cut c (slice_units n) blk s2).2).arenas =
      setLock (block_slice_cut c (slice_units n) blk s2).2.arenas 0 false := by
    rw [hex.2.2.2.2.1, hidx]
  refine ⟨blk, block_pos s2.mem blk,
    (if block_max (arena_exit (block_slice_cut c (slice_units n) blk s2).2).mem blk ≤
      block_pos s2.mem blk + slice_units n then 0 else blk), hbok, k1, hpos2, ?_, ?_, ?_, rfl,
    ?_, hcurf, ?_, ?_⟩
  · rw [hex.2.2.1, k3]
    exact hfit
  · rw [hex.2.2.1, k3]
    exact hmaxlt
  · rw [hex.2.2.1]
    exact k2
  · rw [hex.2.2.1, k3]
    by_cases hge : block_max s2.mem blk ≤ block_pos s2.mem blk + slice_units n
    · rw [if_pos hge]
      have harn := (k5 hge).2
      have hshc : Shape (block_slice_cut c (slice_units n) blk s2).2 0 true :=
        q2.setBlock 0 (by rw [harn, hcur2])
      exact hshc.setLock false hexa
    · rw [if_neg hge]
      have harn := (k4 (by omega)).2
      have hshc : Shape (block_slice_cut c (slice_units n) blk s2).2 blk true := q2.same harn
      exact hshc.setLock false hexa
  · rw [hex.2.2.1, k3]
    by_cases hge : block_max s2.mem blk ≤ block_pos s2.mem blk + slice_units n
    · rw [if_pos hge]
      exact (k5 hge).1.congr hex.1 hex.2.1 hex.2.2.1
    · rw [if_neg hge]
      exact (k4 (by omega)).1.congr hex.1 hex.2.1 hex.2.2.1
  · rw [hex.2.2.1, k3]
    rcases hrotcase with ⟨hA, hf, eb, ep, em⟩ | ⟨hrot, e1, e2, e3⟩
    · subst eb
      exact Or.inl ⟨hA, hf, rfl, ep, em⟩
    · refine Or.inr ⟨hrot, e2, e3, ?_⟩
      have := (q3.refs blk hbok (by rw [if_pos rfl]; omega)).1
      rw [if_pos rfl, e1] at this
      omega

/-! ## Block rotation -/

/-- A small `fio_malloc` that finds room in the arena's block returns a
pointer. -/
theorem fio_malloc_fit_ne (c : Config) (hc : c.ok) (hp : c.paged) (hl : c.limit_fits)
    (s : State) (live : List Nat) (A : Nat) (hsh : Shape s A false) (hcur : cur_arena s = 0)
    (h : Core c s live A) (fuel n : Nat) (h0 : 0 < n) (hn : n < c.FIO_MEMORY_BLOCK_ALLOC_LIMIT)
    (hA : A ≠ 0) (hfit : block_pos s.mem A + slice_units n ≤ block_max s.mem A) :
    ∃ r, fio_malloc c fuel n s = some r ∧ r.1 ≠ 0 := by
  obtain ⟨hmod, hu1, hu2⟩ := small_units_eq c hc hl n h0 hn
  have hl0 : arenaLocked s.arenas (cur_arena s) = false := by
    rw [hcur]
    exact hsh.locked
  refine ⟨_, fio_malloc_small c fuel n s hl0 h0 hn, ?_⟩
  dsimp only
  rw [hmod]
  have hsh1 : Shape (entered s) A true := hsh.setLock true (by unfold entered; rw [hcur])
  have hcore1 : Core c (entered s) live A := h.congr rfl rfl rfl
  have d1 := (block_slice_rotate_detail c hc hp (entered s) live A true hcore1 hsh1 hcur
    (slice_units n)).1 hA hfit
  delta block_slice
  dsimp only
  rw [d1]
  dsimp only
  rw [if_neg hA, block_slice_cut_fst]
  omega

theorem malloc_seq_succ (c : Config) (fuel n k : Nat) (s : State) (r : Nat × State)
    (q : List Nat × State) (hr : fio_malloc c fuel n s = some r)
    (hq : malloc_seq c fuel n k r.2 = some q) :
    malloc_seq c fuel n (k + 1) s = some (r.1 :: q.1, q.2) := by
  rw [malloc_seq, hr]
  dsimp only
  rw [hq]

/-- Allocations of one unit that fit the arena's block are cut from it one
after the other; the arena gives the block up when `pos` reaches `max`. -/
theorem malloc_seq_fit (c : Config) (hc : c.ok) (hp : c.paged) (hl : c.limit_fits)
    (h1 : 1 < c.FIO_MEMORY_BLOCK_ALLOC_LIMIT) (fuel b : Nat) (hb : b ≠ 0) (j : Nat) :
    ∀ (s : State) (live : List Nat) (P : Nat), Shape s b false → cur_arena s = 0 →
      Core c s live b → block_pos s.mem b = P →
      block_max s.mem b = c.FIO_MEMORY_BLOCK_SLICES - 1 →
      P < c.FIO_MEMORY_BLOCK_SLICES - 1 →
      P + j ≤ c.FIO_MEMORY_BLOCK_SLICES - 1 → 0 < sliceCount c live b →
      ∃ q live', malloc_seq c fuel 1 j s = some q ∧
        q.1 = (List.range j).map (fun i => b + 16 * (P + i)) ∧
        block_pos q.2.mem b = P + j ∧ block_max q.2.mem b = c.FIO_MEMORY_BLOCK_SLICES - 1 ∧
        Shape q.2 (if P + j < c.FIO_MEMORY_BLOCK_SLICES - 1 then b else 0) false ∧
        cur_arena q.2 = 0 ∧
        Core c q.2 live' (if P + j < c.FIO_MEMORY_BLOCK_SLICES - 1 then b else 0) ∧
        0 < sliceCount c live' b := by
  have hu : slice_units 1 = 1 := by decide
  induction j with
  | zero =>
    intro s live P hsh hcur hcore hpos hmax hlt hle hsc
    rw [Nat.add_zero, if_pos hlt]
    exact ⟨([], s), live, rfl, rfl, hpos, hmax, hsh, hcur, hcore, hsc⟩
  | succ j ih =>
    intro s live P hsh hcur hcore hpos hmax hlt hle hsc
    have hfit : block_pos s.mem b + slice_units 1 ≤ block_max s.mem b := by
      rw [hu, hpos, hmax]
      omega
    obtain ⟨r, hr, hne⟩ := fio_malloc_fit_ne c hc hp hl s live b hsh hcur hcore fuel 1
      (by omega) h1 hb hfit
    obtain ⟨blk, pos0, A', hbok, e1, _, _, _, e5, e6, e7, e8, e9, e10⟩ :=
      fio_malloc_success c hc hp hl s live b hsh hcur hcore fuel 1 (by omega) h1 r hr hne
    have hcase : blk = b ∧ pos0 = P ∧ block_max r.2.mem blk = c.FIO_MEMORY_BLOCK_SLICES - 1 := by
      rcases e10 with ⟨_, _, g1, g2, g3⟩ | ⟨g1, _⟩
      · exact ⟨g1, g2.trans hpos, g3.trans hmax⟩
      · rcases g1 with g1 | g1
        · exact absurd g1 hb
        · omega
    obtain ⟨eb, ep, em⟩ := hcase
    subst eb
    subst ep
    rw [hu] at e5
    rw [em, hu] at e6
    have hsc' : 0 < sliceCount c (r.1 :: live) blk := by
      have := sliceCount_cons_ge c r.1 live blk
      omega
    by_cases hlast : pos0 + 1 < c.FIO_MEMORY_BLOCK_SLICES - 1
    · rw [if_neg (by omega)] at e6
      subst e6
      obtain ⟨q, live', hq, g1, g2, g3, g4, g5, g6, g7⟩ :=
        ih r.2 (r.1 :: live) (pos0 + 1) e7 e8 e9 e5 em hlast (by omega) hsc'
      have hidx : pos0 + 1 + j = pos0 + (j + 1) := by omega
      rw [hidx] at g2 g4 g6
      refine ⟨(r.1 :: q.1, q.2), live', malloc_seq_succ c fuel 1 j s r q hr hq, ?_, g2, g3, g4,
        g5, g6, g7⟩
      dsimp only
      rw [g1, e1, List.range_succ_eq_map, List.map_cons, List.map_map]
      congr 1
      apply List.map_congr_left
      intro i _
      simp only [Function.comp]
      omega
    · have hj : j = 0 := by omega
      subst hj
      rw [if_pos (by omega)] at e6
      subst e6
      rw [if_neg (by omega)]
      refine ⟨([r.1], r.2), r.1 :: live, malloc_seq_succ c fuel 1 0 s r ([], r.2) hr rfl, ?_,
        e5, em, e7, e8, e9, hsc'⟩
      dsimp only
      rw [e1]
      rfl

/-- C13: in a build whose block size is a page multiple of at most `2 ^ 20`
bytes with `1 < LIMIT` and `LIMIT + 47` at most the block size, take a state of
a small-path history in which the arena's block slot is empty and in which
`fio_malloc(1)` returns a pointer, in the block `b`. Then the number
`N = (FIO_MEMORY_BLOCK_SLICES - 2) - (sizeof(block_s) >> 4) - 1` is positive
and at most `B / 16 - 3`; for every `k` from 1 to `N`, `k` consecutive
`fio_malloc(1)` calls return the slices of `b` at the positions `2, ..., k + 1`
and leave `pos = 2 + k`, with `b` still the arena's block when `k < N` and the
slot empty when `k = N` (where `pos` is `max`); and the next `fio_malloc(1)`
returns, and a pointer it returns is at position 2 of a block other than
`b`. -/
theorem block_rotation_count (c : Config) (hc : c.ok) (hp : c.paged) (hl : c.limit_fits)
    (h1 : 1 < c.FIO_MEMORY_BLOCK_ALLOC_LIMIT) (oracle : List (Option Nat)) (cpu_count : Nat)
    (hcpu : 0 < cpu_count) (s0 : State)
    (hinit : fio_mem_init c cpu_count (boot oracle) = some s0) (fuel : Nat)
    (history : List Call) (s : State) (live : List Nat)
    (hrun : small_run c fuel history (s0, []) = some (s, live))
    (hempty : arenaBlock s.arenas (cur_arena s) = 0) (r1 : Nat × State)
    (hr1 : fio_malloc c fuel 1 s = some r1) (hne : r1.1 ≠ 0) :
    0 < (c.FIO_MEMORY_BLOCK_SLICES - 2) - (sizeof_block_s >>> 4) - 1 ∧
      (c.FIO_MEMORY_BLOCK_SLICES - 2) - (sizeof_block_s >>> 4) - 1 ≤
        c.FIO_MEMORY_BLOCK_SIZE / 16 - 2 - 1 ∧
      (∀ k, 1 ≤ k → k ≤ (c.FIO_MEMORY_BLOCK_SLICES - 2) - (sizeof_block_s >>> 4) - 1 →
        ∃ q, malloc_seq c fuel 1 k s = some q ∧
          q.1 = (List.range k).map (fun i => blockOf c r1.1 + 16 * (2 + i)) ∧
          block_pos q.2.mem (blockOf c r1.1) = 2 + k ∧
          block_max q.2.mem (blockOf c r1.1) = c.FIO_MEMORY_BLOCK_SLICES - 1 ∧
          arenaBlock q.2.arenas (cur_arena q.2) =
            (if k < (c.FIO_MEMORY_BLOCK_SLICES - 2) - (sizeof_block_s >>> 4) - 1
              then blockOf c r1.1 else 0) ∧
          (k = (c.FIO_MEMORY_BLOCK_SLICES - 2) - (sizeof_block_s >>> 4) - 1 →
            (∃ r, fio_malloc c fuel 1 q.2 = some r) ∧
            ∀ r, fio_malloc c fuel 1 q.2 = some r → r.1 ≠ 0 →
              blockOf c r.1 ≠ blockOf c r1.1 ∧ r.1 = blockOf c r.1 + 16 * 2)) := by
  have hse := hc.size_eq
  have hsz : sizeof_block_s >>> 4 = 0 := by decide
  have hu : slice_units 1 = 1 := by decide
  have h0 : SmallInv c s0 [] := fio_mem_init_small c hc hp oracle cpu_count hcpu s0 hinit
  have hinv : SmallInv c s live := small_run_inv c hc hp hl fuel history (s0, []) (s, live) h0 hrun
  obtain ⟨A, hsh, hcur, hcore⟩ := hinv
  have hA : A = 0 := by
    rw [hcur, hsh.block] at hempty
    exact hempty
  subst hA
  obtain ⟨blk, pos0, A', hbok, e1, _, _, _, e5, e6, e7, e8, e9, e10⟩ :=
    fio_malloc_success c hc hp hl s live 0 hsh hcur hcore fuel 1 (by omega) h1 r1 hr1 hne
  have hcase : pos0 = 2 ∧ block_max r1.2.mem blk = c.FIO_MEMORY_BLOCK_SLICES - 1 := by
    rcases e10 with ⟨g0, _⟩ | ⟨_, g2, g3, _⟩
    · exact absurd rfl g0
    · exact ⟨g2, g3⟩
  obtain ⟨ep, em⟩ := hcase
  subst ep
  have hbo : blockOf c r1.1 = blk := by
    rw [e1]
    exact blockOf_add c blk _ hbok.2.1 (by omega)
  rw [hbo, hsz]
  rw [hu] at e5
  rw [em, hu] at e6
  have hsc' : 0 < sliceCount c (r1.1 :: live) blk := by
    rw [sliceCount_cons, if_pos hbo]
    omega
  have hdiv : c.FIO_MEMORY_BLOCK_SIZE / 16 = c.FIO_MEMORY_BLOCK_SLICES := by omega
  refine ⟨by omega, by omega, ?_⟩
  intro k hk1 hkN
  -- the state after `k` allocations, with its view
  have key : ∃ q live', malloc_seq c fuel 1 k s = some q ∧
      q.1 = (List.range k).map (fun i => blk + 16 * (2 + i)) ∧
      block_pos q.2.mem blk = 2 + k ∧ block_max q.2.mem blk = c.FIO_MEMORY_BLOCK_SLICES - 1 ∧
      Shape q.2 (if 2 + k < c.FIO_MEMORY_BLOCK_SLICES - 1 then blk else 0) false ∧
      cur_arena q.2 = 0 ∧
      Core c q.2 live' (if 2 + k < c.FIO_MEMORY_BLOCK_SLICES - 1 then blk else 0) ∧
      0 < sliceCount c live' blk := by
    obtain ⟨j, hj⟩ : ∃ j, k = j + 1 := ⟨k - 1, by omega⟩
    subst hj
    by_cases hlast : 2 + 1 < c.FIO_MEMORY_BLOCK_SLICES - 1
    · rw [if_neg (by omega)] at e6
      subst e6
      obtain ⟨q, live', hq, g1, g2, g3, g4, g5, g6, g7⟩ :=
        malloc_seq_fit c hc hp hl h1 fuel A' hbok.1 j r1.2 (r1.1 :: live) (2 + 1) e7 e8 e9 e5 em
          hlast (by omega) hsc'
      have hidx : 2 + 1 + j = 2 + (j + 1) := by omega
      rw [hidx] at g2 g4 g6
      refine ⟨(r1.1 :: q.1, q.2), live', malloc_seq_succ c fuel 1 j s r1 q hr1 hq, ?_, g2, g3,
        g4, g5, g6, g7⟩
      dsimp only
      rw [g1, e1, List.range_succ_eq_map, List.map_cons, List.map_map]
      congr 1
      apply List.map_congr_left
      intro i _
      simp only [Function.comp]
      omega
    · have hj : j = 0 := by omega
      subst hj
      rw [if_pos (by omega)] at e6
      subst e6
      rw [if_neg (by omega)]
      refine ⟨([r1.1], r1.2), r1.1 :: live, malloc_seq_succ c fuel 1 0 s r1 ([], r1.2) hr1 rfl,
        ?_, e5, em, e7, e8, e9, hsc'⟩
      dsimp only
      rw [e1]
      rfl
  obtain ⟨q, live', hq, g1, g2, g3, g4, g5, g6, g7⟩ := key
  refine ⟨q, hq, g1, g2, g3, ?_, ?_⟩
  · rw [g5, g4.block]
    by_cases hk : k < c.FIO_MEMORY_BLOCK_SLICES - 2 - 0 - 1
    · rw [if_pos hk, if_pos (by omega)]
    · rw [if_neg hk, if_neg (by omega)]
  · intro hkeq
    rw [if_neg (by omega)] at g4 g6
    obtain ⟨r, hr, _⟩ := fio_malloc_step c hc hp hl q.2 live' ⟨0, g4, g5, g6⟩ fuel 1 (by omega) h1
    refine ⟨⟨r, hr⟩, ?_⟩
    intro r' hr' hne'
    obtain ⟨blk', pos', A'', hbok', f1, _, _, _, _, _, _, _, _, f10⟩ :=
      fio_malloc_success c hc hp hl q.2 live' 0 g4 g5 g6 fuel 1 (by omega) h1 r' hr' hne'
    rcases f10 with ⟨g0, _⟩ | ⟨_, f2, _, f4⟩
    · exact absurd rfl g0
    · subst f2
      have hbo' : blockOf c r'.1 = blk' := by
        rw [f1]
        exact blockOf_add c blk' _ hbok'.2.1 (by omega)
      rw [hbo']
      refine ⟨?_, f1⟩
      intro e
      rw [e] at f4
      omega

theorem firstSlice_eq : fio_malloc defaultConfig 1 1 sampleState = some firstSlice :=
  some_getD _ _ (by decide)

/-- Witness for C13: the sample process, whose arena has no block yet. The
default build serves 4093 allocations from a block. -/
theorem block_rotation_count_witness :
    fio_malloc defaultConfig 1 1 sampleState = some firstSlice ∧ firstSlice.1 = 0x20000020 ∧
      0 < (defaultConfig.FIO_MEMORY_BLOCK_SLICES - 2) - (sizeof_block_s >>> 4) - 1 ∧
      (defaultConfig.FIO_MEMORY_BLOCK_SLICES - 2) - (sizeof_block_s >>> 4) - 1 = 4093 :=
  ⟨firstSlice_eq, by decide,
    (block_rotation_count defaultConfig defaultConfig_ok defaultConfig_paged
      defaultConfig_limit_fits (by decide) sampleOracle 1 (by decide) sampleState
      sampleState_init 1 [] sampleState [] rfl (by decide) firstSlice firstSlice_eq
      (by decide)).1, by decide⟩

/-! ## A refused small allocation -/

/-- A block whose first page is mapped keeps its header through a refused
`sys_alloc`, which changes no page. -/
theorem sys_alloc_null_frame (c : Config) (hc : c.ok) (hp : c.paged) (s : State)
    (h : (sys_alloc c c.FIO_MEMORY_BLOCK_SIZE 0 s).1 = 0) :
    (∀ pg, (sys_alloc c c.FIO_MEMORY_BLOCK_SIZE 0 s).2.mapped pg = s.mapped pg) ∧
      (∀ b, AddrOK c b → BlockMapped c s b →
        block_ref (sys_alloc c c.FIO_MEMORY_BLOCK_SIZE 0 s).2.mem b = block_ref s.mem b ∧
        block_pos (sys_alloc c c.FIO_MEMORY_BLOCK_SIZE 0 s).2.mem b = block_pos s.mem b ∧
        block_max (sys_alloc c c.FIO_MEMORY_BLOCK_SIZE 0 s).2.mem b = block_max s.mem b) := by
  obtain ⟨hpg1, _, hpg3⟩ := sys_alloc_pages c hc hp c.FIO_MEMORY_BLOCK_SIZE 0 s hp.dvd
  refine ⟨hpg1 h, fun b hb hm => ?_⟩
  apply hdr_of_low
  intro x h1 h2
  apply hpg3
  have h4 := hb.page hp
  have : x / 4096 = b / 4096 := by omega
  rw [this]
  exact hm _ (inPages_first c hc hp b h4)

/-- The state after `block_slice` found the arena without a usable block and
could not get a new one. -/
theorem block_slice_rotate_null (c : Config) (hc : c.ok) (hp : c.paged) (s : State)
    (live : List Nat) (A : Nat) (l : Bool) (h : Core c s live A) (hsh : Shape s A l)
    (hcur : cur_arena s = 0) (u : Nat) (hnull : (block_slice_rotate c u s).1 = 0) :
    (A = 0 ∨ block_pos s.mem A + u > block_max s.mem A) ∧
      s.available = [] ∧ (block_slice_rotate c u s).2.available = [] ∧
      (block_slice_rotate c u s).2.count = s.count ∧
      (block_slice_rotate c u s).2.arenas = setBlock s.arenas 0 0 ∧
      (block_slice_rotate c u s).2.arena_last_used = s.arena_last_used ∧
      (∀ b, AddrOK c b → BlockMapped c s b → b ≠ A →
        block_ref (block_slice_rotate c u s).2.mem b = block_ref s.mem b ∧
        block_pos (block_slice_rotate c u s).2.mem b = block_pos s.mem b ∧
        block_max (block_slice_rotate c u s).2.mem b = block_max s.mem b) ∧
      (A ≠ 0 →
        (block_ref s.mem A ≠ 1 →
          block_ref (block_slice_rotate c u s).2.mem A + 1 = block_ref s.mem A ∧
          block_pos (block_slice_rotate c u s).2.mem A = block_pos s.mem A ∧
          BlockMapped c (block_slice_rotate c u s).2 A) ∧
        (block_ref s.mem A = 1 → BlockFree c (block_slice_rotate c u s).2 A)) := by
  have hblk : arenaBlock s.arenas (cur_arena s) = A := by
    rw [hcur]
    exact hsh.block
  by_cases hA : A = 0
  · have hb0 : arenaBlock s.arenas (cur_arena s) = 0 := hblk.trans hA
    rw [rotate_empty c u s hb0] at hnull ⊢
    dsimp only at hnull ⊢
    obtain ⟨n1, n2, n3⟩ := block_new_null c s hnull (fun b hb => (h.pool b hb).1.1)
    rw [n3]
    have hst := sys_alloc_static c c.FIO_MEMORY_BLOCK_SIZE 0 s
    obtain ⟨_, hfr⟩ := sys_alloc_null_frame c hc hp s n2
    refine ⟨Or.inl hA, n1, hst.2.2.1.trans n1, hst.1, ?_, hst.2.2.2.2.2.2,
      fun b hb hm _ => hfr b hb hm, fun hne => absurd hA hne⟩
    show setBlock (sys_alloc c c.FIO_MEMORY_BLOCK_SIZE 0 s).2.arenas (cur_arena s)
      (block_new c s).1 = _
    rw [hst.2.2.2.2.2.1, hcur, hnull]
  · have hb0 : arenaBlock s.arenas (cur_arena s) ≠ 0 := by
      rw [hblk]
      exact hA
    by_cases hfull : block_pos s.mem (arenaBlock s.arenas (cur_arena s)) + u >
        block_max s.mem (arenaBlock s.arenas (cur_arena s))
    · rw [rotate_full c u s hb0 hfull] at hnull ⊢
      dsimp only at hnull ⊢
      rw [hblk] at hnull hfull ⊢
      have hAok := (h.active hA).1
      have hAm := (h.active hA).2.1
      have href := h.refs A hAok (by rw [if_pos rfl]; omega)
      obtain ⟨f1, _, _, _⟩ := block_free_core c hc hp s live live A 0 A h hAok
        (by rw [if_pos rfl]; omega) (Or.inr ⟨rfl, rfl⟩) (fun _ hpl => hpl)
        (by rw [if_neg hA, if_pos rfl]) (fun _ _ => rfl)
      obtain ⟨e_map, e_keep, e_zero⟩ := block_free_effect c hp A s hAok
        (by rw [href.1, if_pos rfl]; omega)
      obtain ⟨n1, n2, n3⟩ := block_new_null c (block_free c A s) hnull
        (fun b hb => (f1.pool b hb).1.1)
      rw [n3]
      have hst := sys_alloc_static c c.FIO_MEMORY_BLOCK_SIZE 0 (block_free c A s)
      obtain ⟨hmp, hfr⟩ := sys_alloc_null_frame c hc hp (block_free c A s) n2
      have hfra := block_free_frame c A s
      have hav : (block_free c A s).available = s.available := by
        rcases hfra.2.2.2.2.2.2 with e | e
        · exact e
        · rw [e] at n1
          exact List.noConfusion n1
      have hmo := block_free_memOnly c hc A s
      refine ⟨Or.inr hfull, hav ▸ n1, hst.2.2.1.trans n1,
        hst.1.trans (block_free_count c A s hav), ?_, hst.2.2.2.2.2.2.trans hfra.2.1, ?_,
        fun _ => ⟨?_, ?_⟩⟩
      · show setBlock (sys_alloc c c.FIO_MEMORY_BLOCK_SIZE 0 (block_free c A s)).2.arenas
          (cur_arena s) (block_new c (block_free c A s)).1 = _
        rw [hst.2.2.2.2.2.1, hfra.1, hcur, hnull]
      · intro b hb hm hne
        have hm1 : BlockMapped c (block_free c A s) b := by
          intro pg hpg
          rw [e_map pg (inPages_disjoint c hp hb hAok hne pg hpg)]
          exact hm pg hpg
        obtain ⟨r1, r2, r3⟩ := hfr b hb hm1
        obtain ⟨t1, t2, t3⟩ := hmo.hdr hc (fun t ht => (h.pool t ht).1) hAok hb hne
        exact ⟨r1.trans t1, r2.trans t2, r3.trans t3⟩
      · intro hr
        obtain ⟨_, emp, er, ep, _⟩ := e_keep hr
        have hm1 : BlockMapped c (block_free c A s) A := by
          intro pg hpg
          rw [emp]
          exact hAm pg hpg
        obtain ⟨r1, r2, _⟩ := hfr A hAok hm1
        refine ⟨by rw [r1]; exact er, r2.trans ep, ?_⟩
        intro pg hpg
        rw [hmp]
        exact hm1 pg hpg
      · intro hr
        rcases e_zero hr with ⟨e, _⟩ | ⟨_, efree⟩
        · rw [e] at n1
          exact List.noConfusion n1
        · intro pg hpg
          rw [hmp]
          exact efree pg hpg
    · exfalso
      rw [rotate_fit c u s hb0 hfull] at hnull
      exact hb0 hnull

/-- A small `fio_malloc` that returns `NULL`: the arena had no block with room,
the list was empty and the mapping was refused. The list, the counter and the
headers of the other mapped blocks are as before; the arena's slot is empty
afterwards, and a block it held was released. -/
theorem fio_malloc_null (c : Config) (hc : c.ok) (hp : c.paged) (hl : c.limit_fits)
    (s : State) (live : List Nat) (A : Nat) (hsh : Shape s A false) (hcur : cur_arena s = 0)
    (h : Core c s live A) (fuel n : Nat) (h0 : 0 < n) (hn : n < c.FIO_MEMORY_BLOCK_ALLOC_LIMIT)
    (r : Nat × State) (hr : fio_malloc c fuel n s = some r) (hnull : r.1 = 0) :
    (A = 0 ∨ block_pos s.mem A + slice_units n > block_max s.mem A) ∧
      s.available = [] ∧ r.2.available = [] ∧ r.2.count = s.count ∧
      r.2.arenas = setLock (setBlock (setLock s.arenas 0 true) 0 0) 0 false ∧
      cur_arena r.2 = 0 ∧
      (∀ b, AddrOK c b → BlockMapped c s b → b ≠ A →
        block_ref r.2.mem b = block_ref s.mem b ∧ block_pos r.2.mem b = block_pos s.mem b ∧
        block_max r.2.mem b = block_max s.mem b) ∧
      (A ≠ 0 →
        (block_ref s.mem A ≠ 1 →
          block_ref r.2.mem A + 1 = block_ref s.mem A ∧
          block_pos r.2.mem A = block_pos s.mem A ∧ BlockMapped c r.2 A) ∧
        (block_ref s.mem A = 1 → BlockFree c r.2 A)) := by
  obtain ⟨hmod, hu1, hu2⟩ := small_units_eq c hc hl n h0 hn
  have hl0 : arenaLocked s.arenas (cur_arena s) = false := by
    rw [hcur]
    exact hsh.locked
  rw [fio_malloc_small c fuel n s hl0 h0 hn, hmod] at hr
  have hr' := (Option.some.inj hr).symm
  subst hr'
  dsimp only at hnull ⊢
  have hsh1 : Shape (entered s) A true := hsh.setLock true (by unfold entered; rw [hcur])
  have hcur1 : cur_arena (entered s) = 0 := hcur
  have hcore1 : Core c (entered s) live A := h.congr rfl rfl rfl
  have hrot0 : (block_slice_rotate c (slice_units n) (entered s)).1 = 0 := by
    by_contra hne
    have hbs : (block_slice c (slice_units n) (entered s)).1 =
        (block_slice_cut c (slice_units n) (block_slice_rotate c (slice_units n) (entered s)).1
          (block_slice_rotate c (slice_units n) (entered s)).2).1 := by
      delta block_slice
      dsimp only
      rw [if_neg hne]
    rw [hbs, block_slice_cut_fst] at hnull
    omega
  have hbs : (block_slice c (slice_units n) (entered s)).2 =
      (block_slice_rotate c (slice_units n) (entered s)).2 := by
    delta block_slice
    dsimp only
    rw [if_pos hrot0]
  rw [hbs]
  obtain ⟨k1, k2, k3, k4, k5, k6, k7, k8⟩ := block_slice_rotate_null c hc hp (entered s) live A
    true hcore1 hsh1 hcur1 (slice_units n) hrot0
  have hex := arena_exit_frame (block_slice_rotate c (slice_units n) (entered s)).2
  have hidx : (block_slice_rotate c (slice_units n) (entered s)).2.arena_last_used.getD 0 = 0 := by
    rw [k6]
    exact hcur
  have hbm : ∀ b, BlockMapped c (arena_exit (block_slice_rotate c (slice_units n)
      (entered s)).2) b = BlockMapped c (block_slice_rotate c (slice_units n) (entered s)).2 b := by
    intro b
    unfold BlockMapped
    rw [hex.2.1]
  have hbf : ∀ b, BlockFree c (arena_exit (block_slice_rotate c (slice_units n)
      (entered s)).2) b = BlockFree c (block_slice_rotate c (slice_units n) (entered s)).2 b := by
    intro b
    unfold BlockFree
    rw [hex.2.1]
  refine ⟨k1, k2, hex.1.trans k3, hex.2.2.2.2.2.trans k4, ?_, ?_, ?_, ?_⟩
  · rw [hex.2.2.2.2.1, hidx, k5]
    unfold entered
    rw [hcur]
  · unfold cur_arena
    rw [hex.2.2.2.1]
    exact hidx
  · intro b hb hm hne
    rw [hex.2.2.1]
    exact k7 b hb hm hne
  · intro hA
    rw [hex.2.2.1, hbm, hbf]
    exact k8 hA

/-- C17, as the code has it: in a build whose block size is a page multiple of
at most `2 ^ 20` bytes with `LIMIT + 47` at most the block size, when a small
`fio_malloc` in a small-path history returns `NULL`, the recycled list was
empty and is empty, `memory.count` is as before, and every mapped block other
than the arena's block has its `ref`, `pos` and `max` as before. When the
arena's slot was empty the arena array is as before. When the arena held a
block, that block had no room for the request and was released before the new
block was asked for: the slot is empty afterwards, and the block's `ref` is one
lower with `pos` unchanged, or, when the arena was its last holder, the block is
unmapped. -/
theorem small_malloc_failure (c : Config) (hc : c.ok) (hp : c.paged) (hl : c.limit_fits)
    (oracle : List (Option Nat)) (cpu_count : Nat) (hcpu : 0 < cpu_count) (s0 : State)
    (hinit : fio_mem_init c cpu_count (boot oracle) = some s0) (fuel : Nat)
    (history : List Call) (s : State) (live : List Nat)
    (hrun : small_run c fuel history (s0, []) = some (s, live)) (n : Nat) (h0 : 0 < n)
    (hn : n < c.FIO_MEMORY_BLOCK_ALLOC_LIMIT) (r : Nat × State)
    (hr : fio_malloc c fuel n s = some r) (hnull : r.1 = 0) :
    s.available = [] ∧ r.2.available = s.available ∧ r.2.count = s.count ∧
      (∀ b, AddrOK c b → BlockMapped c s b → b ≠ arenaBlock s.arenas (cur_arena s) →
        block_ref r.2.mem b = block_ref s.mem b ∧ block_pos r.2.mem b = block_pos s.mem b ∧
        block_max r.2.mem b = block_max s.mem b) ∧
      (arenaBlock s.arenas (cur_arena s) = 0 → r.2.arenas = s.arenas) ∧
      (arenaBlock s.arenas (cur_arena s) ≠ 0 →
        block_pos s.mem (arenaBlock s.arenas (cur_arena s)) + slice_units n >
          block_max s.mem (arenaBlock s.arenas (cur_arena s)) ∧
        arenaBlock r.2.arenas (cur_arena r.2) = 0 ∧
        (block_ref s.mem (arenaBlock s.arenas (cur_arena s)) ≠ 1 →
          block_ref r.2.mem (arenaBlock s.arenas (cur_arena s)) + 1 =
            block_ref s.mem (arenaBlock s.arenas (cur_arena s)) ∧
          block_pos r.2.mem (arenaBlock s.arenas (cur_arena s)) =
            block_pos s.mem (arenaBlock s.arenas (cur_arena s)) ∧
          rangeMapped r.2.mapped (arenaBlock s.arenas (cur_arena s))
            c.FIO_MEMORY_BLOCK_SIZE = true) ∧
        (block_ref s.mem (arenaBlock s.arenas (cur_arena s)) = 1 →
          rangeFree r.2.mapped (arenaBlock s.arenas (cur_arena s))
            c.FIO_MEMORY_BLOCK_SIZE = true)) := by
  have hi : SmallInv c s0 [] := fio_mem_init_small c hc hp oracle cpu_count hcpu s0 hinit
  have hinv : SmallInv c s live := small_run_inv c hc hp hl fuel history (s0, []) (s, live) hi hrun
  obtain ⟨A, hsh, hcur, hcore⟩ := hinv
  have hblk : arenaBlock s.arenas (cur_arena s) = A := by
    rw [hcur]
    exact hsh.block
  rw [hblk]
  obtain ⟨k1, k2, k3, k4, k5, k6, k7, k8⟩ :=
    fio_malloc_null c hc hp hl s live A hsh hcur hcore fuel n h0 hn r hr hnull
  obtain ⟨k, hk⟩ := hsh
  refine ⟨k2, k3.trans k2.symm, k4, k7, ?_, ?_⟩
  · intro hA
    rw [k5, hk, hA]
    rfl
  · intro hA
    have harn : arenaBlock r.2.arenas (cur_arena r.2) = 0 := by
      rw [k6, k5, hk]
      rfl
    have hfull : block_pos s.mem A + slice_units n > block_max s.mem A := by
      rcases k1 with h1 | h1
      · exact absurd h1 hA
      · exact h1
    obtain ⟨g1, g2⟩ := k8 hA
    refine ⟨hfull, harn, fun hr1 => ?_, fun hr1 => ?_⟩
    · obtain ⟨a1, a2, a3⟩ := g1 hr1
      exact ⟨a1, a2, (rangeMapped_iff _ _ _).2 a3⟩
    · exact (rangeFree_iff _ _ _).2 (g2 hr1)

theorem oomState_init : fio_mem_init defaultConfig 1 (boot [some 0x10000000]) = some oomState :=
  some_getD _ _ (by decide)

theorem oomSmall_eq : fio_malloc defaultConfig 1 1 oomState = some oomSmall :=
  some_getD _ _ (by decide)

/-- Witness for C17: `fio_malloc(1)` in a process whose list is empty and whose
kernel refuses the mapping. -/
theorem small_malloc_failure_witness :
    fio_malloc defaultConfig 1 1 oomState = some oomSmall ∧ oomSmall.1 = 0 ∧
      oomSmall.2.available = oomState.available ∧ oomSmall.2.count = oomState.count :=
  ⟨oomSmall_eq, by decide,
    ((small_malloc_failure defaultConfig defaultConfig_ok defaultConfig_paged
      defaultConfig_limit_fits [some 0x10000000] 1 (by decide) oomState oomState_init 1 []
      oomState [] rfl 1 (by decide) (by decide) oomSmall oomSmall_eq (by decide)).2.1),
    ((small_malloc_failure defaultConfig defaultConfig_ok defaultConfig_paged
      defaultConfig_limit_fits [some 0x10000000] 1 (by decide) oomState oomState_init 1 []
      oomState [] rfl 1 (by decide) (by decide) oomSmall oomSmall_eq (by decide)).2.2.1)⟩

/-! ## Slices of a block -/

theorem takes_new_block_iff (units : Nat) (s : State) (A : Nat)
    (hA : arenaBlock s.arenas (cur_arena s) = A) :
    takes_new_block units s = true ↔ (A = 0 ∨ block_pos s.mem A + units > block_max s.mem A) := by
  unfold takes_new_block
  rw [hA]
  simp

/-- Releasing an outstanding slice leaves `pos` of the arena's block alone. -/
theorem fio_free_active_pos (c : Config) (hc : c.ok) (hp : c.paged) (s : State)
    (live : List Nat) (A : Nat) (h : Core c s live A) (hA : A ≠ 0) (p : Nat) (hpl : p ∈ live) :
    block_pos (fio_free c p s).mem A = block_pos s.mem A := by
  obtain ⟨hb, h32, _⟩ := h.live_ok p hpl
  obtain ⟨hAok, _, _⟩ := h.active hA
  rw [fio_free_small c hc p s hb h32]
  by_cases e : blockOf c p = A
  · rw [e]
    have hsp := sliceCount_pos_of_mem c live p hpl
    rw [e] at hsp
    have href := (h.refs A hAok (by rw [if_pos rfl]; omega)).1
    rw [if_pos rfl] at href
    obtain ⟨_, e_keep, _⟩ := block_free_effect c hp A s hAok (by omega)
    exact (e_keep (by omega)).2.2.2.1
  · exact ((block_free_memOnly c hc (blockOf c p) s).hdr hc (fun t ht => (h.pool t ht).1) hb
      hAok (fun e2 => e e2.symm)).2.1

theorem Shape.unique {s : State} {A A' : Nat} {l l' : Bool} (h : Shape s A l)
    (h' : Shape s A' l') : A = A' := by
  obtain ⟨k, e⟩ := h
  obtain ⟨k', e'⟩ := h'
  rw [e] at e'
  have := (List.cons.inj e').1
  exact congrArg arena_s.block this

theorem blockOf_slice (c : Config) (hc : c.ok) (blk pos0 : Nat) (hb : AddrOK c blk)
    (hlt : pos0 < c.FIO_MEMORY_BLOCK_SLICES) :
    blockOf c (blk + 16 * pos0) = blk ∧
      (blk + 16 * pos0) % c.FIO_MEMORY_BLOCK_SIZE = 16 * pos0 := by
  have hse := hc.size_eq
  exact ⟨blockOf_add c blk _ hb.2.1 (by omega), add_mod_block _ _ _ hb.2.1 (by omega)⟩

/-- A small `fio_malloc` keeps the record of the slices sound. -/
theorem fio_malloc_cuts (c : Config) (hc : c.ok) (hp : c.paged) (hl : c.limit_fits)
    (s : State) (live : List Nat) (A : Nat) (cuts : List (Nat × Nat)) (hsh : Shape s A false)
    (hcur : cur_arena s = 0) (h : Core c s live A) (hcut : CutsInv c s live A cuts)
    (fuel n : Nat) (h0 : 0 < n) (hn : n < c.FIO_MEMORY_BLOCK_ALLOC_LIMIT) (r : Nat × State)
    (hr : fio_malloc c fuel n s = some r) :
    ∃ A', Shape r.2 A' false ∧ cur_arena r.2 = 0 ∧
      Core c r.2 (if r.1 = 0 then live else r.1 :: live) A' ∧
      CutsInv c r.2 (if r.1 = 0 then live else r.1 :: live) A'
        (if r.1 = 0 then cuts else record_cut c n r.1 s cuts) := by
  have hse := hc.size_eq
  obtain ⟨hmod, hu1, hu2⟩ := small_units_eq c hc hl n h0 hn
  have hblk : arenaBlock s.arenas (cur_arena s) = A := by
    rw [hcur]
    exact hsh.block
  by_cases hnull : r.1 = 0
  · rw [if_pos hnull, if_pos hnull]
    obtain ⟨r', hr', hinv, _⟩ := fio_malloc_step c hc hp hl s live ⟨A, hsh, hcur, h⟩ fuel n h0 hn
    rw [hr] at hr'
    have := Option.some.inj hr'
    subst this
    rw [if_pos hnull] at hinv
    obtain ⟨A'', g1, g2, g3⟩ := hinv
    obtain ⟨_, _, _, _, k5, _⟩ := fio_malloc_null c hc hp hl s live A hsh hcur h fuel n h0 hn r
      hr hnull
    have hs0 : Shape r.2 0 false := by
      obtain ⟨k, hk⟩ := hsh
      refine ⟨k, ?_⟩
      rw [k5, hk]
      rfl
    have hA'' : A'' = 0 := g1.unique hs0
    subst hA''
    exact ⟨0, g1, g2, g3, hcut.inside, hcut.apart, fun h0 => absurd rfl h0, hcut.recorded⟩
  · rw [if_neg hnull, if_neg hnull]
    obtain ⟨blk, pos0, A', hbok, e1, e2, e3, e4, e5, e6, e7, e8, e9, e10⟩ :=
      fio_malloc_success c hc hp hl s live A hsh hcur h fuel n h0 hn r hr hnull
    obtain ⟨hbo, hmodp⟩ := blockOf_slice c hc blk pos0 hbok (by omega)
    rw [← e1] at hbo hmodp
    -- the rest of the record after the call
    have hbase : ∀ e ∈ (if takes_new_block (slice_units n % 65536) s then
        cuts.filter fun e => blockOf c e.1 != blockOf c r.1 else cuts),
        e ∈ cuts ∧ (blockOf c e.1 = blk → e.1 + e.2 ≤ r.1) := by
      intro e he
      rw [hmod] at he
      rcases e10 with ⟨hA, hfit, g1, g2, _⟩ | ⟨hrot, _⟩
      · have hf : takes_new_block (slice_units n) s = false := by
          rw [Bool.eq_false_iff]
          intro ht
          rcases (takes_new_block_iff _ s A hblk).1 ht with h1 | h1
          · exact hA h1
          · omega
        rw [hf] at he
        refine ⟨he, fun hb => ?_⟩
        have := hcut.below hA e he (hb.trans g1)
        rw [e1, g1, g2]
        exact this
      · have ht : takes_new_block (slice_units n) s = true :=
          (takes_new_block_iff _ s A hblk).2 hrot
        rw [ht, if_pos rfl, List.mem_filter] at he
        refine ⟨he.1, fun hb => ?_⟩
        have := he.2
        rw [hbo, hb] at this
        simp at this
    refine ⟨A', e7, e8, e9, ?_, ?_, ?_, ?_⟩
    · intro e he
      unfold record_cut at he
      rcases List.mem_cons.1 he with e0 | e0
      · rw [e0]
        dsimp only
        rw [hmodp]
        omega
      · exact hcut.inside e (hbase e e0).1
    · unfold record_cut
      rw [List.pairwise_cons]
      constructor
      · intro e he hb
        dsimp only at hb ⊢
        exact Or.inr ((hbase e he).2 (hb.symm.trans hbo))
      · split
        · exact hcut.apart.filter _
        · exact hcut.apart
    · intro hA' e he hb
      have hA'b : A' = blk := by
        rw [e6] at hA' ⊢
        split at hA'
        · exact absurd rfl hA'
        · rename_i hh
          rw [if_neg hh]
      rw [hA'b] at hb ⊢
      rw [e5]
      unfold record_cut at he
      rcases List.mem_cons.1 he with e0 | e0
      · rw [e0]
        dsimp only
        rw [e1]
        omega
      · have := (hbase e e0).2 hb
        rw [e1] at this
        omega
    · intro p hpl
      unfold record_cut
      rcases List.mem_cons.1 hpl with e0 | e0
      · exact ⟨16 * slice_units n, by rw [e0]; exact List.mem_cons_self _ _⟩
      · obtain ⟨len, hlen⟩ := hcut.recorded p e0
        refine ⟨len, List.mem_cons_of_mem _ ?_⟩
        rw [hmod]
        rcases e10 with ⟨hA, hfit, g1, g2, _⟩ | ⟨hrot, _, _, hsc⟩
        · have hf : takes_new_block (slice_units n) s = false := by
            rw [Bool.eq_false_iff]
            intro ht
            rcases (takes_new_block_iff _ s A hblk).1 ht with h1 | h1
            · exact hA h1
            · omega
          rw [hf]
          exact hlen
        · have ht : takes_new_block (slice_units n) s = true :=
            (takes_new_block_iff _ s A hblk).2 hrot
          rw [ht, if_pos rfl, List.mem_filter]
          refine ⟨hlen, ?_⟩
          have hpos := sliceCount_pos_of_mem c live p e0
          have hne : blockOf c p ≠ blk := by
            intro e
            rw [e] at hpos
            omega
          rw [hbo]
          simpa using hne

theorem slice_step_inv (c : Config) (hc : c.ok) (hp : c.paged) (hl : c.limit_fits)
    (fuel : Nat) (k : Call) (x y : (State × List Nat) × List (Nat × Nat)) (h : SliceInv c x)
    (hk : slice_step c fuel k x = some y) : SliceInv c y := by
  obtain ⟨A, hsh, hcur, hcore, hcut⟩ := h
  unfold slice_step at hk
  split at hk
  · exact Option.noConfusion hk
  · rename_i y1 hy1
    cases k with
    | malloc n =>
      dsimp only at hk
      split at hk
      · exact Option.noConfusion hk
      · rename_i r hr
        have hk' := (Option.some.inj hk).symm
        subst hk'
        unfold small_step at hy1
        dsimp only at hy1
        split at hy1
        · rename_i hn
          rw [hr] at hy1
          have hy := (Option.some.inj hy1).symm
          subst hy
          exact fio_malloc_cuts c hc hp hl x.1.1 x.1.2 A x.2 hsh hcur hcore hcut fuel n hn.1 hn.2
            r hr
        · exact Option.noConfusion hy1
    | free p =>
      have hk' := (Option.some.inj hk).symm
      subst hk'
      unfold small_step at hy1
      dsimp only at hy1
      split at hy1
      · rename_i hp0
        have hy := (Option.some.inj hy1).symm
        subst hy
        subst hp0
        rw [fio_free_null]
        exact ⟨A, hsh, hcur, hcore, hcut⟩
      · split at hy1
        · rename_i hin
          have hy := (Option.some.inj hy1).symm
          subst hy
          obtain ⟨hinv, _⟩ := fio_free_step c hc hp x.1.1 x.1.2 ⟨A, hsh, hcur, hcore⟩ p hin
          obtain ⟨A'', g1, g2, g3⟩ := hinv
          obtain ⟨hb, h32, _⟩ := hcore.live_ok p hin
          have harn : (fio_free c p x.1.1).arenas = x.1.1.arenas := by
            rw [fio_free_small c hc p x.1.1 hb h32]
            exact (block_free_frame c _ _).1
          have hA : A'' = A := g1.unique (hsh.same harn)
          subst hA
          refine ⟨A'', g1, g2, g3, hcut.inside, hcut.apart, ?_, ?_⟩
          · intro hA e he hb'
            show _ ≤ A'' + 16 * block_pos (fio_free c p x.1.1).mem A''
            rw [fio_free_active_pos c hc hp x.1.1 x.1.2 A'' hcore hA p hin]
            exact hcut.below hA e he hb'
          · intro q hq
            exact hcut.recorded q (List.mem_of_mem_erase hq)
        · exact Option.noConfusion hy1
    | calloc a b => exact Option.noConfusion hy1
    | realloc a b => exact Option.noConfusion hy1
    | realloc2 a b d => exact Option.noConfusion hy1

theorem slice_run_inv (c : Config) (hc : c.ok) (hp : c.paged) (hl : c.limit_fits)
    (fuel : Nat) (history : List Call) :
    ∀ x y : (State × List Nat) × List (Nat × Nat), SliceInv c x →
      slice_run c fuel history x = some y → SliceInv c y := by
  induction history with
  | nil =>
    intro x y h hr
    simp only [slice_run, Option.some.injEq] at hr
    subst hr
    exact h
  | cons k ks ih =>
    intro x y h hr
    rw [slice_run] at hr
    split at hr
    · exact Option.noConfusion hr
    · rename_i z hz
      exact ih z y (slice_step_inv c hc hp hl fuel k x z h hz) hr

/-- C12: in a build whose block size is a page multiple of at most `2 ^ 20`
bytes with `LIMIT + 47` at most the block size, after `fio_mem_init` and every
sequential history of small `fio_malloc` and `fio_free` calls without double
free, with `cuts` the slices cut from each block since the call that last took
it as a new block: every such slice lies inside its block past the first 32
bytes, so past the header; any two of them in the same block occupy disjoint
byte ranges; every outstanding slice is among them; the slices of the arena's
block end at or before its `pos`; and a further small `fio_malloc` that takes no
new block cuts at `pos` of the arena's block and raises `pos` by its units,
while one that takes a new block cuts at position 2 of it. -/
theorem slices_disjoint (c : Config) (hc : c.ok) (hp : c.paged) (hl : c.limit_fits)
    (oracle : List (Option Nat)) (cpu_count : Nat) (hcpu : 0 < cpu_count) (s0 : State)
    (hinit : fio_mem_init c cpu_count (boot oracle) = some s0) (fuel : Nat)
    (history : List Call) (s : State) (live : List Nat) (cuts : List (Nat × Nat))
    (hrun : slice_run c fuel history ((s0, []), []) = some ((s, live), cuts)) :
    (∀ e ∈ cuts, 32 ≤ e.1 % c.FIO_MEMORY_BLOCK_SIZE ∧
      e.1 % c.FIO_MEMORY_BLOCK_SIZE + e.2 ≤ c.FIO_MEMORY_BLOCK_SIZE ∧ 0 < e.2) ∧
    cuts.Pairwise (fun e1 e2 => blockOf c e1.1 = blockOf c e2.1 →
      e1.1 + e1.2 ≤ e2.1 ∨ e2.1 + e2.2 ≤ e1.1) ∧
    (∀ p ∈ live, ∃ len, (p, len) ∈ cuts) ∧
    (arenaBlock s.arenas (cur_arena s) ≠ 0 → ∀ e ∈ cuts,
      blockOf c e.1 = arenaBlock s.arenas (cur_arena s) →
      e.1 + e.2 ≤ arenaBlock s.arenas (cur_arena s) +
        16 * block_pos s.mem (arenaBlock s.arenas (cur_arena s))) ∧
    (∀ n r, 0 < n → n < c.FIO_MEMORY_BLOCK_ALLOC_LIMIT → fio_malloc c fuel n s = some r →
      r.1 ≠ 0 →
      (takes_new_block (slice_units n % 65536) s = false →
        r.1 = arenaBlock s.arenas (cur_arena s) +
          16 * block_pos s.mem (arenaBlock s.arenas (cur_arena s)) ∧
        block_pos r.2.mem (arenaBlock s.arenas (cur_arena s)) =
          block_pos s.mem (arenaBlock s.arenas (cur_arena s)) + slice_units n) ∧
      (takes_new_block (slice_units n % 65536) s = true →
        r.1 = blockOf c r.1 + 16 * 2 ∧
        block_pos r.2.mem (blockOf c r.1) = 2 + slice_units n)) := by
  have hse := hc.size_eq
  have hi : SmallInv c s0 [] := fio_mem_init_small c hc hp oracle cpu_count hcpu s0 hinit
  have h0 : SliceInv c ((s0, []), []) := by
    obtain ⟨A, g1, g2, g3⟩ := hi
    exact ⟨A, g1, g2, g3, fun e he => absurd he (List.not_mem_nil _), List.Pairwise.nil,
      fun _ e he => absurd he (List.not_mem_nil _), fun p hp => absurd hp (List.not_mem_nil _)⟩
  obtain ⟨A, hsh, hcur, hcore, hcut⟩ := slice_run_inv c hc hp hl fuel history _ _ h0 hrun
  dsimp only at hsh hcur hcore hcut
  have hblk : arenaBlock s.arenas (cur_arena s) = A := by
    rw [hcur]
    exact hsh.block
  rw [hblk]
  refine ⟨hcut.inside, hcut.apart, hcut.recorded, hcut.below, ?_⟩
  intro n r hn0 hn hr hne
  obtain ⟨hmod, hu1, hu2⟩ := small_units_eq c hc hl n hn0 hn
  rw [hmod]
  obtain ⟨blk, pos0, A', hbok, e1, e2, e3, e4, e5, e6, e7, e8, e9, e10⟩ :=
    fio_malloc_success c hc hp hl s live A hsh hcur hcore fuel n hn0 hn r hr hne
  obtain ⟨hbo, _⟩ := blockOf_slice c hc blk pos0 hbok (by omega)
  rw [← e1] at hbo
  refine ⟨fun hf => ?_, fun ht => ?_⟩
  · rcases e10 with ⟨hA, hfit, g1, g2, _⟩ | ⟨hrot, _⟩
    · subst g1
      subst g2
      exact ⟨e1, e5⟩
    · rw [(takes_new_block_iff _ s A hblk).2 hrot] at hf
      exact Bool.noConfusion hf
  · rcases e10 with ⟨hA, hfit, g1, g2, _⟩ | ⟨hrot, g2, _⟩
    · exfalso
      rcases (takes_new_block_iff _ s A hblk).1 ht with h1 | h1
      · exact hA h1
      · omega
    · rw [hbo]
      rw [g2] at e1 e5
      exact ⟨e1, e5⟩

theorem sliceFinal_run :
    slice_run defaultConfig 1 [.malloc 100, .malloc 40, .free 0x20000020]
      ((sampleState, []), []) = some sliceFinal :=
  some_getD _ _ (by decide)

/-- Witness for C12: two allocations and one release in the sample process; the
record holds the slices `[0x20000020, 0x20000090)` and
`[0x20000090, 0x200000c0)`. -/
theorem slices_disjoint_witness :
    slice_run defaultConfig 1 [.malloc 100, .malloc 40, .free 0x20000020]
        ((sampleState, []), []) = some sliceFinal ∧
      sliceFinal.2 = [(0x20000090, 48), (0x20000020, 112)] ∧
      sliceFinal.2.Pairwise (fun e1 e2 => blockOf defaultConfig e1.1 = blockOf defaultConfig e2.1 →
        e1.1 + e1.2 ≤ e2.1 ∨ e2.1 + e2.2 ≤ e1.1) :=
  ⟨sliceFinal_run, by decide,
    (slices_disjoint defaultConfig defaultConfig_ok defaultConfig_paged defaultConfig_limit_fits
      sampleOracle 1 (by decide) sampleState sampleState_init 1
      [.malloc 100, .malloc 40, .free 0x20000020] sliceFinal.1.1 sliceFinal.1.2 sliceFinal.2
      sliceFinal_run).2.1⟩

/-! ## Defects found by evaluation -/

/-- C4 (the code fails the claim): `p = fio_malloc(16)` at `0x20000020`, the
byte `'a'` (97) stored at `p[8]`, then `q = fio_realloc2(p, 16, 16)` returns
`0x20000030` with `q[8] == 0`: `fio_memcpy` copied one `size_t` word (8 bytes)
for the one 16 byte unit. -/
theorem fio_realloc2_loses_bytes :
    realloc_scenario = some (0x20000020, 0x20000030, 97, 0) := by decide

/-- C6 (the code fails the claim): when the kernel refuses the mapping,
`fio_malloc(FIO_MEMORY_BLOCK_ALLOC_LIMIT)` returns the pointer 16, not `NULL`,
after storing the rounded length 36864 at address 0. -/
theorem fio_malloc_oom_not_null : oom_scenario = some (16, 36864) := by decide

/-- C8 (the code fails the claim): after `fio_realloc` shrinks a nine page
large allocation by one page the header holds 32768 while all 36864 bytes are
still mapped, and `fio_free` unmaps the first eight pages only: the ninth stays
mapped. -/
theorem big_realloc_header_mismatch :
    shrink_scenario = some (0x30000010, 0x30000010, 32768, true, true, true) := by decide

/-- C10 (the code fails the claim): after the history of `shrink_scenario` and
`fio_mem_destroy` the recycled list is empty, `arenas` is `NULL`, the arena
array and the block are unmapped, and the ninth page of the large mapping is
still mapped. -/
theorem teardown_leaves_page_mapped :
    teardown_scenario = some (true, [], 0, true, true) := by decide

/-- C5 (the code fails the claim): in `calloc_scenario` every client store goes
into the live allocation `l`, and `fio_calloc(16, 1)` returns `0x30010020` whose
first byte is `'a'` (97): the moved large allocation `0x30011010` has offset
4112 in its block, `fio_free` takes it for a slice of the "block" `0x30010000`
(bytes of `l`), finds the count 1 there and puts that address on the recycled
list. -/
theorem fio_calloc_not_zero :
    calloc_scenario =
      some (0x30000010, 0x40000010, 0x30011010, 0x30010020, 97, [0x30010000, 0x20000000]) := by
  decide

/-- C7 (the claim as written fails): in the sample process the slice at
`0x20007FF0` is the only holder of the block `0x20000000` right after its
allocation (`ref = 1`); `fio_free` of it puts the block on the empty recycled
list, and the `ref` field then reads 4096, the low bits of the list link stored
over the header, which is not smaller than 1. -/
theorem ref_not_smaller_after_reclaim :
    ref_scenario = some (0x20000020, 0x20007FF0, 1, 4096, 4096, [0x20000000]) := by decide

/-- C14 (the claim as written fails): in the default build no `header_units`
gives both `pos = header_units + 1` and `max = B / 16 - 1 - header_units` for
the header that `block_init` writes (`pos` is 2 and `max` is 4095). -/
theorem block_init_no_header_units :
    ¬ ∃ header_units : Nat,
      block_ref (block_init defaultConfig 0x20000000 sampleState).mem 0x20000000 = 1 ∧
      block_pos (block_init defaultConfig 0x20000000 sampleState).mem 0x20000000 =
        header_units + 1 ∧
      block_max (block_init defaultConfig 0x20000000 sampleState).mem 0x20000000 =
        defaultConfig.FIO_MEMORY_BLOCK_SIZE / 16 - 1 - header_units := by
  rintro ⟨h, _, h1, h2⟩
  obtain ⟨_, e2, e3⟩ := block_init_header defaultConfig 0x20000000 sampleState
  have e4 : (defaultConfig.FIO_MEMORY_BLOCK_SLICES - 1) % 65536 = 4095 := by decide
  have e5 : defaultConfig.FIO_MEMORY_BLOCK_SIZE / 16 - 1 = 4095 := by decide
  rw [e2] at h1
  rw [e3, e4, e5] at h2
  omega

/-- C15 (the code fails the claim): right after `fio_mem_init` on one core, with
every reservation granted, `memory.count` is -1 while one block is on
`memory.available` and `memory.cores` is 1: the pre-seeded block was pushed
without being counted. -/
theorem pool_counter_misses_preseed :
    (sampleState.count, sampleState.available.length, sampleState.cores) = (-1, 1, 1) := by
  decide

theorem arena_lock_loop_stuck (fuel : Nat) :
    arena_lock_loop fuel stuckState.arenas stuckState.cores 0 = none := by
  induction fuel with
  | zero => rfl
  | succ n ih =>
    rw [arena_lock_loop]
    have e : arena_lock_sweep stuckState.arenas stuckState.cores 0 = none := by decide
    rw [e]
    exact ih

/-- C16 (the code fails the claim): with two arenas of which the first is free
and the second is held, `arena_lock` called with the second arena as the
preferred one never returns, however many sweeps it makes: the first sweep
starts at the preferred arena, and every later sweep skips the first arena. -/
theorem arena_lock_skips_first (fuel : Nat) : arena_lock fuel (some 1) stuckState = none := by
  have e0 : arenaLocked stuckState.arenas ((some 1 : Option Nat).getD 0) = true := by decide
  unfold arena_lock
  dsimp only
  rw [e0]
  have e1 : arena_lock_loop fuel stuckState.arenas stuckState.cores ((some 1 : Option Nat).getD 0)
      = none := by
    cases fuel with
    | zero => rfl
    | succ n =>
      rw [arena_lock_loop]
      have e : arena_lock_sweep stuckState.arenas stuckState.cores
          ((some 1 : Option Nat).getD 0) = none := by decide
      rw [e]
      exact arena_lock_loop_stuck n
  rw [e1]
  rfl

/-- C17 (the claim as written fails): the second `fio_malloc` returns `NULL`,
yet the arena's block changed from `0x20000000` to `NULL` and the `ref` of that
block from 2 to 1. -/
theorem small_malloc_failure_not_atomic :
    rotate_fail_scenario = some (0x20000020, 0, 0x20000000, 0, 2, 1) := by decide

/-- C21 (the code fails the claim): `fio_memcpy(dest, src, 1)` copies the bytes
0 to 7 of the unit and leaves the bytes 8 to 15 of the destination as they
were, and after `fio_memcpy(dest, src, 16)` the byte at offset 128 of the
destination is still 0 while the source holds 129 there: the cases 1 to 15
copy one 8 byte word per 16 byte unit, and the `default` case copies 128 bytes
without advancing the pointers. -/
theorem fio_memcpy_copies_half :
    memcpy_scenario =
      ([1, 2, 3, 4, 5, 6, 7, 8, 0, 0, 0, 0, 0, 0, 0, 0],
        [1, 2, 3, 4, 5, 6, 7, 8, 9, 10, 11, 12, 13, 14, 15, 16], 0, 129) := by
  decide

end FioMem
